import Mathlib

/-!
# D-Bus bindings: variant value, containers, signature codec, marshaller, errors,
messages, proxy, connection, socket watches and native-type conversion

A shallow embedding of `tqdbusdata.cpp`, `tqdbusdatalist.cpp`, `tqdbusdatamap.h`,
`tqdbusobjectpath.cpp`, `tqdbusunixfd.cpp`, `tqdbusvariant.h`, `tqdbusmarshall.cpp`,
`tqdbuserror.cpp`, `tqdbusmessage.cpp`, `tqdbusproxy.cpp`, `tqdbusconnection.cpp`,
`tqdbusintegrator.cpp` and `tqdbusdataconverter.cpp`.

Conventions of the embedding:

* `TQString` is a `String`; the null and the empty `TQString` compare equal in the
  source and are both `""` here.
* `TQCString` and `char*` are `List Char`; the null `TQCString` is `[]`.  Every
  signature the source builds is either null or non-empty, so comparing
  signatures as lists agrees with `qstrcmp`.
* Integer payloads are `Nat` (unsigned) and `Int` (signed); they range over the
  values of the C++ type and no arithmetic is done on them, except by `TQRect`,
  whose `int` arithmetic wraps at 32 bits (`wrapInt32`).
* A `double` payload is its IEEE-754 binary64 bit pattern.
* `bool* ok` is an `Option Bool`: `none` is the null pointer, `some b` a flag that
  currently holds `b`; an accessor returns the flag as it leaves it.
* The ten instantiations of `TQT_DBusDataMap<T>` are one structure whose field
  `keyType` names the instantiation; keys carry the tag of their C++ type.
* Implicit sharing is not modelled: objects are values, and the pointer shortcuts
  of the equality operators (same object, same shared content) are left out.
  The one exception is `TQT_DBusUnixFd`, whose equality is nothing but the
  comparison of the pointers to the shared record: a handle carries the identity
  of its record (`UnixFdRecord`).
-/

/-- The enum `TQT_DBusData::Type`. -/
inductive TQT_DBusType where
  | Invalid | Bool | Byte | Int16 | UInt16 | Int32 | UInt32 | Int64 | UInt64
  | Double | String | ObjectPath | UnixFd | List | Struct | Variant | Map
  deriving DecidableEq, Repr

/-- The class `TQT_DBusObjectPath`: a `TQString` holding the path. -/
structure TQT_DBusObjectPath where
  path : String
  deriving DecidableEq, Repr

/-- The function `TQT_DBusObjectPath::validate`: `-1` when the path is valid, else the
index of the offending character. -/
def TQT_DBusObjectPath.validate (path : String) : Int :=
  let cs := path.toList
  if cs.isEmpty || cs.head? != some '/' then 0
  else if cs.getLast? == some '/' && cs.length > 1 then (cs.length : Int) - 1
  else -1

/-- The method `TQT_DBusObjectPath::isValid`. -/
def TQT_DBusObjectPath.isValid (p : TQT_DBusObjectPath) : Bool :=
  TQT_DBusObjectPath.validate p.path == -1

/-- The identity of a shared record `TQT_DBusUnixFdPrivate`.  A record that a constructor call
of the program allocates is known by the address `new` returns for it.  The
record the decoder allocates for a descriptor it is handed is known by that
descriptor: the library hands over a descriptor of its own with every value. -/
inductive UnixFdRecord where
  | allocated (address : Nat)
  | received (fd : Int)
  deriving DecidableEq, Repr

/-- The class `TQT_DBusUnixFd`: the pointer `d` to its shared record, given by the identity of
the record, and the descriptor `d->fd` the record holds.  A copy shares the record
of its original; the pointer is never null once a constructor has returned. -/
structure TQT_DBusUnixFd where
  d : UnixFdRecord
  fd : Int
  deriving DecidableEq, Repr

/-- The default constructor `TQT_DBusUnixFd()`: a new record, at `address`, with descriptor
`-1`. -/
def TQT_DBusUnixFd.null (address : Nat) : TQT_DBusUnixFd := ⟨.allocated address, -1⟩

/-- The method `TQT_DBusUnixFd::isValid`. -/
def TQT_DBusUnixFd.isValid (h : TQT_DBusUnixFd) : Bool := h.fd != -1

/-- The operator `TQT_DBusUnixFd::operator==`: `(&other == this) || (other.d == d)`; one and the
same object has one pointer, so this is the comparison of the two pointers. -/
def TQT_DBusUnixFd.operatorEq (h other : TQT_DBusUnixFd) : Bool := other.d == h.d

/-- The operator `TQT_DBusUnixFd::operator!=`: `(&other != this) && (other.d != d)`. -/
def TQT_DBusUnixFd.operatorNe (h other : TQT_DBusUnixFd) : Bool := other.d != h.d

/-- The key types `TQT_DBusDataMap<T>` is instantiated for: the ten values the static
`m_keyType` takes, which are all that the field `keyType` of a Map object is
ever assigned. -/
inductive MapKeyType where
  | Byte | Int16 | UInt16 | Int32 | UInt32 | Int64 | UInt64 | String | ObjectPath | UnixFd
  deriving DecidableEq, Repr

/-- The value of `TQT_DBusData::Type` a key type is. -/
def MapKeyType.toType : MapKeyType → TQT_DBusType
  | .Byte => .Byte
  | .Int16 => .Int16
  | .UInt16 => .UInt16
  | .Int32 => .Int32
  | .UInt32 => .UInt32
  | .Int64 => .Int64
  | .UInt64 => .UInt64
  | .String => .String
  | .ObjectPath => .ObjectPath
  | .UnixFd => .UnixFd

/-- The case a `switch` over the ten key types takes for a type; `none` is its default. -/
def mapKeyTypeOf : TQT_DBusType → Option MapKeyType
  | .Byte => some .Byte
  | .Int16 => some .Int16
  | .UInt16 => some .UInt16
  | .Int32 => some .Int32
  | .UInt32 => some .UInt32
  | .Int64 => some .Int64
  | .UInt64 => some .UInt64
  | .String => some .String
  | .ObjectPath => some .ObjectPath
  | .UnixFd => some .UnixFd
  | _ => none

/-- A key of a `TQT_DBusDataMap<T>`, tagged with the instantiation `T` it belongs to
(`TQ_UINT8`, `TQ_INT16`, ..., `TQString`, `TQT_DBusObjectPath`, `TQT_DBusUnixFd`). -/
inductive MapKey where
  | byte (v : Nat)
  | int16 (v : Int)
  | uint16 (v : Nat)
  | int32 (v : Int)
  | uint32 (v : Nat)
  | int64 (v : Int)
  | uint64 (v : Nat)
  | string (v : String)
  | objectPath (v : TQT_DBusObjectPath)
  | unixFd (v : TQT_DBusUnixFd)
  deriving DecidableEq, Repr

/-- The operator `operator!=` of the key type on two keys of one instantiation: the comparison
of the values, and for `TQT_DBusUnixFd` that of the record pointers. -/
def MapKey.operatorNe : MapKey → MapKey → Bool
  | .unixFd a, other => match other with
      | .unixFd b => a.operatorNe b
      | _ => true
  | a, b => a != b

/-- The class `TQT_DBusData` with its `Private` content: the type tag selects the live
member of the value union.  `list` holds the fields of the `TQT_DBusDataList` it
points to, `variant` those of the `TQT_DBusVariant`, `map` the key type together
with the fields of the `TQT_DBusDataMap<T>` (entries in key order). -/
inductive TQT_DBusData where
  | invalid
  | bool (v : Bool)
  | byte (v : Nat)
  | int16 (v : Int)
  | uint16 (v : Nat)
  | int32 (v : Int)
  | uint32 (v : Nat)
  | int64 (v : Int)
  | uint64 (v : Nat)
  | double (bits : Nat)
  | string (v : String)
  | objectPath (v : TQT_DBusObjectPath)
  | unixFd (v : TQT_DBusUnixFd)
  | list (type : TQT_DBusType) (containerItem : TQT_DBusData) (items : List TQT_DBusData)
  | struct (members : List TQT_DBusData)
  | variant (signature : String) (value : TQT_DBusData)
  | map (keyType : MapKeyType) (valueType : TQT_DBusType) (containerValueType : TQT_DBusData)
      (entries : List (MapKey × TQT_DBusData))

instance : Inhabited TQT_DBusData := ⟨TQT_DBusData.invalid⟩

/-- The private part of `TQT_DBusDataList`. -/
structure TQT_DBusDataList where
  type : TQT_DBusType
  containerItem : TQT_DBusData
  list : List TQT_DBusData

/-- The class `TQT_DBusVariant`. -/
structure TQT_DBusVariant where
  signature : String
  value : TQT_DBusData

/-- The class template `TQT_DBusDataMap<T>`; `keyType` is the static `m_keyType` of the
instantiation and `entries` the inherited `TQMap<T, TQT_DBusData>` in key order. -/
structure TQT_DBusDataMap where
  keyType : MapKeyType
  valueType : TQT_DBusType
  containerValueType : TQT_DBusData
  entries : List (MapKey × TQT_DBusData)

/-- The statement `if (ok != 0) *ok = b;`. -/
def setOk (ok : Option Bool) (b : Bool) : Option Bool := ok.map (fun _ => b)

namespace TQT_DBusData

/-- The method `TQT_DBusData::type`. -/
def type : TQT_DBusData → TQT_DBusType
  | .invalid => .Invalid
  | .bool _ => .Bool
  | .byte _ => .Byte
  | .int16 _ => .Int16
  | .uint16 _ => .UInt16
  | .int32 _ => .Int32
  | .uint32 _ => .UInt32
  | .int64 _ => .Int64
  | .uint64 _ => .UInt64
  | .double _ => .Double
  | .string _ => .String
  | .objectPath _ => .ObjectPath
  | .unixFd _ => .UnixFd
  | .list _ _ _ => .List
  | .struct _ => .Struct
  | .variant _ _ => .Variant
  | .map _ _ _ _ => .Map

/-- The method `TQT_DBusData::keyType`. -/
def keyType : TQT_DBusData → TQT_DBusType
  | .map k _ _ _ => k.toType
  | _ => .Invalid

/-- The inline method `TQT_DBusData::isValid`. -/
def isValid (d : TQT_DBusData) : Bool := d.type != .Invalid

/-! The factories `fromBool` ... `fromString` set the type and write the matching member of
the value union. -/

def fromBool (value : Bool) : TQT_DBusData := .bool value
def fromByte (value : Nat) : TQT_DBusData := .byte value
def fromInt16 (value : Int) : TQT_DBusData := .int16 value
def fromUInt16 (value : Nat) : TQT_DBusData := .uint16 value
def fromInt32 (value : Int) : TQT_DBusData := .int32 value
def fromUInt32 (value : Nat) : TQT_DBusData := .uint32 value
def fromInt64 (value : Int) : TQT_DBusData := .int64 value
def fromUInt64 (value : Nat) : TQT_DBusData := .uint64 value
def fromDouble (value : Nat) : TQT_DBusData := .double value
def fromString (value : String) : TQT_DBusData := .string value

/-- The factory `TQT_DBusData::fromObjectPath`: an invalid path gives an Invalid object. -/
def fromObjectPath (value : TQT_DBusObjectPath) : TQT_DBusData :=
  if value.isValid then .objectPath value else .invalid

/-- The factory `TQT_DBusData::fromUnixFd`: an invalid handle gives an Invalid object. -/
def fromUnixFd (value : TQT_DBusUnixFd) : TQT_DBusData :=
  if value.isValid then .unixFd value else .invalid

/-- The factory `TQT_DBusData::fromList`. -/
def fromList (list : TQT_DBusDataList) : TQT_DBusData :=
  if list.type == .Invalid then .invalid
  else .list list.type list.containerItem list.list

/-- The factory `TQT_DBusData::fromStruct`: the loop returns the Invalid object at the
first Invalid member; otherwise the member list is stored. -/
def fromStruct (memberList : List TQT_DBusData) : TQT_DBusData :=
  if memberList.any (fun m => m.type == .Invalid) then .invalid
  else .struct memberList

/-- The factory `TQT_DBusData::fromVariant`. -/
def fromVariant (value : TQT_DBusVariant) : TQT_DBusData :=
  .variant value.signature value.value

/-- The factories `TQT_DBusData::fromByteKeyMap` ... `fromUnixFdKeyMap`: all ten have the
same body, storing `map.keyType()` and a copy of the map. -/
def fromKeyMap (map : TQT_DBusDataMap) : TQT_DBusData :=
  .map map.keyType map.valueType map.containerValueType map.entries

/-! The accessors `toBool` ... `toVariant`: when the type is not the accessor's, the flag is
set to false (if there is one) and the default of the kind returned; otherwise
the flag is set to true and the stored payload returned.  The result is the
returned value and the flag after the call. -/

def toBool (d : TQT_DBusData) (ok : Option Bool) : Bool × Option Bool :=
  match d with
  | .bool v => (v, setOk ok true)
  | _ => (false, setOk ok false)

def toByte (d : TQT_DBusData) (ok : Option Bool) : Nat × Option Bool :=
  match d with
  | .byte v => (v, setOk ok true)
  | _ => (0, setOk ok false)

def toInt16 (d : TQT_DBusData) (ok : Option Bool) : Int × Option Bool :=
  match d with
  | .int16 v => (v, setOk ok true)
  | _ => (0, setOk ok false)

def toUInt16 (d : TQT_DBusData) (ok : Option Bool) : Nat × Option Bool :=
  match d with
  | .uint16 v => (v, setOk ok true)
  | _ => (0, setOk ok false)

def toInt32 (d : TQT_DBusData) (ok : Option Bool) : Int × Option Bool :=
  match d with
  | .int32 v => (v, setOk ok true)
  | _ => (0, setOk ok false)

def toUInt32 (d : TQT_DBusData) (ok : Option Bool) : Nat × Option Bool :=
  match d with
  | .uint32 v => (v, setOk ok true)
  | _ => (0, setOk ok false)

def toInt64 (d : TQT_DBusData) (ok : Option Bool) : Int × Option Bool :=
  match d with
  | .int64 v => (v, setOk ok true)
  | _ => (0, setOk ok false)

def toUInt64 (d : TQT_DBusData) (ok : Option Bool) : Nat × Option Bool :=
  match d with
  | .uint64 v => (v, setOk ok true)
  | _ => (0, setOk ok false)

/-- The accessor `TQT_DBusData::toDouble`; the bit pattern `0` is `0.0`. -/
def toDouble (d : TQT_DBusData) (ok : Option Bool) : Nat × Option Bool :=
  match d with
  | .double v => (v, setOk ok true)
  | _ => (0, setOk ok false)

def toString (d : TQT_DBusData) (ok : Option Bool) : String × Option Bool :=
  match d with
  | .string v => (v, setOk ok true)
  | _ => ("", setOk ok false)

def toObjectPath (d : TQT_DBusData) (ok : Option Bool) : TQT_DBusObjectPath × Option Bool :=
  match d with
  | .objectPath v => (v, setOk ok true)
  | _ => (⟨""⟩, setOk ok false)

/-- The accessor `TQT_DBusData::toUnixFd`; `address` is where `new` puts the record of the
default handle that is constructed when the type is not UnixFd. -/
def toUnixFd (d : TQT_DBusData) (ok : Option Bool) (address : Nat) :
    TQT_DBusUnixFd × Option Bool :=
  match d with
  | .unixFd v => (v, setOk ok true)
  | _ => (TQT_DBusUnixFd.null address, setOk ok false)

def toList (d : TQT_DBusData) (ok : Option Bool) : TQT_DBusDataList × Option Bool :=
  match d with
  | .list t c items => (⟨t, c, items⟩, setOk ok true)
  | _ => (⟨.Invalid, .invalid, []⟩, setOk ok false)

def toStruct (d : TQT_DBusData) (ok : Option Bool) : List TQT_DBusData × Option Bool :=
  match d with
  | .struct members => (members, setOk ok true)
  | _ => ([], setOk ok false)

def toVariant (d : TQT_DBusData) (ok : Option Bool) : TQT_DBusVariant × Option Bool :=
  match d with
  | .variant s v => (⟨s, v⟩, setOk ok true)
  | _ => (⟨"", .invalid⟩, setOk ok false)

end TQT_DBusData

/-! ## Signature building (`tqdbusdata.cpp`) -/

/-- The test shared by `TQT_DBusDataList::hasContainerItemType` and
`TQT_DBusDataMap::hasContainerValueType`. -/
def isContainerType (t : TQT_DBusType) : Bool :=
  t == .List || t == .Map || t == .Struct

/-- The static `qDBusTypeForTQT_DBusType` of `tqdbusdata.cpp`: the type code of a
non-container type, null for Invalid and for the container types. -/
def qDBusTypeForTQT_DBusType : TQT_DBusType → List Char
  | .Invalid => []
  | .Bool => ['b']
  | .Byte => ['y']
  | .Int16 => ['n']
  | .UInt16 => ['q']
  | .Int32 => ['i']
  | .UInt32 => ['u']
  | .Int64 => ['x']
  | .UInt64 => ['t']
  | .Double => ['d']
  | .String => ['s']
  | .ObjectPath => ['o']
  | .UnixFd => ['h']
  | .Variant => ['v']
  | _ => []

mutual
/-- The method `TQT_DBusData::buildDBusSignature` (with `qDBusSignatureForMapValue`
inlined in the Map case). -/
def TQT_DBusData.buildDBusSignature : TQT_DBusData → List Char
  | .list type containerItem _ =>
      'a' :: (if isContainerType type then containerItem.buildDBusSignature
              else qDBusTypeForTQT_DBusType type)
  | .struct members => '(' :: (buildMemberSignatures members ++ [')'])
  | .map keyType valueType containerValueType _ =>
      'a' :: '{' :: (qDBusTypeForTQT_DBusType keyType.toType ++
        ((if isContainerType valueType then containerValueType.buildDBusSignature
          else qDBusTypeForTQT_DBusType valueType) ++ ['}']))
  | .invalid => qDBusTypeForTQT_DBusType .Invalid
  | .bool _ => qDBusTypeForTQT_DBusType .Bool
  | .byte _ => qDBusTypeForTQT_DBusType .Byte
  | .int16 _ => qDBusTypeForTQT_DBusType .Int16
  | .uint16 _ => qDBusTypeForTQT_DBusType .UInt16
  | .int32 _ => qDBusTypeForTQT_DBusType .Int32
  | .uint32 _ => qDBusTypeForTQT_DBusType .UInt32
  | .int64 _ => qDBusTypeForTQT_DBusType .Int64
  | .uint64 _ => qDBusTypeForTQT_DBusType .UInt64
  | .double _ => qDBusTypeForTQT_DBusType .Double
  | .string _ => qDBusTypeForTQT_DBusType .String
  | .objectPath _ => qDBusTypeForTQT_DBusType .ObjectPath
  | .unixFd _ => qDBusTypeForTQT_DBusType .UnixFd
  | .variant _ _ => qDBusTypeForTQT_DBusType .Variant
/-- The loop of the Struct case: the members' signatures, concatenated in order. -/
def buildMemberSignatures : List TQT_DBusData → List Char
  | [] => []
  | m :: rest => m.buildDBusSignature ++ buildMemberSignatures rest
end

/-! ## `TQT_DBusDataList` (`tqdbusdatalist.cpp`) -/

namespace TQT_DBusDataList

/-- The constructor `TQT_DBusDataList()`. -/
def default : TQT_DBusDataList := ⟨.Invalid, .invalid, []⟩

/-- The constructor `TQT_DBusDataList(TQT_DBusData::Type simpleItemType)`. -/
def ofType (simpleItemType : TQT_DBusType) : TQT_DBusDataList :=
  ⟨simpleItemType, .invalid, []⟩

/-- The constructor `TQT_DBusDataList(const TQT_DBusData& containerItemType)`. -/
def ofContainerItemType (containerItemType : TQT_DBusData) : TQT_DBusDataList :=
  ⟨containerItemType.type,
   if isContainerType containerItemType.type then containerItemType else .invalid, []⟩

/-- The method `TQT_DBusDataList::hasContainerItemType`. -/
def hasContainerItemType (l : TQT_DBusDataList) : Bool := isContainerType l.type

/-- The method `TQT_DBusDataList::containerItemType`. -/
def containerItemType (l : TQT_DBusDataList) : TQT_DBusData := l.containerItem

/-- The method `TQT_DBusDataList::count`. -/
def count (l : TQT_DBusDataList) : Nat := l.list.length

/-- The method `TQT_DBusDataList::toTQValueList`. -/
def toTQValueList (l : TQT_DBusDataList) : List TQT_DBusData := l.list

/-- The loop `for (++it; it != endIt; ++it)` of the constructor and of the assignment
from a `TQValueList<TQT_DBusData>`: `false` when it leaves through one of its two
`return`s (a different type, or a different signature for container items). -/
def restMatches (type : TQT_DBusType) (elementSignature : List Char) :
    List TQT_DBusData → Bool
  | [] => true
  | it :: rest =>
      if type != it.type then false
      else if isContainerType type && it.buildDBusSignature != elementSignature then false
      else restMatches type elementSignature rest

/-- The constructor `TQT_DBusDataList(const TQValueList<TQT_DBusData>& other)`. -/
def ofTQValueList (other : List TQT_DBusData) : TQT_DBusDataList :=
  match other with
  | [] => ⟨.Invalid, .invalid, []⟩
  | first :: rest =>
      let type := first.type
      let containerItem := if isContainerType type then first else .invalid
      let elementSignature :=
        if isContainerType type then containerItem.buildDBusSignature else []
      if restMatches type elementSignature rest then ⟨type, containerItem, first :: rest⟩
      else ⟨.Invalid, .invalid, []⟩

def ofBoolList (other : List Bool) : TQT_DBusDataList :=
  ⟨.Bool, .invalid, other.map TQT_DBusData.fromBool⟩
def ofByteList (other : List Nat) : TQT_DBusDataList :=
  ⟨.Byte, .invalid, other.map TQT_DBusData.fromByte⟩
def ofInt16List (other : List Int) : TQT_DBusDataList :=
  ⟨.Int16, .invalid, other.map TQT_DBusData.fromInt16⟩
def ofUInt16List (other : List Nat) : TQT_DBusDataList :=
  ⟨.UInt16, .invalid, other.map TQT_DBusData.fromUInt16⟩
def ofInt32List (other : List Int) : TQT_DBusDataList :=
  ⟨.Int32, .invalid, other.map TQT_DBusData.fromInt32⟩
def ofUInt32List (other : List Nat) : TQT_DBusDataList :=
  ⟨.UInt32, .invalid, other.map TQT_DBusData.fromUInt32⟩
def ofInt64List (other : List Int) : TQT_DBusDataList :=
  ⟨.Int64, .invalid, other.map TQT_DBusData.fromInt64⟩
def ofUInt64List (other : List Nat) : TQT_DBusDataList :=
  ⟨.UInt64, .invalid, other.map TQT_DBusData.fromUInt64⟩
def ofDoubleList (other : List Nat) : TQT_DBusDataList :=
  ⟨.Double, .invalid, other.map TQT_DBusData.fromDouble⟩
def ofVariantList (other : List TQT_DBusVariant) : TQT_DBusDataList :=
  ⟨.Variant, .invalid, other.map TQT_DBusData.fromVariant⟩
def ofTQStringList (other : List String) : TQT_DBusDataList :=
  ⟨.String, .invalid, other.map TQT_DBusData.fromString⟩

/-- The constructor `TQT_DBusDataList(const TQValueList<TQT_DBusObjectPath>& other)`: the type
is set to ObjectPath and `fromObjectPath` of every path is appended to the
private `TQValueList` with its own unchecked `operator<<`. -/
def ofObjectPathList (other : List TQT_DBusObjectPath) : TQT_DBusDataList :=
  ⟨.ObjectPath, .invalid, other.map TQT_DBusData.fromObjectPath⟩

/-- The constructor `TQT_DBusDataList(const TQValueList<TQT_DBusUnixFd>& other)`. -/
def ofUnixFdList (other : List TQT_DBusUnixFd) : TQT_DBusDataList :=
  ⟨.UnixFd, .invalid, other.map TQT_DBusData.fromUnixFd⟩

/-- The operator `operator=(const TQT_DBusDataList& other)`. -/
def assign (_self other : TQT_DBusDataList) : TQT_DBusDataList :=
  ⟨other.type, other.containerItem, other.list⟩

/-- The operator `operator=(const TQValueList<TQT_DBusData>& other)`: the list is cleared
and then rebuilt exactly as by the constructor. -/
def assignTQValueList (_self : TQT_DBusDataList) (other : List TQT_DBusData) :
    TQT_DBusDataList :=
  match other with
  | [] => ⟨.Invalid, .invalid, []⟩
  | first :: rest =>
      let type := first.type
      let containerItem := if isContainerType type then first else .invalid
      let elementSignature :=
        if isContainerType type then containerItem.buildDBusSignature else []
      if restMatches type elementSignature rest then ⟨type, containerItem, first :: rest⟩
      else ⟨.Invalid, .invalid, []⟩

/-- The operator `operator=(const TQStringList& other)`. -/
def assignTQStringList (_self : TQT_DBusDataList) (other : List String) :
    TQT_DBusDataList :=
  ⟨.String, .invalid, other.map TQT_DBusData.fromString⟩

/-- The method `TQT_DBusDataList::clear`: only the element list is emptied. -/
def clear (l : TQT_DBusDataList) : TQT_DBusDataList := { l with list := [] }

/-- The operator `TQT_DBusDataList::operator<<`. -/
def append (l : TQT_DBusDataList) (data : TQT_DBusData) : TQT_DBusDataList :=
  if data.type == .Invalid then l
  else if l.type == .Invalid then
    ⟨data.type, if isContainerType data.type then data else l.containerItem,
     l.list ++ [data]⟩
  else if l.type != data.type then l
  else if isContainerType l.type then
    if l.containerItem.buildDBusSignature != data.buildDBusSignature then l
    else { l with list := l.list ++ [data] }
  else { l with list := l.list ++ [data] }

end TQT_DBusDataList

/-- The factory `TQT_DBusData::fromTQValueList`: `fromList(TQT_DBusDataList(list))`. -/
def TQT_DBusData.fromTQValueList (list : List TQT_DBusData) : TQT_DBusData :=
  TQT_DBusData.fromList (TQT_DBusDataList.ofTQValueList list)

/-- The accessor `TQT_DBusData::toTQValueList`: `toList` is called with the local flag
`internalOk`, which starts as false; the caller's flag is written only in the
branch taken when `internalOk` is still false. -/
def TQT_DBusData.toTQValueList (d : TQT_DBusData) (ok : Option Bool) :
    List TQT_DBusData × Option Bool :=
  let r := d.toList (some false)
  if r.2 != some true then ([], setOk ok false)
  else (r.1.toTQValueList, ok)

/-! ## `TQT_DBusDataMap<T>` (`tqdbusdatamap.h`) -/

namespace TQT_DBusDataMap

/-- The constructor `TQT_DBusDataMap<T>()`. -/
def default (keyType : MapKeyType) : TQT_DBusDataMap := ⟨keyType, .Invalid, .invalid, []⟩

/-- The constructor `TQT_DBusDataMap<T>(TQT_DBusData::Type simpleValueType)`. -/
def ofType (keyType : MapKeyType) (simpleValueType : TQT_DBusType) : TQT_DBusDataMap :=
  ⟨keyType, simpleValueType, .invalid, []⟩

/-- The constructor `TQT_DBusDataMap<T>(const TQT_DBusData& containerValueType)`. -/
def ofContainerValueType (keyType : MapKeyType) (containerValueType : TQT_DBusData) :
    TQT_DBusDataMap :=
  ⟨keyType, containerValueType.type,
   if isContainerType containerValueType.type then containerValueType else .invalid, []⟩

/-- The method `hasContainerValueType`. -/
def hasContainerValueType (m : TQT_DBusDataMap) : Bool := isContainerType m.valueType

/-- The method `count`. -/
def count (m : TQT_DBusDataMap) : Nat := m.entries.length

/-- The method `toTQMap`. -/
def toTQMap (m : TQT_DBusDataMap) : List (MapKey × TQT_DBusData) := m.entries

/-- The loop `for (++it; it != end(); ++it)` of the constructor from a `TQMap`: `false`
when it leaves through one of its two `return`s. -/
def restMatches (valueType : TQT_DBusType) (containerSignature : List Char) :
    List (MapKey × TQT_DBusData) → Bool
  | [] => true
  | it :: rest =>
      if it.2.type != valueType then false
      else if isContainerType valueType && it.2.buildDBusSignature != containerSignature
      then false
      else restMatches valueType containerSignature rest

/-- The constructor `TQT_DBusDataMap<T>(const TQMap<T, TQT_DBusData>& other)`; `other` is given
by its entries in key order. -/
def ofTQMap (keyType : MapKeyType) (other : List (MapKey × TQT_DBusData)) :
    TQT_DBusDataMap :=
  match other with
  | [] => ⟨keyType, .Invalid, .invalid, []⟩
  | first :: rest =>
      let valueType := first.2.type
      let containerValueType := if isContainerType valueType then first.2 else .invalid
      let containerSignature :=
        if isContainerType valueType then containerValueType.buildDBusSignature else []
      if restMatches valueType containerSignature rest then
        ⟨keyType, valueType, containerValueType, first :: rest⟩
      else ⟨keyType, .Invalid, .invalid, []⟩

end TQT_DBusDataMap

/-! ## Equality (`TQT_DBusData::operator==` and the operators it calls) -/

/-- A binary64 bit pattern is a NaN: exponent all ones, fraction not zero. -/
def doubleIsNaN (bits : Nat) : Bool :=
  (bits / 2 ^ 52) % 2 ^ 11 == 2 ^ 11 - 1 && bits % 2 ^ 52 != 0

/-- The operator `==` of C++ on two `double`s given by their bit patterns: false when
either is a NaN, true for two zeros of either sign, else equality of the patterns. -/
def doubleEq (a b : Nat) : Bool :=
  !doubleIsNaN a && !doubleIsNaN b &&
    (a % 2 ^ 64 == b % 2 ^ 64 || (a % 2 ^ 63 == 0 && b % 2 ^ 63 == 0))

/-- The read of `other.d->value.uint64Value` made by the UInt32 case of `operator==`, on
an object that `fromUInt32` built: `fromUInt32` writes the four bytes of
`uint32Value` and leaves the other four bytes of the union as the allocation
delivered them (`Private()` does not initialise the union).  `stale` is the
content of these four bytes; the layout is little-endian. -/
def readUInt64OfUInt32 (stale : Nat) (uint32Value : Nat) : Nat :=
  uint32Value % 2 ^ 32 + 2 ^ 32 * (stale % 2 ^ 32)

mutual
/-- The operator `TQT_DBusData::operator==` on two objects with separately allocated
contents (the two pointer shortcuts at its head do not apply).  `stale` is what
the unwritten half of the union of a UInt32 object holds, see
`readUInt64OfUInt32`.  The List, Struct, Variant and Map cases inline the
equality operators of `TQT_DBusDataList`, `TQValueList`, `TQT_DBusVariant` and
`TQT_DBusDataMap<T>`. -/
def TQT_DBusData.operatorEq (stale : Nat) : TQT_DBusData → TQT_DBusData → Bool
  | .invalid, other => match other with
      | .invalid => true
      | _ => false
  | .bool a, other => match other with
      | .bool b => a == b
      | _ => false
  | .byte a, other => match other with
      | .byte b => a == b
      | _ => false
  | .int16 a, other => match other with
      | .int16 b => a == b
      | _ => false
  | .uint16 a, other => match other with
      | .uint16 b => a == b
      | _ => false
  | .int32 a, other => match other with
      | .int32 b => a == b
      | _ => false
  | .uint32 a, other => match other with
      | .uint32 b => a % 2 ^ 32 == readUInt64OfUInt32 stale b
      | _ => false
  | .int64 a, other => match other with
      | .int64 b => a == b
      | _ => false
  | .uint64 a, other => match other with
      | .uint64 b => a == b
      | _ => false
  | .double a, other => match other with
      | .double b => doubleEq a b
      | _ => false
  | .string a, other => match other with
      | .string b => a == b
      | _ => false
  | .objectPath a, other => match other with
      | .objectPath b => a == b
      | _ => false
  | .unixFd a, other => match other with
      | .unixFd b => a.operatorEq b
      | _ => false
  | .list t c xs, other => match other with
      | .list t2 c2 ys =>
          let containerEqual :=
            if isContainerType t then
              (if isContainerType t2 then c.buildDBusSignature == c2.buildDBusSignature
               else false)
            else if isContainerType t2 then false
            else true
          t == t2 && containerEqual && valueListEq stale xs ys
      | _ => false
  | .struct xs, other => match other with
      | .struct ys => valueListEq stale xs ys
      | _ => false
  | .variant s v, other => match other with
      | .variant s2 v2 => s == s2 && TQT_DBusData.operatorEq stale v v2
      | _ => false
  | .map k vt c es, other => match other with
      | .map k2 vt2 c2 es2 =>
          if k != k2 then false
          else if vt != vt2 then false
          else if es.length != es2.length then false
          else if isContainerType vt != isContainerType vt2 then false
          else if isContainerType vt && c.buildDBusSignature != c2.buildDBusSignature
          then false
          else mapEntriesEq stale es es2
      | _ => false
/-- The operator `TQValueList<TQT_DBusData>::operator==`: same length and equal elements. -/
def valueListEq (stale : Nat) : List TQT_DBusData → List TQT_DBusData → Bool
  | [], other => other.isEmpty
  | x :: xs, other => match other with
      | y :: ys => TQT_DBusData.operatorEq stale x y && valueListEq stale xs ys
      | [] => false
/-- The loop of `TQT_DBusDataMap<T>::operator==` over the two maps in step. -/
def mapEntriesEq (stale : Nat) :
    List (MapKey × TQT_DBusData) → List (MapKey × TQT_DBusData) → Bool
  | [], _ => true
  | (k, x) :: xs, other => match other with
      | (k2, y) :: ys =>
          if MapKey.operatorNe k k2 then false
          else if !TQT_DBusData.operatorEq stale x y then false
          else mapEntriesEq stale xs ys
      | [] => true
end

/-- The operator `TQT_DBusDataList::operator==`. -/
def TQT_DBusDataList.operatorEq (stale : Nat) (a b : TQT_DBusDataList) : Bool :=
  let containerEqual :=
    if a.hasContainerItemType then
      (if b.hasContainerItemType then
         a.containerItem.buildDBusSignature == b.containerItem.buildDBusSignature
       else false)
    else if b.hasContainerItemType then false
    else true
  a.type == b.type && containerEqual && valueListEq stale a.list b.list

/-! ## Signature parsing (`tqdbusmarshall.cpp`) -/

/-- The accessors `TQT_DBusData::toByteKeyMap` ... `toUnixFdKeyMap` for the instantiation with
key type `K`.  Their guard is `d->type != Map && d->keyType != m_keyType`; the
field `d->keyType` of an object that is not a Map is Invalid, so the guard holds
exactly for the objects that are not Maps.  For every Map the stored map is
returned through a cast to `TQT_DBusDataMap<T>*`, whatever its key type is. -/
def TQT_DBusData.toKeyMap (K : MapKeyType) (d : TQT_DBusData) (ok : Option Bool) :
    TQT_DBusDataMap × Option Bool :=
  match d with
  | .map _ vt c es => (⟨K, vt, c, es⟩, setOk ok true)
  | _ => (TQT_DBusDataMap.default K, setOk ok false)

/-- The static `qSingleTypeForDBusSignature`. -/
def qSingleTypeForDBusSignature (signature : Char) : TQT_DBusType :=
  if signature == 'b' then .Bool
  else if signature == 'y' then .Byte
  else if signature == 'n' then .Int16
  else if signature == 'q' then .UInt16
  else if signature == 'i' then .Int32
  else if signature == 'u' then .UInt32
  else if signature == 'x' then .Int64
  else if signature == 't' then .UInt64
  else if signature == 'd' then .Double
  else if signature == 's' then .String
  else if signature == 'o' then .ObjectPath
  else if signature == 'g' then .String
  else if signature == 'v' then .Variant
  else if signature == 'h' then .UnixFd
  else .Invalid

/-- The ways in which a run of `parseSignature` leaves the behaviour the language and the
container classes define, and the exhaustion of the recursion budget of the
embedding. -/
inductive ParseFault where
  | outOfFuel
  | readPastEnd
  | emptyListIndexed
  deriving DecidableEq, Repr

/-- The operator `TQCString::operator[]` as `parseSignature` uses it.  A non-empty string of
length `n` holds its terminator at index `n`; an empty string is the null string
here (it is what `mid` returns at the end), which has no data to read. -/
def sigAt (signature : List Char) (index : Nat) : Except ParseFault Char :=
  if signature.isEmpty then .error .readPastEnd
  else if index < signature.length then .ok (signature.getD index '\x00')
  else if index == signature.length then .ok '\x00'
  else .error .readPastEnd

/-- The operator `TQValueList::operator[]` at index 0. -/
def firstOf (l : List TQT_DBusData) : Except ParseFault TQT_DBusData :=
  match l with
  | [] => .error .emptyListIndexed
  | x :: _ => .ok x

/-- The inner switch of the default case of `parseSignature`: the prototype built for a
single type code whose type is `elementType`.  (The default handle of the UnixFd
case is invalid and `fromUnixFd` drops it, wherever its record is.) -/
def singleTypePrototype (elementType : TQT_DBusType) : TQT_DBusData :=
  match elementType with
  | .Bool => TQT_DBusData.fromBool false
  | .Byte => TQT_DBusData.fromByte 0
  | .Int16 => TQT_DBusData.fromInt16 0
  | .UInt16 => TQT_DBusData.fromUInt16 0
  | .Int32 => TQT_DBusData.fromInt32 0
  | .UInt32 => TQT_DBusData.fromUInt32 0
  | .Int64 => TQT_DBusData.fromInt64 0
  | .UInt64 => TQT_DBusData.fromUInt64 0
  | .String => TQT_DBusData.fromString ""
  | .ObjectPath => TQT_DBusData.fromObjectPath ⟨""⟩
  | .UnixFd => TQT_DBusData.fromUnixFd (TQT_DBusUnixFd.null 0)
  | _ => TQT_DBusData.invalid

/-- The static `parseSignature(TQCString& signature)`, started with `result` as the list built
so far: one step of the budget is one turn of its `while` loop.  The result is
the returned list together with the signature as the call leaves it in the
caller's variable.  `Q_ASSERT` only warns and is left out; `mid(n)` is `drop n`. -/
def parseSignatureLoop : Nat → List Char → List TQT_DBusData →
    Except ParseFault (List TQT_DBusData × List Char)
  | 0, _, _ => .error .outOfFuel
  | fuel + 1, signature, result =>
    match signature with
    | [] => .ok (result, [])
    | c :: _ =>
      if c == '(' then
        match parseSignatureLoop fuel (signature.drop 1) [] with
        | .error e => .error e
        | .ok (memberList, signature) =>
            parseSignatureLoop fuel (signature.drop 1)
              (result ++ [TQT_DBusData.fromStruct memberList])
      else if c == ')' then .ok (result, signature)
      else if c == '{' then
        match sigAt signature 1, sigAt signature 2 with
        | .ok c1, .ok c2 =>
          let keyType := qSingleTypeForDBusSignature c1
          let valueType := qSingleTypeForDBusSignature c2
          if valueType != .Invalid then
            let result :=
              match mapKeyTypeOf keyType with
              | some K => result ++ [TQT_DBusData.fromKeyMap (TQT_DBusDataMap.ofType K valueType)]
              | none => result
            parseSignatureLoop fuel ((signature.drop 3).drop 1) result
          else
            match parseSignatureLoop fuel (signature.drop 2) [] with
            | .error e => .error e
            | .ok (valueContainer, signature) =>
              match mapKeyTypeOf keyType with
              | some K =>
                match firstOf valueContainer with
                | .error e => .error e
                | .ok v0 =>
                    parseSignatureLoop fuel (signature.drop 1)
                      (result ++ [TQT_DBusData.fromKeyMap
                        (TQT_DBusDataMap.ofContainerValueType K v0)])
              | none => parseSignatureLoop fuel (signature.drop 1) result
        | .error e, _ => .error e
        | _, .error e => .error e
      else if c == '}' then .ok (result, signature)
      else if c == 'a' then
        match sigAt signature 1 with
        | .error e => .error e
        | .ok c1 =>
          let elementType := qSingleTypeForDBusSignature c1
          if elementType != .Invalid then
            parseSignatureLoop fuel (signature.drop 2)
              (result ++ [TQT_DBusData.fromList (TQT_DBusDataList.ofType elementType)])
          else
            match sigAt (signature.drop 1) 0 with
            | .error e => .error e
            | .ok c0 =>
              let array := c0 != '{'
              match parseSignatureLoop fuel (signature.drop 1) [] with
              | .error e => .error e
              | .ok (elementContainer, signature) =>
                match firstOf elementContainer with
                | .error e => .error e
                | .ok e0 =>
                  if array then
                    parseSignatureLoop fuel signature
                      (result ++ [TQT_DBusData.fromList
                        (TQT_DBusDataList.ofContainerItemType e0)])
                  else parseSignatureLoop fuel signature (result ++ [e0])
      else
        let elementType := qSingleTypeForDBusSignature c
        if elementType != .Invalid then
          parseSignatureLoop fuel (signature.drop 1) (result ++ [singleTypePrototype elementType])
        else parseSignatureLoop fuel (signature.drop 1) (result ++ [TQT_DBusData.invalid])

/-- The static `parseSignature` on a caller's signature: every turn of the loop and every
recursive call shortens the signature, so a budget of its length plus one
suffices. -/
def parseSignature (signature : List Char) :
    Except ParseFault (List TQT_DBusData × List Char) :=
  parseSignatureLoop (signature.length + 1) signature []

/-! ## The message iterator of the bus library

The marshaller drives the `DBusMessageIter` interface of the bus library, which is
not part of the repository.  Modelled here is what the interface documents: the
argument list of a message is a sequence of values, each a basic value with its
type code or a container (array, struct, variant, dict entry) holding a sequence
of values; an array also carries the signature of its element type and a variant
the signature of its content.  The argument checks of the library are not part
of the model: every call is taken to succeed. -/

/-- A basic value as `dbus_message_iter_append_basic` is given it.  `handleObject key` is
the call with type UNIX_FD and the address of the handle object `key` in place of
the address of a descriptor: the library reads an `int` at the head of that
object, which is not `key.fd`; what it reads is not determined by the values of
the embedding. -/
inductive DBusBasic where
  | boolean (v : Bool)
  | byte (v : Nat)
  | int16 (v : Int)
  | uint16 (v : Nat)
  | int32 (v : Int)
  | uint32 (v : Nat)
  | int64 (v : Int)
  | uint64 (v : Nat)
  | double (bits : Nat)
  | string (v : List Char)
  | objectPath (v : List Char)
  | signature (v : List Char)
  | unixFd (fd : Int)
  | handleObject (key : TQT_DBusUnixFd)
  deriving DecidableEq, Repr

/-- One value of a message. -/
inductive DBusArg where
  | basic (v : DBusBasic)
  | array (elementSignature : List Char) (elements : List DBusArg)
  | struct (members : List DBusArg)
  | variant (signature : List Char) (content : List DBusArg)
  | dictEntry (members : List DBusArg)

/-- The type code `dbus_message_iter_get_arg_type` reports for a basic value. -/
def DBusBasic.argType : DBusBasic → Char
  | .boolean _ => 'b'
  | .byte _ => 'y'
  | .int16 _ => 'n'
  | .uint16 _ => 'q'
  | .int32 _ => 'i'
  | .uint32 _ => 'u'
  | .int64 _ => 'x'
  | .uint64 _ => 't'
  | .double _ => 'd'
  | .string _ => 's'
  | .objectPath _ => 'o'
  | .signature _ => 'g'
  | .unixFd _ => 'h'
  | .handleObject _ => 'h'

/-- The type code `dbus_message_iter_get_arg_type` reports for a value: `DBUS_TYPE_ARRAY` is
`a`, `DBUS_TYPE_STRUCT` is `r`, `DBUS_TYPE_VARIANT` is `v`, `DBUS_TYPE_DICT_ENTRY` is `e`. -/
def DBusArg.argType : DBusArg → Char
  | .basic v => v.argType
  | .array _ _ => 'a'
  | .struct _ => 'r'
  | .variant _ _ => 'v'
  | .dictEntry _ => 'e'

/-- The function `dbus_message_iter_get_arg_type` on a reading iterator, given by the values
from its position on: `DBUS_TYPE_INVALID` (code 0) at the end. -/
def dbus_message_iter_get_arg_type (it : List DBusArg) : Char :=
  match it with
  | [] => '\x00'
  | a :: _ => a.argType

/-- The function `dbus_message_iter_get_element_type` of an array with the given element
signature: the type code its first character stands for. -/
def dbus_message_iter_get_element_type (elementSignature : List Char) : Char :=
  match elementSignature with
  | [] => '\x00'
  | c :: _ => if c == '{' then 'e' else if c == '(' then 'r' else c

/-- A `TQString` handed over as `const char*` through `utf8()`: the text up to the first
NUL character. -/
def utf8CString (s : String) : List Char := s.toList.takeWhile (fun c => c != '\x00')

/-- A `TQString` handed over through `ascii()`: characters outside Latin-1 become `?`, and
the text ends at the first NUL character. -/
def asciiCString (s : String) : List Char :=
  (s.toList.map (fun c => if c.toNat > 255 then '?' else c)).takeWhile (fun c => c != '\x00')

/-! ## Encoding (`tqdbusmarshall.cpp`)

An appending iterator is the sequence of values appended through it so far:
`dbus_message_iter_append_basic` adds a basic value at its end,
`dbus_message_iter_open_container` starts an empty sub-iterator and
`dbus_message_iter_close_container` adds the container with what the sub-iterator
collected. -/

/-- The static `qDBusTypeForTQT_DBusType` of `tqdbusmarshall.cpp`. -/
def Marshall.qDBusTypeForTQT_DBusType : TQT_DBusType → List Char
  | .Invalid => []
  | .Bool => ['b']
  | .Byte => ['y']
  | .Int16 => ['n']
  | .UInt16 => ['q']
  | .Int32 => ['i']
  | .UInt32 => ['u']
  | .Int64 => ['x']
  | .UInt64 => ['t']
  | .Double => ['d']
  | .String => ['s']
  | .ObjectPath => ['o']
  | .List => ['a']
  | .Struct => ['r']
  | .Variant => ['v']
  | .Map => ['e']
  | .UnixFd => ['h']

/-- The signature with which the ten `qDBus...KeyMapToIterator` functions open the array. -/
def keyMapArraySignature (map : TQT_DBusDataMap) : List Char :=
  '{' :: (Marshall.qDBusTypeForTQT_DBusType map.keyType.toType ++
    ((if map.hasContainerValueType then map.containerValueType.buildDBusSignature
      else Marshall.qDBusTypeForTQT_DBusType map.valueType) ++ ['}']))

/-- The basic value the call `dbus_message_iter_append_basic(it, TYPE, &(mit.key()))` of the
functions for the keys Byte ... UInt64 and UnixFd appends.  For UnixFd the
address passed is that of the handle object, not of a descriptor.  String and
ObjectPath keys go through `tqAppendToMessage` and are not handled here. -/
def keyBasic : MapKey → Option DBusBasic
  | .byte v => some (.byte v)
  | .int16 v => some (.int16 v)
  | .uint16 v => some (.uint16 v)
  | .int32 v => some (.int32 v)
  | .uint32 v => some (.uint32 v)
  | .int64 v => some (.int64 v)
  | .uint64 v => some (.uint64 v)
  | .unixFd v => some (.handleObject v)
  | .string _ => none
  | .objectPath _ => none

/-- The call `tqAppendToMessage(&itemIterator, mit.key())` of `qDBusStringKeyMapToIterator` and
`qDBusObjectPathKeyMapToIterator` on the dict entry just opened: the iterator after
the call. -/
def textKeyToIterator (key : MapKey) : List DBusArg :=
  match key with
  | .string s => [.basic (.string (utf8CString s))]
  | .objectPath p => [.basic (.objectPath (asciiCString p.path))]
  | _ => []

mutual
/-- The static `qDBusDataToIterator(it, var)`: the iterator after the call. -/
def qDBusDataToIterator (it : List DBusArg) : TQT_DBusData → List DBusArg
  | .bool v => it ++ [.basic (.boolean v)]
  | .byte v => it ++ [.basic (.byte v)]
  | .int16 v => it ++ [.basic (.int16 v)]
  | .uint16 v => it ++ [.basic (.uint16 v)]
  | .int32 v => it ++ [.basic (.int32 v)]
  | .uint32 v => it ++ [.basic (.uint32 v)]
  | .int64 v => it ++ [.basic (.int64 v)]
  | .uint64 v => it ++ [.basic (.uint64 v)]
  | .double v => it ++ [.basic (.double v)]
  | .string v => it ++ [.basic (.string (utf8CString v))]
  | .objectPath v => it ++ [.basic (.objectPath (asciiCString v.path))]
  | .unixFd v => it ++ [.basic (.unixFd v.fd)]
  | .list type containerItem items =>
      let signature :=
        if isContainerType type then containerItem.buildDBusSignature
        else Marshall.qDBusTypeForTQT_DBusType type
      it ++ [.array signature (qListItemsToIterator [] items)]
  | .map keyType valueType containerValueType entries =>
      if keyType == .String || keyType == .ObjectPath then
        it ++ [.array (keyMapArraySignature ⟨keyType, valueType, containerValueType, entries⟩)
                (qTextKeyEntriesToIterator [] entries)]
      else
        let r := qBasicKeyEntriesToIterator it [] entries
        r.1 ++ [.array (keyMapArraySignature ⟨keyType, valueType, containerValueType, entries⟩)
                  r.2]
  | .variant signature value =>
      if signature.isEmpty || value.type == .Invalid then it
      else it ++ [.variant (utf8CString signature) (qDBusDataToIterator [] value)]
  | .struct members =>
      if members.isEmpty then it
      else it ++ [.struct (qListItemsToIterator [] members)]
  | .invalid => it
/-- The loops `for (...) qDBusDataToIterator(&sub, *listIt)` of the List and Struct cases and
of `qListToIterator`. -/
def qListItemsToIterator (sub : List DBusArg) : List TQT_DBusData → List DBusArg
  | [] => sub
  | x :: rest => qListItemsToIterator (qDBusDataToIterator sub x) rest
/-- The entry loop of `qDBusStringKeyMapToIterator` and `qDBusObjectPathKeyMapToIterator`: for
every entry a dict entry is opened in `sub`, key and value are written into it,
and it is closed. -/
def qTextKeyEntriesToIterator (sub : List DBusArg) :
    List (MapKey × TQT_DBusData) → List DBusArg
  | [] => sub
  | (key, data) :: rest =>
      qTextKeyEntriesToIterator
        (sub ++ [.dictEntry (qDBusDataToIterator (textKeyToIterator key) data)]) rest
/-- The entry loop of the eight functions for the keys Byte ... UInt64 and UnixFd: the key
is appended through `it`, the iterator of the caller, and only the value is
written into the dict entry.  The result is `it` and `sub` after the loop. -/
def qBasicKeyEntriesToIterator (it sub : List DBusArg) :
    List (MapKey × TQT_DBusData) → List DBusArg × List DBusArg
  | [] => (it, sub)
  | (key, data) :: rest =>
      let it :=
        match keyBasic key with
        | some b => it ++ [.basic b]
        | none => it
      qBasicKeyEntriesToIterator it
        (sub ++ [.dictEntry (qDBusDataToIterator [] data)]) rest
end

/-- The function `qListToIterator`. -/
def qListToIterator (it : List DBusArg) (list : List TQT_DBusData) : List DBusArg :=
  if list.isEmpty then it else qListItemsToIterator it list

/-- The method `TQT_DBusMarshall::listToMessage`: `msg` is the argument list of the message
before the call, the result the argument list after it. -/
def listToMessage (list : List TQT_DBusData) (msg : List DBusArg) : List DBusArg :=
  qListToIterator msg list

/-! ## Decoding (`tqdbusmarshall.cpp`)

A reading iterator is the sequence of values from its position to the end of its
container: `dbus_message_iter_next` drops the first one and reports whether one is
left, `dbus_message_iter_recurse` gives the content of the container at the
position. -/

/-- The order `operator<` of the key type of a `TQMap`, on keys of the same instantiation; texts
are compared character by character.  (`TQT_DBusUnixFd` declares no `operator<`: a
map with such keys can only be filled where the program supplies one, which is
taken to compare the descriptors.) -/
def MapKey.lt : MapKey → MapKey → Bool
  | .byte a, .byte b => a < b
  | .int16 a, .int16 b => a < b
  | .uint16 a, .uint16 b => a < b
  | .int32 a, .int32 b => a < b
  | .uint32 a, .uint32 b => a < b
  | .int64 a, .int64 b => a < b
  | .uint64 a, .uint64 b => a < b
  | .string a, .string b => decide (a.toList < b.toList)
  | .objectPath a, .objectPath b => decide (a.path.toList < b.path.toList)
  | .unixFd a, .unixFd b => a.fd < b.fd
  | _, _ => false

/-- The method `TQMap::insert(key, value)` on a map given by its entries in key order: the
value of an entry with an equivalent key is replaced, otherwise the new entry
is put at its place in the order. -/
def TQMap.insert (key : MapKey) (value : TQT_DBusData) :
    List (MapKey × TQT_DBusData) → List (MapKey × TQT_DBusData)
  | [] => [(key, value)]
  | (k, v) :: rest =>
      if MapKey.lt key k then (key, value) :: (k, v) :: rest
      else if MapKey.lt k key then (k, v) :: TQMap.insert key value rest
      else (k, value) :: rest

/-- The method `TQT_DBusDataMap<T>::insert`: the map after the call and the returned flag. -/
def TQT_DBusDataMap.insert (m : TQT_DBusDataMap) (key : MapKey) (data : TQT_DBusData) :
    TQT_DBusDataMap × Bool :=
  if data.type == .Invalid then (m, false)
  else if m.valueType == .Invalid then
    ({ m with valueType := data.type,
              containerValueType :=
                if isContainerType data.type then data else m.containerValueType,
              entries := TQMap.insert key data m.entries }, true)
  else if data.type != m.valueType then (m, true)
  else if isContainerType m.valueType then
    if m.containerValueType.buildDBusSignature != data.buildDBusSignature then (m, true)
    else ({ m with entries := TQMap.insert key data m.entries }, true)
  else ({ m with entries := TQMap.insert key data m.entries }, true)

/-- The key a `qFetch...KeyMapEntry` function of the instantiation `K` takes from the decoded
first member of a dict entry, through `toByte()` ... `toObjectPath()`.  (There is
no such function for UnixFd keys and `qFetchMap` has no case for them; the last
line is never reached from it.) -/
def fetchedKey (K : MapKeyType) (d : TQT_DBusData) : MapKey :=
  match K with
  | .Byte => .byte (d.toByte none).1
  | .Int16 => .int16 (d.toInt16 none).1
  | .UInt16 => .uint16 (d.toUInt16 none).1
  | .Int32 => .int32 (d.toInt32 none).1
  | .UInt32 => .uint32 (d.toUInt32 none).1
  | .Int64 => .int64 (d.toInt64 none).1
  | .UInt64 => .uint64 (d.toUInt64 none).1
  | .String => .string (d.toString none).1
  | .ObjectPath => .objectPath (d.toObjectPath none).1
  | .UnixFd => .unixFd (d.toUnixFd none 0).1

/-- The key type whose case the switch of `qFetchMap` takes for the type code of the first
key; `none` is its default case (which DBUS_TYPE_UNIX_FD takes as well). -/
def fetchMapKeyType (argType : Char) : Option MapKeyType :=
  if argType == 'y' then some .Byte
  else if argType == 'n' then some .Int16
  else if argType == 'q' then some .UInt16
  else if argType == 'i' then some .Int32
  else if argType == 'u' then some .UInt32
  else if argType == 'x' then some .Int64
  else if argType == 't' then some .UInt64
  else if argType == 'o' then some .ObjectPath
  else if argType == 's' || argType == 'g' then some .String
  else none

/-- The loops `do { qFetch...KeyMapEntry(map, it); } while (dbus_message_iter_next(it));` of
`qFetchMap` for the instantiation `K`, over the decoded members of the entries:
each turn inserts the key taken from the first member with the second member. -/
def fetchMapEntries (K : MapKeyType) (map : TQT_DBusDataMap) :
    List (TQT_DBusData × TQT_DBusData) → TQT_DBusDataMap
  | [] => map
  | (keyData, valueData) :: rest =>
      fetchMapEntries K (map.insert (fetchedKey K keyData) valueData).1 rest

/-- The loop `while (...) { list << qFetchParameter(&arrayIt); ... }` of the array case, over
the decoded elements. -/
def appendAll (list : TQT_DBusDataList) : List TQT_DBusData → TQT_DBusDataList
  | [] => list
  | x :: rest => appendAll (list.append x) rest

/-- The decoding of a basic value in `qFetchParameter`.  For a descriptor the function
constructs a handle and gives it the descriptor read, so the handle has a
record of its own.  (`handleObject` is never what the library hands over; it is
answered like an unknown type code.) -/
def fetchBasic : DBusBasic → TQT_DBusData
  | .boolean v => TQT_DBusData.fromBool v
  | .byte v => TQT_DBusData.fromByte v
  | .int16 v => TQT_DBusData.fromInt16 v
  | .uint16 v => TQT_DBusData.fromUInt16 v
  | .int32 v => TQT_DBusData.fromInt32 v
  | .uint32 v => TQT_DBusData.fromUInt32 v
  | .int64 v => TQT_DBusData.fromInt64 v
  | .uint64 v => TQT_DBusData.fromUInt64 v
  | .double v => TQT_DBusData.fromDouble v
  | .string v => TQT_DBusData.fromString (String.mk v)
  | .signature v => TQT_DBusData.fromString (String.mk v)
  | .objectPath v => TQT_DBusData.fromObjectPath ⟨String.mk v⟩
  | .unixFd fd => TQT_DBusData.fromUnixFd ⟨.received fd, fd⟩
  | .handleObject _ => TQT_DBusData.invalid

/-- The type code at the head of the first entry of an array of dict entries: what
`dbus_message_iter_get_arg_type(&itemIter)` reports in `qFetchMap`; code 0 when the
array or its first entry is empty. -/
def firstEntryKeyType : List DBusArg → Char
  | .dictEntry members :: _ => dbus_message_iter_get_arg_type members
  | _ => '\x00'

/-- The static `qFetchMap(it, prototype)`: `firstKeyType` is the type code at the head of the
first entry and `entries` the decoded members of all entries, which only the
cases of the switch that run an entry loop look at. -/
def qFetchMap (firstKeyType : Char)
    (entries : Except ParseFault (List (TQT_DBusData × TQT_DBusData)))
    (prototype : TQT_DBusData) : Except ParseFault TQT_DBusData :=
  if firstKeyType == '\x00' then .ok prototype
  else
    match fetchMapKeyType firstKeyType with
    | some K =>
        match entries with
        | .error e => .error e
        | .ok entries =>
            .ok (TQT_DBusData.fromKeyMap
              (fetchMapEntries K (prototype.toKeyMap K none).1 entries))
    | none => .ok prototype

/-- The prototype `prototypeList[0]` the array case of `qFetchParameter` takes from
`parseSignature` for the signature of the array. -/
def arrayPrototype (elementSignature : List Char) : Except ParseFault TQT_DBusData :=
  match parseSignature ('a' :: elementSignature) with
  | .error e => .error e
  | .ok (prototypeList, _) => firstOf prototypeList

mutual
/-- The static `qFetchParameter(it)` on the value at the position of the iterator.  The result
is an error when `parseSignature` leaves defined behaviour on the signature of
an array below. -/
def fetchArg : DBusArg → Except ParseFault TQT_DBusData
  | .basic v => .ok (fetchBasic v)
  | .array elementSignature elements =>
      match arrayPrototype elementSignature with
      | .error e => .error e
      | .ok prototype =>
        if dbus_message_iter_get_element_type elementSignature == 'e' then
          qFetchMap (firstEntryKeyType elements) (fetchEntryAll elements) prototype
        else
          match fetchAll elements with
          | .error e => .error e
          | .ok values =>
              .ok (TQT_DBusData.fromList (appendAll (prototype.toList none).1 values))
  | .variant signature content =>
      match fetchFirst content with
      | .error e => .error e
      | .ok value => .ok (TQT_DBusData.fromVariant ⟨String.mk signature, value⟩)
  | .struct members =>
      match fetchAll members with
      | .error e => .error e
      | .ok memberList => .ok (TQT_DBusData.fromStruct memberList)
  | .dictEntry _ => .ok TQT_DBusData.invalid
/-- The function `qFetchParameter` on an iterator: its default case answers the end of the
container (`DBUS_TYPE_INVALID`) with an Invalid object. -/
def fetchFirst : List DBusArg → Except ParseFault TQT_DBusData
  | [] => .ok TQT_DBusData.invalid
  | a :: _ => fetchArg a
/-- The decoding of every value of a container in order. -/
def fetchAll : List DBusArg → Except ParseFault (List TQT_DBusData)
  | [] => .ok []
  | a :: rest =>
      match fetchArg a with
      | .error e => .error e
      | .ok x =>
        match fetchAll rest with
        | .error e => .error e
        | .ok xs => .ok (x :: xs)
/-- The two calls of `qFetchParameter` in a `qFetch...KeyMapEntry` function: on the first
member of the entry and, after `dbus_message_iter_next`, on what follows it. -/
def fetchEntry : DBusArg → Except ParseFault (TQT_DBusData × TQT_DBusData)
  | .dictEntry [] => .ok (TQT_DBusData.invalid, TQT_DBusData.invalid)
  | .dictEntry [k] =>
      match fetchArg k with
      | .error e => .error e
      | .ok keyData => .ok (keyData, TQT_DBusData.invalid)
  | .dictEntry (k :: v :: _) =>
      match fetchArg k with
      | .error e => .error e
      | .ok keyData =>
        match fetchArg v with
        | .error e => .error e
        | .ok valueData => .ok (keyData, valueData)
  | .struct _ => .ok (TQT_DBusData.invalid, TQT_DBusData.invalid)
  | .array _ _ => .ok (TQT_DBusData.invalid, TQT_DBusData.invalid)
  | .variant _ _ => .ok (TQT_DBusData.invalid, TQT_DBusData.invalid)
  | .basic _ => .ok (TQT_DBusData.invalid, TQT_DBusData.invalid)
/-- The decoded members of all entries of an array of dict entries. -/
def fetchEntryAll : List DBusArg → Except ParseFault (List (TQT_DBusData × TQT_DBusData))
  | [] => .ok []
  | a :: rest =>
      match fetchEntry a with
      | .error e => .error e
      | .ok x =>
        match fetchEntryAll rest with
        | .error e => .error e
        | .ok xs => .ok (x :: xs)
end

/-- The method `TQT_DBusMarshall::messageToList`: `list` before the call, `message` the argument list
of the message; the result is `list` after the call. -/
def messageToList (list : List TQT_DBusData) (message : List DBusArg) :
    Except ParseFault (List TQT_DBusData) :=
  match fetchAll message with
  | .error e => .error e
  | .ok values => .ok (list ++ values)

/-! ## Reference definitions taken from the specification -/

/-- Follows the specification, not the source: the single character a scalar kind or Variant
maps to; the kinds without one (Invalid and the containers) give the empty
string. -/
def specTypeCharacter (t : TQT_DBusType) : String :=
  if t = .Bool then "b"
  else if t = .Byte then "y"
  else if t = .Int16 then "n"
  else if t = .UInt16 then "q"
  else if t = .Int32 then "i"
  else if t = .UInt32 then "u"
  else if t = .Int64 then "x"
  else if t = .UInt64 then "t"
  else if t = .Double then "d"
  else if t = .String then "s"
  else if t = .ObjectPath then "o"
  else if t = .UnixFd then "h"
  else if t = .Variant then "v"
  else ""

mutual
/-- Follows the specification, not the source: the recursive reference definition of the
signature of a value.  A List gives `a` followed by the signature of its element
type (that of the container prototype when the element kind is List, Struct or
Map), a Struct its members' signatures between parentheses, a Map `a{`, the key
character, the signature of the value type and `}`, an Invalid value the empty
string, every other kind its character. -/
def specSignature : TQT_DBusData → String
  | .list type containerItem _ =>
      "a" ++ (if type = .List ∨ type = .Struct ∨ type = .Map then specSignature containerItem
              else specTypeCharacter type)
  | .struct members => "(" ++ specMemberSignatures members ++ ")"
  | .map keyType valueType containerValueType _ =>
      "a\x7b" ++ specTypeCharacter keyType.toType ++
        (if valueType = .List ∨ valueType = .Struct ∨ valueType = .Map
         then specSignature containerValueType
         else specTypeCharacter valueType) ++ "\x7d"
  | .invalid => ""
  | .bool _ => specTypeCharacter .Bool
  | .byte _ => specTypeCharacter .Byte
  | .int16 _ => specTypeCharacter .Int16
  | .uint16 _ => specTypeCharacter .UInt16
  | .int32 _ => specTypeCharacter .Int32
  | .uint32 _ => specTypeCharacter .UInt32
  | .int64 _ => specTypeCharacter .Int64
  | .uint64 _ => specTypeCharacter .UInt64
  | .double _ => specTypeCharacter .Double
  | .string _ => specTypeCharacter .String
  | .objectPath _ => specTypeCharacter .ObjectPath
  | .unixFd _ => specTypeCharacter .UnixFd
  | .variant _ _ => specTypeCharacter .Variant
/-- Follows the specification: the concatenation of the members' signatures in order. -/
def specMemberSignatures : List TQT_DBusData → String
  | [] => ""
  | m :: rest => specSignature m ++ specMemberSignatures rest
end

/-- Follows the specification: a collection is homogeneous when every element has the type of
the first one and, when that type is List, Struct or Map, also its full
signature. -/
def Homogeneous (first : TQT_DBusData) (all : List TQT_DBusData) : Prop :=
  ∀ x ∈ all, x.type = first.type ∧
    (isContainerType first.type = true → x.buildDBusSignature = first.buildDBusSignature)

/-! ## The values the round trip is stated for -/

/-- A text holds no NUL character, so that it survives being handed over as `const char*`. -/
def noNul (s : String) : Bool := s.toList.all (fun c => c != '\x00')

/-- A text holds only Latin-1 characters, so that it survives `ascii()`. -/
def isLatin1 (s : String) : Bool := s.toList.all (fun c => decide (c.toNat ≤ 255))

/-- An element (or value) has the type of its container and, for a container type, the
signature `containerSignature` of the container prototype. -/
def itemFits (type : TQT_DBusType) (containerSignature : List Char) (x : TQT_DBusData) : Bool :=
  x.type == type && (!isContainerType type || x.buildDBusSignature == containerSignature)

/-- The signature with which the List case of `qDBusDataToIterator` opens the array. -/
def listArraySignature (type : TQT_DBusType) (containerItem : TQT_DBusData) : List Char :=
  if isContainerType type then containerItem.buildDBusSignature
  else Marshall.qDBusTypeForTQT_DBusType type

/-- The prototype list `parseSignature` gives for the signature of a List fits the List: the
prototype has no elements and either the element type and (for containers) the
element signature of the List, or it has no type and the List has elements. -/
def listPrototypeFits (type : TQT_DBusType) (containerItem : TQT_DBusData)
    (hasItems : Bool) : Bool :=
  match arrayPrototype (listArraySignature type containerItem) with
  | .error _ => false
  | .ok prototype =>
      let l := (prototype.toList none).1
      l.list.isEmpty &&
      ((l.type == type &&
          (!isContainerType type ||
            l.containerItem.buildDBusSignature == containerItem.buildDBusSignature)) ||
       (l.type == .Invalid && hasItems))

/-- The prototype `parseSignature` gives for the signature of a Map fits the Map: it is a Map
of the same key type without entries and has either the value type and (for
containers) the value signature of the Map, or no value type while the Map has
entries. -/
def mapPrototypeFits (keyType : MapKeyType) (valueType : TQT_DBusType)
    (containerValueType : TQT_DBusData) (hasEntries : Bool) : Bool :=
  match arrayPrototype (keyMapArraySignature ⟨keyType, valueType, containerValueType, []⟩) with
  | .error _ => false
  | .ok (.map k vt c es) =>
      k == keyType && es.isEmpty &&
      ((vt == valueType &&
          (!isContainerType valueType ||
            c.buildDBusSignature == containerValueType.buildDBusSignature)) ||
       (vt == .Invalid && hasEntries))
  | .ok _ => false

/-- A key belongs to a String-keyed or ObjectPath-keyed map and survives the hand-over as text:
a String key without NUL, or a valid Latin-1 ObjectPath key without NUL. -/
def textKeyFits (keyType : MapKeyType) (key : MapKey) : Bool :=
  match keyType, key with
  | .String, .string s => noNul s
  | .ObjectPath, .objectPath p => p.isValid && noNul p.path && isLatin1 p.path
  | _, _ => false

/-- The keys are in strictly increasing order, as the entries of a `TQMap` are. -/
def keysIncreasing : List (MapKey × TQT_DBusData) → Bool
  | [] => true
  | (k, _) :: rest => rest.all (fun e => MapKey.lt k e.1) && keysIncreasing rest

/-- After the signature of this value `parseSignature` goes on with what follows it in the same
call.  It does not after an array whose element type is a container and after
a Map: their element signature is handed to a recursive call, which reads on
to the next closing bracket or to the end. -/
def leavesRest : TQT_DBusData → Bool
  | .list type _ _ => !isContainerType type
  | .map _ _ _ _ => false
  | _ => true

mutual
/-- The shape of a container prototype whose signature `parseSignature` reads back: its members
are of the types for which the switch of single codes builds a valid object
(Bool, Byte, Int16, UInt16, Int32, UInt32, Int64, UInt64, String), Lists and
Maps of an element type that is not a container, Lists and Maps of a
container type whose prototype is of this shape again, and non-empty Structs
of such members in which only the last member may be one after which the call
does not go on. -/
def readsBack : TQT_DBusData → Bool
  | .bool _ => true
  | .byte _ => true
  | .int16 _ => true
  | .uint16 _ => true
  | .int32 _ => true
  | .uint32 _ => true
  | .int64 _ => true
  | .uint64 _ => true
  | .string _ => true
  | .list type containerItem _ =>
      if isContainerType type then containerItem.type == type && readsBack containerItem
      else type != .Invalid
  | .map _ valueType containerValueType _ =>
      if isContainerType valueType then
        containerValueType.type == valueType && readsBack containerValueType
      else valueType != .Invalid
  | .struct members => !members.isEmpty && readsBackMembers members
  | .invalid => false
  | .double _ => false
  | .objectPath _ => false
  | .unixFd _ => false
  | .variant _ _ => false
/-- The members of a Struct prototype are of the shape `readsBack`, and every member but the
last is one after which the call goes on. -/
def readsBackMembers : List TQT_DBusData → Bool
  | [] => true
  | m :: rest => readsBack m && (rest.isEmpty || leavesRest m) && readsBackMembers rest
end

mutual
/-- The value with its containers emptied and its payloads set to the defaults: what
`parseSignature` is to give for the signature of a value of the shape `readsBack`. -/
def prototypeOf : TQT_DBusData → TQT_DBusData
  | .bool _ => .bool false
  | .byte _ => .byte 0
  | .int16 _ => .int16 0
  | .uint16 _ => .uint16 0
  | .int32 _ => .int32 0
  | .uint32 _ => .uint32 0
  | .int64 _ => .int64 0
  | .uint64 _ => .uint64 0
  | .string _ => .string ""
  | .list type containerItem _ =>
      .list type (if isContainerType type then prototypeOf containerItem else .invalid) []
  | .map keyType valueType containerValueType _ =>
      .map keyType valueType
        (if isContainerType valueType then prototypeOf containerValueType else .invalid) []
  | .struct members => .struct (prototypesOf members)
  | .invalid => .invalid
  | .double _ => .invalid
  | .objectPath _ => .invalid
  | .unixFd _ => .invalid
  | .variant _ _ => .invalid
/-- The prototypes of the members of a Struct. -/
def prototypesOf : List TQT_DBusData → List TQT_DBusData
  | [] => []
  | m :: rest => prototypeOf m :: prototypesOf rest
end

/-- What follows in the signature makes `parseSignature` return: nothing, or a closing
bracket. -/
def closedTail (rest : List Char) : Bool :=
  rest.isEmpty || rest.head? == some ')' || rest.head? == some '}'

/-- The element (or value) type of a container and its container prototype are such that
`parseSignature` reads the signature of the container back: the type is not a
container, or the prototype is of that type and of the shape `readsBack`. -/
def prototypeReadsBack (type : TQT_DBusType) (prototype : TQT_DBusData) : Bool :=
  !isContainerType type || (prototype.type == type && readsBack prototype)

mutual
/-- The values the round trip is stated for.  Invalid objects, empty Structs and Variants with
an empty signature or an Invalid value are not written at all by the encoder;
NaN is never equal to itself; a text with a NUL character is cut at it; a
handle is equal to its copies only and the decoder makes a new one; the
comparison of UInt32 payloads reads bytes that were never written; the keys
of a Map with other than String or ObjectPath keys are written outside their
entries, so that such a Map is only in when it has no entries.  Lists and
Maps have an element type, elements of that type and, where that is a
container type, a prototype whose signature is read back. -/
def transportable : TQT_DBusData → Bool
  | .invalid => false
  | .bool _ => true
  | .byte _ => true
  | .int16 _ => true
  | .uint16 _ => true
  | .int32 _ => true
  | .uint32 _ => false
  | .int64 _ => true
  | .uint64 _ => true
  | .double bits => !doubleIsNaN bits
  | .string s => noNul s
  | .objectPath p => p.isValid && noNul p.path && isLatin1 p.path
  | .unixFd _ => false
  | .list type containerItem items =>
      type != .Invalid && prototypeReadsBack type containerItem &&
        items.all (itemFits type containerItem.buildDBusSignature) && transportableAll items
  | .struct members => !members.isEmpty && transportableAll members
  | .variant signature value =>
      !signature.isEmpty && noNul signature &&
        signature.toList == value.buildDBusSignature && transportable value
  | .map keyType valueType containerValueType entries =>
      valueType != .Invalid && prototypeReadsBack valueType containerValueType &&
        (entries.isEmpty ||
          ((keyType == .String || keyType == .ObjectPath) &&
            entries.all (fun e => textKeyFits keyType e.1 &&
              itemFits valueType containerValueType.buildDBusSignature e.2) &&
            keysIncreasing entries && transportableEntries entries))
/-- Every member of a list of values is `transportable`. -/
def transportableAll : List TQT_DBusData → Bool
  | [] => true
  | x :: rest => transportable x && transportableAll rest
/-- Every value of a list of entries is `transportable`. -/
def transportableEntries : List (MapKey × TQT_DBusData) → Bool
  | [] => true
  | (_, x) :: rest => transportable x && transportableEntries rest
end

/-! ## Errors (`tqdbuserror.cpp`) -/

/-- The enum `TQT_DBusError::ErrorType`, in the order of its declaration. -/
inductive TQT_DBusError.ErrorType where
  | InvalidError | Failed | NoMemory | ServiceUnknown | NameHasNoOwner | NoReply | IOError
  | BadAddress | NotSupported | LimitsExceeded | AccessDenied | AuthFailed | NoServer
  | Timeout | NoNetwork | Disconnected | InvalidArgs | FileNotFound | FileExists
  | UnknownMethod | TimedOut | InvalidSignature | UserDefined
  deriving DecidableEq, Repr

/-- The class `TQT_DBusError`: its members `errorType`, `m_dbusErrorSet`, `nm` and `msg`. -/
structure TQT_DBusError where
  errorType : TQT_DBusError.ErrorType
  m_dbusErrorSet : Bool
  nm : String
  msg : String
  deriving DecidableEq, Repr

/-- The static `qDBusErrorNameForType`.  The macros `DBUS_ERROR_FAILED` ... `DBUS_ERROR_INVALID_SIGNATURE`
belong to the protocol header of the bus library, which defines them as the
names below; for InvalidError and UserDefined the function asserts and returns
the null string. -/
def qDBusErrorNameForType : TQT_DBusError.ErrorType → String
  | .InvalidError => ""
  | .Failed => "org.freedesktop.DBus.Error.Failed"
  | .NoMemory => "org.freedesktop.DBus.Error.NoMemory"
  | .ServiceUnknown => "org.freedesktop.DBus.Error.ServiceUnknown"
  | .NameHasNoOwner => "org.freedesktop.DBus.Error.NameHasNoOwner"
  | .NoReply => "org.freedesktop.DBus.Error.NoReply"
  | .IOError => "org.freedesktop.DBus.Error.IOError"
  | .BadAddress => "org.freedesktop.DBus.Error.BadAddress"
  | .NotSupported => "org.freedesktop.DBus.Error.NotSupported"
  | .LimitsExceeded => "org.freedesktop.DBus.Error.LimitsExceeded"
  | .AccessDenied => "org.freedesktop.DBus.Error.AccessDenied"
  | .AuthFailed => "org.freedesktop.DBus.Error.AuthFailed"
  | .NoServer => "org.freedesktop.DBus.Error.NoServer"
  | .Timeout => "org.freedesktop.DBus.Error.Timeout"
  | .NoNetwork => "org.freedesktop.DBus.Error.NoNetwork"
  | .Disconnected => "org.freedesktop.DBus.Error.Disconnected"
  | .InvalidArgs => "org.freedesktop.DBus.Error.InvalidArgs"
  | .FileNotFound => "org.freedesktop.DBus.Error.FileNotFound"
  | .FileExists => "org.freedesktop.DBus.Error.FileExists"
  | .UnknownMethod => "org.freedesktop.DBus.Error.UnknownMethod"
  | .TimedOut => "org.freedesktop.DBus.Error.TimedOut"
  | .InvalidSignature => "org.freedesktop.DBus.Error.InvalidSignature"
  | .UserDefined => ""

/-- The values `InvalidError + 1` ... `UserDefined - 1` the loop of `qDBusErrorSetupNameMapping`
runs through, in its order. -/
def standardErrorTypes : List TQT_DBusError.ErrorType :=
  [.Failed, .NoMemory, .ServiceUnknown, .NameHasNoOwner, .NoReply, .IOError, .BadAddress,
   .NotSupported, .LimitsExceeded, .AccessDenied, .AuthFailed, .NoServer, .Timeout, .NoNetwork,
   .Disconnected, .InvalidArgs, .FileNotFound, .FileExists, .UnknownMethod, .TimedOut,
   .InvalidSignature]

/-- The assignment `map[key] = value` of a `TQMap`, on a map given by its entries: the value of
an entry with this key is replaced, otherwise an entry is added. -/
def TQMap.assign {κ α : Type} [DecidableEq κ] (key : κ) (value : α) :
    List (κ × α) → List (κ × α)
  | [] => [(key, value)]
  | (k, v) :: rest =>
      if k = key then (k, value) :: rest else (k, v) :: TQMap.assign key value rest

/-- The method `TQMap::find` on a map given by its entries; `none` is `end()`. -/
def TQMap.find {κ α : Type} [DecidableEq κ] (key : κ) : List (κ × α) → Option α
  | [] => none
  | (k, v) :: rest => if k = key then some v else TQMap.find key rest

/-- The method `TQMap::erase` on the entry `find` gives for the key.  A `TQMap` holds at most one
entry for a key; what is left are the entries with another key. -/
def TQMap.erase {κ α : Type} [DecidableEq κ] (key : κ) (m : List (κ × α)) : List (κ × α) :=
  m.filter (fun it => decide (it.1 ≠ key))

/-- The static `qDBusErrorSetupNameMapping`: the content of `errorTypesByName` after it ran on
the empty map. -/
def qDBusErrorSetupNameMapping : List (String × TQT_DBusError.ErrorType) :=
  standardErrorTypes.foldl (fun m type => TQMap.assign (qDBusErrorNameForType type) type m) []

/-- The static `qDBusErrorTypeForName`.  The file-level map `errorTypesByName` is empty until the
first call fills it and is never changed afterwards, so every lookup is made in
the map the setup builds. -/
def qDBusErrorTypeForName (name : String) : TQT_DBusError.ErrorType :=
  if name.isEmpty then .InvalidError
  else
    match TQMap.find name qDBusErrorSetupNameMapping with
    | some type => type
    | none => .UserDefined

namespace TQT_DBusError

/-- The constructor `TQT_DBusError()`. -/
def default : TQT_DBusError := ⟨.InvalidError, false, "", ""⟩

/-- The constructor `TQT_DBusError(const DBusError *error)`: `error` is `none` for a null pointer
or an error that is not set, otherwise the name and the message of the error. -/
def ofDBusError (error : Option (String × String)) : TQT_DBusError :=
  match error with
  | none => ⟨.InvalidError, false, "", ""⟩
  | some (name, message) => ⟨qDBusErrorTypeForName name, false, name, message⟩

/-- The constructor `TQT_DBusError(const TQString& error, const TQString& message)`. -/
def ofNameMessage (error message : String) : TQT_DBusError :=
  ⟨qDBusErrorTypeForName error, false, error, message⟩

/-- The private constructor `TQT_DBusError(ErrorType type, const TQString& message)`. -/
def ofTypeMessage (type : ErrorType) (message : String) : TQT_DBusError :=
  ⟨type, false, qDBusErrorNameForType type, message⟩

/-- The inline methods `name`, `message` and `type`. -/
def name (e : TQT_DBusError) : String := e.nm
def message (e : TQT_DBusError) : String := e.msg
def type (e : TQT_DBusError) : ErrorType := e.errorType

/-- The method `TQT_DBusError::isValid`. -/
def isValid (e : TQT_DBusError) : Bool :=
  e.errorType != .InvalidError && !e.nm.isEmpty && !e.msg.isEmpty

def stdFailed (message : String) : TQT_DBusError := ofTypeMessage .Failed message
def stdNoMemory (message : String) : TQT_DBusError := ofTypeMessage .NoMemory message
def stdNoReply (message : String) : TQT_DBusError := ofTypeMessage .NoReply message
def stdIOError (message : String) : TQT_DBusError := ofTypeMessage .IOError message
def stdNotSupported (message : String) : TQT_DBusError := ofTypeMessage .NotSupported message
def stdLimitsExceeded (message : String) : TQT_DBusError := ofTypeMessage .LimitsExceeded message
def stdAccessDenied (message : String) : TQT_DBusError := ofTypeMessage .AccessDenied message
def stdAuthFailed (message : String) : TQT_DBusError := ofTypeMessage .AuthFailed message
def stdTimeout (message : String) : TQT_DBusError := ofTypeMessage .Timeout message
def stdInvalidArgs (message : String) : TQT_DBusError := ofTypeMessage .InvalidArgs message
def stdFileNotFound (message : String) : TQT_DBusError := ofTypeMessage .FileNotFound message
def stdFileExists (message : String) : TQT_DBusError := ofTypeMessage .FileExists message
def stdUnknownMethod (message : String) : TQT_DBusError := ofTypeMessage .UnknownMethod message
def stdInvalidSignature (message : String) : TQT_DBusError :=
  ofTypeMessage .InvalidSignature message

end TQT_DBusError

/-! ## Messages (`tqdbusmessage.cpp`)

A `DBusMessage` of the bus library is modelled by what its accessor functions
report; a `DBusMessage*` is an `Option DBusMessage`, `none` being the null pointer.
Reference counting is not modelled. -/

/-- A message of the bus library: the results of `dbus_message_get_type`, `dbus_message_get_serial`,
`dbus_message_get_reply_serial`, `dbus_message_get_path`, `..._interface`, `..._member`,
`..._sender` (a null result being the empty text), the name and message
`dbus_set_error_from_message` takes from it (`none` when it sets no error), and
its arguments. -/
structure DBusMessage where
  type : Int
  serial : Nat
  replySerial : Nat
  path : String
  interface : String
  member : String
  sender : String
  error : Option (String × String)
  arguments : List DBusArg

/-- The message type constants of the protocol header of the bus library. -/
def DBUS_MESSAGE_TYPE_INVALID : Int := 0
def DBUS_MESSAGE_TYPE_METHOD_CALL : Int := 1
def DBUS_MESSAGE_TYPE_METHOD_RETURN : Int := 2
def DBUS_MESSAGE_TYPE_ERROR : Int := 3
def DBUS_MESSAGE_TYPE_SIGNAL : Int := 4

/-- Modelled from the spec: the class `TQT_DBusMessagePrivate`, whose declaration
(`tqdbusmessage_p.h`) is not among the source files.  Its members are those the
constructor in `tqdbusmessage.cpp` initialises and the methods there use: the
received wire message `msg`, the wire message `reply` this message answers, the
wire type, the timeout, the identity fields and the error. -/
structure TQT_DBusMessagePrivate where
  msg : Option DBusMessage
  reply : Option DBusMessage
  type : Int
  timeout : Int
  service : String
  path : String
  interface : String
  member : String
  sender : String
  error : TQT_DBusError

/-- The class `TQT_DBusMessage`: a `TQValueList<TQT_DBusData>` (the arguments) with the private
data `d`. -/
structure TQT_DBusMessage where
  arguments : List TQT_DBusData
  d : TQT_DBusMessagePrivate

/-- The enum `TQT_DBusMessage::MessageType`. -/
inductive TQT_DBusMessage.MessageType where
  | InvalidMessage | MethodCallMessage | ReplyMessage | ErrorMessage | SignalMessage
  deriving DecidableEq, Repr

/-- The constructor `TQT_DBusMessagePrivate(TQT_DBusMessage *qq)`. -/
def TQT_DBusMessagePrivate.default : TQT_DBusMessagePrivate :=
  ⟨none, none, DBUS_MESSAGE_TYPE_INVALID, -1, "", "", "", "", "", TQT_DBusError.default⟩

namespace TQT_DBusMessage

/-- The constructor `TQT_DBusMessage()`. -/
def default : TQT_DBusMessage := ⟨[], TQT_DBusMessagePrivate.default⟩

/-- The factory `TQT_DBusMessage::signal`. -/
def signal (path interface member : String) : TQT_DBusMessage :=
  { default with
    d := { TQT_DBusMessagePrivate.default with
           type := DBUS_MESSAGE_TYPE_SIGNAL, path := path, interface := interface,
           member := member } }

/-- The factory `TQT_DBusMessage::methodCall`. -/
def methodCall (service path interface method : String) : TQT_DBusMessage :=
  { default with
    d := { TQT_DBusMessagePrivate.default with
           type := DBUS_MESSAGE_TYPE_METHOD_CALL, service := service, path := path,
           interface := interface, member := method } }

/-- The factory `TQT_DBusMessage::methodReply`.  `Q_ASSERT(other.d->msg)` only warns; `dbus_message_ref`
hands back the pointer it is given. -/
def methodReply (other : TQT_DBusMessage) : TQT_DBusMessage :=
  { default with
    d := { TQT_DBusMessagePrivate.default with
           type := DBUS_MESSAGE_TYPE_METHOD_RETURN, reply := other.d.msg } }

/-- The factory `TQT_DBusMessage::methodError`. -/
def methodError (other : TQT_DBusMessage) (error : TQT_DBusError) : TQT_DBusMessage :=
  if !error.isValid then default
  else
    { default with
      d := { TQT_DBusMessagePrivate.default with
             type := DBUS_MESSAGE_TYPE_ERROR, reply := other.d.msg, error := error } }

/-- The factory `TQT_DBusMessage::fromDBusMessage`; the result is an error when `messageToList`
leaves defined behaviour on the arguments. -/
def fromDBusMessage (dmsg : Option DBusMessage) : Except ParseFault TQT_DBusMessage :=
  match dmsg with
  | none => .ok default
  | some m =>
      match messageToList [] m.arguments with
      | .error e => .error e
      | .ok list =>
          .ok { arguments := list,
                d := { TQT_DBusMessagePrivate.default with
                       type := m.type, path := m.path, interface := m.interface,
                       member := m.member, sender := m.sender, msg := some m,
                       error :=
                         match m.error with
                         | some e => TQT_DBusError.ofDBusError (some e)
                         | none => TQT_DBusError.default } }

/-- The getters `path`, `interface`, `member`, `sender`, `error` and `timeout`. -/
def path (m : TQT_DBusMessage) : String := m.d.path
def interface (m : TQT_DBusMessage) : String := m.d.interface
def member (m : TQT_DBusMessage) : String := m.d.member
def sender (m : TQT_DBusMessage) : String := m.d.sender
def error (m : TQT_DBusMessage) : TQT_DBusError := m.d.error
def timeout (m : TQT_DBusMessage) : Int := m.d.timeout

/-- The conversion of a `dbus_uint32_t` to the `int` the two serial number getters return. -/
def toInt (serial : Nat) : Int :=
  if serial % 2 ^ 32 < 2 ^ 31 then (serial % 2 ^ 32 : Nat) else (serial % 2 ^ 32 : Nat) - 2 ^ 32

/-- The method `TQT_DBusMessage::serialNumber`. -/
def serialNumber (m : TQT_DBusMessage) : Int :=
  match m.d.msg with
  | none => 0
  | some w => toInt w.serial

/-- The method `TQT_DBusMessage::replySerialNumber`. -/
def replySerialNumber (m : TQT_DBusMessage) : Int :=
  match m.d.msg with
  | none => 0
  | some w => toInt w.replySerial

/-- The method `TQT_DBusMessage::type`. -/
def type (m : TQT_DBusMessage) : MessageType :=
  if m.d.type = DBUS_MESSAGE_TYPE_METHOD_CALL then .MethodCallMessage
  else if m.d.type = DBUS_MESSAGE_TYPE_METHOD_RETURN then .ReplyMessage
  else if m.d.type = DBUS_MESSAGE_TYPE_ERROR then .ErrorMessage
  else if m.d.type = DBUS_MESSAGE_TYPE_SIGNAL then .SignalMessage
  else .InvalidMessage

end TQT_DBusMessage

/-! ## The proxy (`tqdbusproxy.cpp`) -/

/-- The class `TQT_DBusProxy::Private` without its connection handle. -/
structure TQT_DBusProxy.Private where
  service : String
  path : String
  interface : String
  canSend : Bool
  error : TQT_DBusError

/-- The method `TQString::startsWith`. -/
def TQString.startsWith (s start : String) : Bool := start.toList.isPrefixOf s.toList

/-- The slot `TQT_DBusProxy::handleDBusSignal`: the messages it emits through `dbusSignal`. -/
def TQT_DBusProxy.handleDBusSignal (d : TQT_DBusProxy.Private) (message : TQT_DBusMessage) :
    List TQT_DBusMessage :=
  if !d.path.isEmpty && d.path != message.path then []
  else if TQString.startsWith d.service ":" && d.service != message.sender then []
  else if !d.interface.isEmpty && d.interface != message.interface then []
  else [message]

/-! ## The connection (`tqdbusconnection.cpp`, `tqdbusintegrator.cpp`, `tqdbusconnection_p.h`)

Pointers to objects that are not modelled (`TQObject*`, `TQT_DBusObjectBase*`,
`DBusPendingCall*`, `DBusConnection*`) are natural numbers, 0 being the null pointer.
A `TQMap` is the list of its entries; a timer is the flag `isActive()`.  The signals
`dbusSignal` and `dbusPendingCallReply` are results of the functions that emit them:
what the connected slots do is outside the model, and they are taken not to call
back into the function that emits. -/

/-- The enum `TQT_DBusConnectionPrivate::ConnectionMode`. -/
inductive ConnectionMode where
  | InvalidMode | ServerMode | ClientMode
  deriving DecidableEq, Repr

/-- The class `TQT_DBusResultInfo`. -/
structure TQT_DBusResultInfo where
  message : TQT_DBusMessage
  receiver : Nat
  method : List Char

/-- The struct `TQT_DBusConnectionPrivate::TQT_DBusPendingCall`.  The receiver is a `TQGuardedPtr`,
which reads as the null pointer once the object it guards is gone. -/
structure TQT_DBusPendingCall where
  receiver : Nat
  method : List Char
  pending : Nat

/-- The members of `TQT_DBusConnectionPrivate` that the functions below read or write.  The
`DBusError error` is unset between two calls, since every function that has the
library set it calls `handleError`, which frees it. -/
structure TQT_DBusConnectionPrivate where
  lastError : TQT_DBusError
  mode : ConnectionMode
  connection : Nat
  dispatcherActive : Bool
  registeredObjects : List (String × Nat)
  pendingCalls : List (Nat × TQT_DBusPendingCall)
  pendingMessages : List TQT_DBusMessage
  inDispatch : Bool
  m_resultEmissionQueue : List TQT_DBusResultInfo
  m_resultEmissionQueueTimerActive : Bool
  m_messageEmissionQueueTimerActive : Bool

/-- The ways in which a run of the connection code leaves defined behaviour: inside the
decoding of the arguments of a message, or by using the `end()` iterator of a map
as an entry. -/
inductive Fault where
  | decoding (fault : ParseFault)
  | endIteratorUsed
  deriving DecidableEq, Repr

namespace TQT_DBusConnectionPrivate

/-- The constructor `TQT_DBusConnectionPrivate(TQObject *parent)`. -/
def init : TQT_DBusConnectionPrivate :=
  ⟨TQT_DBusError.default, .InvalidMode, 0, false, [], [], [], false, [], false, false⟩

/-- The method `handleError` after the library has set (or not set) `error`: `lastError` is
built from it and its validity returned. -/
def handleError (s : TQT_DBusConnectionPrivate) (error : Option (String × String)) :
    TQT_DBusConnectionPrivate × Bool :=
  ({ s with lastError := TQT_DBusError.ofDBusError error },
   (TQT_DBusError.ofDBusError error).isValid)

/-- The slot `objectDestroyed(TQObject* object)`: every pending call whose receiver is `object` or
already null is cancelled and erased. -/
def objectDestroyed (s : TQT_DBusConnectionPrivate) (object : Nat) : TQT_DBusConnectionPrivate :=
  { s with pendingCalls :=
      s.pendingCalls.filter (fun it => !(it.2.receiver == object || it.2.receiver == 0)) }

/-- The loop of `transmitMessageEmissionQueue`: `pendingMessages` from the iterator on and the
messages emitted through `dbusSignal` so far.  Every turn copies the message at
the iterator, removes it from the list and emits the copy.  The result is the
list and the emitted messages when the iterator reaches `end()`. -/
def messageEmissionLoop :
    List TQT_DBusMessage → List TQT_DBusMessage → List TQT_DBusMessage × List TQT_DBusMessage
  | [], emitted => ([], emitted)
  | msg :: rest, emitted => messageEmissionLoop rest (emitted ++ [msg])

/-- The slot `transmitMessageEmissionQueue`: the state after it and the messages emitted through
`dbusSignal`, in the order of emission. -/
def transmitMessageEmissionQueue (s : TQT_DBusConnectionPrivate) :
    TQT_DBusConnectionPrivate × List TQT_DBusMessage :=
  ({ s with pendingMessages := (messageEmissionLoop s.pendingMessages []).1 },
   (messageEmissionLoop s.pendingMessages []).2)

/-- The method `handleSignal(DBusMessage *message)`. -/
def handleSignal (s : TQT_DBusConnectionPrivate) (message : DBusMessage) :
    Except Fault (TQT_DBusConnectionPrivate × Bool) :=
  match TQT_DBusMessage.fromDBusMessage (some message) with
  | .error e => .error (.decoding e)
  | .ok msg =>
      .ok ({ s with pendingMessages := s.pendingMessages ++ [msg],
                    m_messageEmissionQueueTimerActive := true }, true)

/-- The method `newMethodInResultEmissionQueue`. -/
def newMethodInResultEmissionQueue (s : TQT_DBusConnectionPrivate) : TQT_DBusConnectionPrivate :=
  { s with m_resultEmissionQueueTimerActive := true }

/-- The static `qDBusResultReceived(pending, user_data)`, `reply` being the message
`dbus_pending_call_steal_reply` hands over.  After the branch for a known call the
function deletes `it.data()` and erases `it` also when `it` is `end()`. -/
def qDBusResultReceived (d : TQT_DBusConnectionPrivate) (pending : Nat) (reply : DBusMessage) :
    Except Fault TQT_DBusConnectionPrivate :=
  let d := (d.handleError reply.error).1
  match TQMap.find pending d.pendingCalls with
  | some call =>
      match TQT_DBusMessage.fromDBusMessage (some reply) with
      | .error e => .error (.decoding e)
      | .ok message =>
          let d := newMethodInResultEmissionQueue
            { d with m_resultEmissionQueue :=
                d.m_resultEmissionQueue ++ [⟨message, call.receiver, call.method⟩] }
          .ok { d with pendingCalls := TQMap.erase pending d.pendingCalls }
  | none => .error .endIteratorUsed

/-- The loop of `transmitResultEmissionQueue`: the queue and the deliveries made so far.  Every
turn copies the first result, removes it from the queue, connects
`dbusPendingCallReply` to the receiver and method of the copy, emits its message and
disconnects again; a delivery is recorded as the result whose receiver and
method were connected while its message was emitted. -/
def resultEmissionLoop :
    List TQT_DBusResultInfo → List TQT_DBusResultInfo →
      List TQT_DBusResultInfo × List TQT_DBusResultInfo
  | [], delivered => ([], delivered)
  | dbusResult :: rest, delivered => resultEmissionLoop rest (delivered ++ [dbusResult])

/-- The slot `transmitResultEmissionQueue`: the state after it and the deliveries made, in their
order. -/
def transmitResultEmissionQueue (s : TQT_DBusConnectionPrivate) :
    TQT_DBusConnectionPrivate × List TQT_DBusResultInfo :=
  if !s.m_resultEmissionQueue.isEmpty then
    ({ s with m_resultEmissionQueue := (resultEmissionLoop s.m_resultEmissionQueue []).1 },
     (resultEmissionLoop s.m_resultEmissionQueue []).2)
  else (s, [])

end TQT_DBusConnectionPrivate

/-- The class `TQT_DBusConnection`: its pointer `d`, `none` being the null pointer. -/
structure TQT_DBusConnection where
  d : Option TQT_DBusConnectionPrivate

namespace TQT_DBusConnection

/-- The method `TQT_DBusConnection::registerObject`: the connection after the call and the returned
flag. -/
def registerObject (c : TQT_DBusConnection) (path : String) (object : Nat) :
    TQT_DBusConnection × Bool :=
  match c.d with
  | none => (c, false)
  | some d =>
      if d.connection == 0 || object == 0 || path.isEmpty then (c, false)
      else
        match TQMap.find path d.registeredObjects with
        | some _ => (c, false)
        | none =>
            (⟨some { d with registeredObjects := TQMap.assign path object d.registeredObjects }⟩,
             true)

/-- The method `TQT_DBusConnection::unregisterObject`. -/
def unregisterObject (c : TQT_DBusConnection) (path : String) : TQT_DBusConnection :=
  match c.d with
  | none => c
  | some d =>
      if d.connection == 0 || path.isEmpty then c
      else
        match TQMap.find path d.registeredObjects with
        | none => c
        | some _ =>
            ⟨some { d with registeredObjects := TQMap.erase path d.registeredObjects }⟩

end TQT_DBusConnection

/-! ### Dispatching

The bus library's `dbus_connection_dispatch` calls back into the connection: the
message filter `qDBusSignalFilter` for a received message and the notification
`qDBusResultReceived` for a completed pending call.  A method call is handed to the
object registered for its path, whose `handleMethodCall` is application code that
may call the connection again. -/

mutual
/-- One call the bus library makes during `dbus_connection_dispatch`: the filter for a received
message, with the calls the `handleMethodCall` the message reaches makes on the
connection and its result; or the notification of a pending call. -/
inductive LibraryCall where
  | filter (message : DBusMessage) (handler : List ConnectionCall) (handled : Bool)
  | notify (pending : Nat) (reply : DBusMessage)
/-- A call that application code makes on the connection `TQT_DBusConnection`: `dispatch()`, with
the calls the library would make if it is reached and whether it reports
`DBUS_DISPATCH_DATA_REMAINS`; `registerObject`; `unregisterObject`. -/
inductive ConnectionCall where
  | dispatch (library : List LibraryCall) (dataRemains : Bool)
  | registerObject (path : String) (object : Nat)
  | unregisterObject (path : String)
end

namespace TQT_DBusConnectionPrivate

/-- The slot `TQT_DBusConnectionPrivate::dispatch`, with `library` for what `dbus_connection_dispatch`
does to the state it is called in (its calls back into the connection) and
`dataRemains` for whether it reports `DBUS_DISPATCH_DATA_REMAINS`.  The result is the state
after the call and the number of calls of `dbus_connection_dispatch` made. -/
def dispatchWith (s : TQT_DBusConnectionPrivate) (dataRemains : Bool)
    (library : TQT_DBusConnectionPrivate → Except Fault (TQT_DBusConnectionPrivate × Nat)) :
    Except Fault (TQT_DBusConnectionPrivate × Nat) :=
  if s.inDispatch then .ok (s, 0)
  else
    let s := { s with inDispatch := true }
    if s.mode == .ClientMode then
      match library s with
      | .error e => .error e
      | .ok (s, calls) =>
          let s := if dataRemains then s else { s with dispatcherActive := false }
          .ok ({ s with inDispatch := false }, calls + 1)
    else .ok ({ s with inDispatch := false }, 0)

mutual
/-- The calls the library makes during one `dbus_connection_dispatch`, in order. -/
def libraryCalls (s : TQT_DBusConnectionPrivate) :
    List LibraryCall → Except Fault (TQT_DBusConnectionPrivate × Nat)
  | [] => .ok (s, 0)
  | call :: rest =>
      match libraryCall s call with
      | .error e => .error e
      | .ok (s, n) =>
          match libraryCalls s rest with
          | .error e => .error e
          | .ok (s, m) => .ok (s, n + m)
/-- The static `qDBusSignalFilter` (with `handleSignal` and `handleObjectCall`) and the notification
`qDBusResultReceived`. -/
def libraryCall (s : TQT_DBusConnectionPrivate) :
    LibraryCall → Except Fault (TQT_DBusConnectionPrivate × Nat)
  | .filter message handler _ =>
      if s.mode == .InvalidMode then .ok (s, 0)
      else if message.type = DBUS_MESSAGE_TYPE_SIGNAL then
        match s.handleSignal message with
        | .error e => .error e
        | .ok (s, _) => .ok (s, 0)
      else if message.type = DBUS_MESSAGE_TYPE_METHOD_CALL then
        match TQT_DBusMessage.fromDBusMessage (some message) with
        | .error e => .error (.decoding e)
        | .ok msg =>
            match TQMap.find msg.path s.registeredObjects with
            | none => .ok (s, 0)
            | some _ => handleMethodCall s handler
      else .ok (s, 0)
  | .notify pending reply =>
      match s.qDBusResultReceived pending reply with
      | .error e => .error e
      | .ok s => .ok (s, 0)
/-- The calls an implementation of `TQT_DBusObjectBase::handleMethodCall` makes on the connection,
in order. -/
def handleMethodCall (s : TQT_DBusConnectionPrivate) :
    List ConnectionCall → Except Fault (TQT_DBusConnectionPrivate × Nat)
  | [] => .ok (s, 0)
  | call :: rest =>
      match connectionCall s call with
      | .error e => .error e
      | .ok (s, n) =>
          match handleMethodCall s rest with
          | .error e => .error e
          | .ok (s, m) => .ok (s, n + m)
/-- A call of `TQT_DBusConnection::dispatch`, `registerObject` or `unregisterObject` on a handle of
this connection. -/
def connectionCall (s : TQT_DBusConnectionPrivate) :
    ConnectionCall → Except Fault (TQT_DBusConnectionPrivate × Nat)
  | .dispatch library dataRemains =>
      if s.connection == 0 then .ok (s, 0)
      else dispatchWith s dataRemains (fun s => libraryCalls s library)
  | .registerObject path object =>
      match (TQT_DBusConnection.registerObject ⟨some s⟩ path object).1.d with
      | some s => .ok (s, 0)
      | none => .ok (s, 0)
  | .unregisterObject path =>
      match (TQT_DBusConnection.unregisterObject ⟨some s⟩ path).d with
      | some s => .ok (s, 0)
      | none => .ok (s, 0)
end

/-- The slot `TQT_DBusConnectionPrivate::dispatch`: the state after the call and the number of calls
of `dbus_connection_dispatch` made during it. -/
def dispatch (s : TQT_DBusConnectionPrivate) (library : List LibraryCall) (dataRemains : Bool) :
    Except Fault (TQT_DBusConnectionPrivate × Nat) :=
  dispatchWith s dataRemains (fun s => libraryCalls s library)

end TQT_DBusConnectionPrivate

/-- The handler `handleObjectCall` finds for a path: `registeredObjects.find(path)`, `none` being
`end()`. -/
def TQT_DBusConnection.handlerFor (c : TQT_DBusConnection) (path : String) : Option Nat :=
  match c.d with
  | none => none
  | some d => TQMap.find path d.registeredObjects

/-! ## Conversion to native types (`tqdbusdataconverter.cpp`)

`TQPoint`, `TQSize` and `TQRect` are classes of the toolkit.  Their coordinates are C++
`int`s; the only arithmetic on them is that of `TQRect`, which is taken to wrap
around at 32 bits. -/

/-- The value an `int` computation gives for the mathematical result `v`, in 32-bit two's
complement. -/
def wrapInt32 (v : Int) : Int := (v + 2 ^ 31) % 2 ^ 32 - 2 ^ 31

/-- The class `TQPoint`: `x()` and `y()` return the members `xp` and `yp` the constructor
`TQPoint(xpos, ypos)` stores. -/
structure TQPoint where
  xp : Int
  yp : Int
  deriving DecidableEq, Repr

/-- The class `TQSize`: `width()` and `height()` return the members `wd` and `ht` the
constructor `TQSize(w, h)` stores. -/
structure TQSize where
  wd : Int
  ht : Int
  deriving DecidableEq, Repr

/-- The class `TQRect`, which stores its left, top, right and bottom coordinates. -/
structure TQRect where
  x1 : Int
  y1 : Int
  x2 : Int
  y2 : Int
  deriving DecidableEq, Repr

/-- The constructor `TQRect(left, top, width, height)`. -/
def TQRect.ofSize (left top width height : Int) : TQRect :=
  ⟨left, top, wrapInt32 (wrapInt32 (left + width) - 1), wrapInt32 (wrapInt32 (top + height) - 1)⟩

/-- The getters `TQRect::x`, `y`, `width` and `height`. -/
def TQRect.x (r : TQRect) : Int := r.x1
def TQRect.y (r : TQRect) : Int := r.y1
def TQRect.width (r : TQRect) : Int := wrapInt32 (wrapInt32 (r.x2 - r.x1) + 1)
def TQRect.height (r : TQRect) : Int := wrapInt32 (wrapInt32 (r.y2 - r.y1) + 1)

/-- The enum `TQT_DBusDataConverter::Result`. -/
inductive TQT_DBusDataConverter.Result where
  | Success | InvalidSignature | InvalidArgument
  deriving DecidableEq, Repr

namespace TQT_DBusDataConverter

/-- The loop `for (uint i = 0; it != endIt; ++it, ++i)` of the three `convertFromTQT_DBusData`
specialisations: the values read with `toInt32(&ok)`, or `none` when the loop
leaves through `if (!ok) return InvalidSignature`. -/
def int32Values : List TQT_DBusData → Option (List Int)
  | [] => some []
  | it :: rest =>
      if (it.toInt32 (some false)).2 != some true then none
      else
        match int32Values rest with
        | none => none
        | some values => some ((it.toInt32 (some false)).1 :: values)

/-- The specialisation `convertFromTQT_DBusData<TQRect>`: the result and `typeData` after the
call. -/
def convertFromTQT_DBusData_TQRect (dbusData : TQT_DBusData) (typeData : TQRect) :
    Result × TQRect :=
  if dbusData.type != .Struct then (.InvalidSignature, typeData)
  else
    let members := (dbusData.toStruct none).1
    if members.length != 4 then (.InvalidSignature, typeData)
    else
      match int32Values members with
      | none => (.InvalidSignature, typeData)
      | some values =>
          (.Success,
           TQRect.ofSize (values.getD 0 0) (values.getD 1 0) (values.getD 2 0) (values.getD 3 0))

/-- The specialisation `convertToTQT_DBusData<TQRect>`: the result and `dbusData` after the
call. -/
def convertToTQT_DBusData_TQRect (typeData : TQRect) : Result × TQT_DBusData :=
  (.Success,
   TQT_DBusData.fromStruct
     [TQT_DBusData.fromInt32 typeData.x, TQT_DBusData.fromInt32 typeData.y,
      TQT_DBusData.fromInt32 typeData.width, TQT_DBusData.fromInt32 typeData.height])

/-- The specialisation `convertFromTQT_DBusData<TQPoint>`. -/
def convertFromTQT_DBusData_TQPoint (dbusData : TQT_DBusData) (typeData : TQPoint) :
    Result × TQPoint :=
  if dbusData.type != .Struct then (.InvalidSignature, typeData)
  else
    let members := (dbusData.toStruct none).1
    if members.length != 2 then (.InvalidSignature, typeData)
    else
      match int32Values members with
      | none => (.InvalidSignature, typeData)
      | some values => (.Success, ⟨values.getD 0 0, values.getD 1 0⟩)

/-- The specialisation `convertToTQT_DBusData<TQPoint>`. -/
def convertToTQT_DBusData_TQPoint (typeData : TQPoint) : Result × TQT_DBusData :=
  (.Success,
   TQT_DBusData.fromStruct [TQT_DBusData.fromInt32 typeData.xp, TQT_DBusData.fromInt32 typeData.yp])

/-- The specialisation `convertFromTQT_DBusData<TQSize>`. -/
def convertFromTQT_DBusData_TQSize (dbusData : TQT_DBusData) (typeData : TQSize) :
    Result × TQSize :=
  if dbusData.type != .Struct then (.InvalidSignature, typeData)
  else
    let members := (dbusData.toStruct none).1
    if members.length != 2 then (.InvalidSignature, typeData)
    else
      match int32Values members with
      | none => (.InvalidSignature, typeData)
      | some values => (.Success, ⟨values.getD 0 0, values.getD 1 0⟩)

/-- The specialisation `convertToTQT_DBusData<TQSize>`. -/
def convertToTQT_DBusData_TQSize (typeData : TQSize) : Result × TQT_DBusData :=
  (.Success,
   TQT_DBusData.fromStruct [TQT_DBusData.fromInt32 typeData.wd, TQT_DBusData.fromInt32 typeData.ht])

end TQT_DBusDataConverter

/-! ## Object path nodes (`tqdbusobjectpath.cpp`)

`findRev` and `left` are methods of the toolkit's `TQString`, modelled by what they
are documented to return.  Positions count the characters of the path. -/

/-- The method `TQString::findRev(c)`: the position of the last occurrence of `c`, or `-1`
when there is none. -/
def TQString.findRev (s : List Char) (c : Char) : Int :=
  let k := s.reverse.indexOf c
  if k < s.length then (s.length : Int) - 1 - (k : Int) else -1

/-- The method `TQString::left(len)`: the `len` leftmost characters. -/
def TQString.left (s : List Char) (len : Nat) : List Char := s.take len

/-- The constructor `TQT_DBusObjectPath(const TQT_DBusObjectPath& parentNode, const TQString& nodeName)`. -/
def TQT_DBusObjectPath.ofParentNode (parentNode : TQT_DBusObjectPath) (nodeName : String) :
    TQT_DBusObjectPath :=
  let s := parentNode.path.toList
  let s := if parentNode.path.toList.length != 1 then s ++ ['/'] else s
  ⟨String.mk (s ++ nodeName.toList)⟩

/-- The method `TQT_DBusObjectPath::parentNode`. -/
def TQT_DBusObjectPath.parentNode (p : TQT_DBusObjectPath) : TQT_DBusObjectPath :=
  if p.path.toList.length == 1 then ⟨""⟩
  else
    let index := TQString.findRev p.path.toList '/'
    if index == -1 then ⟨""⟩
    else if index == 0 then ⟨String.mk (TQString.left p.path.toList 1)⟩
    else ⟨String.mk (TQString.left p.path.toList index.toNat)⟩

/-! ## Socket watches (`tqdbusintegrator.cpp`)

The watch callbacks and `purgeRemovedWatches` touch two members of
`TQT_DBusConnectionPrivate` that no other function embedded here reads; they are kept
in a record of their own.  Pointers are numbers, `0` the null pointer. -/

/-- The struct `TQT_DBusConnectionPrivate::Watcher`. -/
structure TQT_DBusConnectionPrivate.Watcher where
  watch : Nat
  read : Nat
  write : Nat
  deriving DecidableEq, Repr

/-- The members `removedWatches` and `watchers` of `TQT_DBusConnectionPrivate`; the map `watchers`
is given by its entries in key order. -/
structure TQT_DBusConnectionPrivate.Watches where
  removedWatches : List TQT_DBusConnectionPrivate.Watcher
  watchers : List (Int × List TQT_DBusConnectionPrivate.Watcher)
  deriving DecidableEq, Repr

/-- The end of `qDBusAddWatch`: `find(fd)`, the insertion of an empty list when there is no
entry, and `it.data().append(watcher)`. -/
def appendWatcher (fd : Int) (watcher : TQT_DBusConnectionPrivate.Watcher) :
    List (Int × List TQT_DBusConnectionPrivate.Watcher) →
      List (Int × List TQT_DBusConnectionPrivate.Watcher)
  | [] => [(fd, [watcher])]
  | (k, list) :: rest =>
      if k = fd then (k, list ++ [watcher]) :: rest
      else if fd < k then (fd, [watcher]) :: (k, list) :: rest
      else (k, list) :: appendWatcher fd watcher rest

/-- The static `qDBusAddWatch(watch, data)`.  The flags and the descriptor the library reports
for the watch are `readable`, `writable` and `fd`; `tqApp` tells whether there is
an application object; `readNotifier` and `writeNotifier` are the socket notifiers
`new` would return. -/
def qDBusAddWatch (d : TQT_DBusConnectionPrivate.Watches) (watch : Nat)
    (readable writable : Bool) (fd : Int) (tqApp : Bool) (readNotifier writeNotifier : Nat) :
    TQT_DBusConnectionPrivate.Watches :=
  let watcher : TQT_DBusConnectionPrivate.Watcher :=
    ⟨if readable || writable then watch else 0,
     if readable && tqApp then readNotifier else 0,
     if writable && tqApp then writeNotifier else 0⟩
  { d with watchers := appendWatcher fd watcher d.watchers }

/-- The loop over the list of the descriptor in `qDBusRemoveWatch`: the list after it and the
copies appended to `removedWatches`. -/
def removeWatchLoop (watch : Nat) :
    List TQT_DBusConnectionPrivate.Watcher →
      List TQT_DBusConnectionPrivate.Watcher × List TQT_DBusConnectionPrivate.Watcher
  | [] => ([], [])
  | wit :: rest =>
      let r := removeWatchLoop watch rest
      if wit.watch == watch then (⟨0, 0, 0⟩ :: r.1, wit :: r.2) else (wit :: r.1, r.2)

/-- The static `qDBusRemoveWatch(watch, data)`, `fd` being the descriptor the library reports for
the watch: the members after the call and whether `purgeRemovedWatches` was
scheduled. -/
def qDBusRemoveWatch (d : TQT_DBusConnectionPrivate.Watches) (watch : Nat) (fd : Int) :
    TQT_DBusConnectionPrivate.Watches × Bool :=
  let d :=
    match TQMap.find fd d.watchers with
    | none => d
    | some list =>
        let r := removeWatchLoop watch list
        ⟨d.removedWatches ++ r.2, TQMap.assign fd r.1 d.watchers⟩
  (d, decide (d.removedWatches.length > 0))

namespace TQT_DBusConnectionPrivate

/-- The inner loop `while (listIt != list.end())` of `purgeRemovedWatches` on what is left of the
list, `listIt` being at its first entry: one step of the budget is one turn.  An
entry without notifiers is erased and `listIt` set to the next one; for any
other entry the turn changes nothing.  The result is the list after the
loop, `none` when the budget does not suffice. -/
def purgeList : Nat → List Watcher → Option (List Watcher)
  | 0, _ => none
  | _ + 1, [] => some []
  | fuel + 1, listIt :: rest =>
      if listIt.read == 0 && listIt.write == 0 then purgeList fuel rest
      else purgeList fuel (listIt :: rest)

/-- The outer loop `while (it != watchers.end())` of `purgeRemovedWatches`, with the budget given
to each run of the inner loop. -/
def purgeWatchers (fuel : Nat) : List (Int × List Watcher) → Option (List (Int × List Watcher))
  | [] => some []
  | (fd, list) :: rest =>
      match purgeList fuel list with
      | none => none
      | some list =>
          match purgeWatchers fuel rest with
          | none => none
          | some rest => if list.isEmpty then some rest else some ((fd, list) :: rest)

/-- The slot `TQT_DBusConnectionPrivate::purgeRemovedWatches`: the members after the call, `none`
when the budget of loop turns does not suffice. -/
def purgeRemovedWatches (fuel : Nat) (d : Watches) : Option Watches :=
  if d.removedWatches.isEmpty then some d
  else
    match purgeWatchers fuel d.watchers with
    | none => none
    | some watchers => some ⟨[], watchers⟩

end TQT_DBusConnectionPrivate

/-! ## Asynchronous calls (`tqdbusintegrator.cpp`, `tqdbusconnection.cpp`, `tqdbusproxy.cpp`)

What the bus library and the toolkit return during one asynchronous send is
given to the functions as a record: they create the message, connect the
`destroyed` signal, queue the message and assign its serial. -/

/-- The results of the calls one `sendWithAsyncReply` makes outside the repository:
`dbus_connection_get_is_connected`, `TQObject::connect`, the `dbus_message_new_...` function
(`none` is the null pointer), and `dbus_connection_send_with_reply`, for which `none` is the
result false and `some (pending, serial)` the result true with the pending call
handed back and the serial `dbus_message_get_serial` reports afterwards. -/
structure SendResults where
  isConnected : Bool
  connected : Bool
  created : Option DBusMessage
  sent : Option (Nat × Nat)

/-- The macro `TQ_SLOT(a)` of the toolkit: the slot signature behind the code `1`. -/
def TQ_SLOT (a : String) : List Char := '1' :: a.toList

/-- The method `TQT_DBusMessage::toDBusMessage`, `created` being what the `dbus_message_new_...`
function of the message type hands back. -/
def TQT_DBusMessage.toDBusMessage (m : TQT_DBusMessage) (created : Option DBusMessage) :
    Option DBusMessage :=
  let msg :=
    if m.d.type = DBUS_MESSAGE_TYPE_METHOD_CALL then created
    else if m.d.type = DBUS_MESSAGE_TYPE_SIGNAL then created
    else if m.d.type = DBUS_MESSAGE_TYPE_METHOD_RETURN then created
    else if m.d.type = DBUS_MESSAGE_TYPE_ERROR then created
    else none
  match msg with
  | none => none
  | some msg => some { msg with arguments := listToMessage m.arguments msg.arguments }

/-- The method `TQT_DBusConnectionPrivate::sendWithReplyAsync`; `method` is `none` for a null
pointer.  The result is the state after the call and the returned number. -/
def TQT_DBusConnectionPrivate.sendWithReplyAsync (d : TQT_DBusConnectionPrivate)
    (message : TQT_DBusMessage) (receiver : Nat) (method : Option (List Char))
    (library : SendResults) : TQT_DBusConnectionPrivate × Int :=
  match method with
  | none => (d, 0)
  | some method =>
      if receiver == 0 then (d, 0)
      else if !library.connected then (d, 0)
      else
        match message.toDBusMessage library.created with
        | none => (d, 0)
        | some _ =>
            match library.sent with
            | some (pending, serial) =>
                ({ d with pendingCalls :=
                     TQMap.assign pending ⟨receiver, method, pending⟩ d.pendingCalls },
                 TQT_DBusMessage.toInt serial)
            | none => (d, 0)

/-- The method `TQT_DBusConnection::isConnected`. -/
def TQT_DBusConnection.isConnected (c : TQT_DBusConnection) (library : SendResults) : Bool :=
  match c.d with
  | none => false
  | some d => d.connection != 0 && library.isConnected

/-- The method `TQT_DBusConnection::sendWithAsyncReply`. -/
def TQT_DBusConnection.sendWithAsyncReply (c : TQT_DBusConnection) (message : TQT_DBusMessage)
    (receiver : Nat) (method : Option (List Char)) (library : SendResults) :
    TQT_DBusConnection × Int :=
  match c.d with
  | none => (c, 0)
  | some d =>
      if d.connection == 0 then (c, 0)
      else
        (⟨some (d.sendWithReplyAsync message receiver method library).1⟩,
         (d.sendWithReplyAsync message receiver method library).2)

/-- The method `TQT_DBusProxy::sendWithAsyncReply` of the proxy object at `self` with the connection
`connection`: the connection after the call and the returned number. -/
def TQT_DBusProxy.sendWithAsyncReply (d : TQT_DBusProxy.Private) (connection : TQT_DBusConnection)
    (self : Nat) (method : String) (params : List TQT_DBusData) (library : SendResults) :
    TQT_DBusConnection × Int :=
  if !d.canSend || method.isEmpty || !connection.isConnected library then (connection, 0)
  else
    let message := TQT_DBusMessage.methodCall d.service d.path d.interface method
    let message := { message with arguments := message.arguments ++ params }
    connection.sendWithAsyncReply message self
      (some (TQ_SLOT "handleAsyncReply(const TQT_DBusMessage&)")) library

/-- The slot `TQT_DBusProxy::handleAsyncReply`: the proxy data after the call and the arguments of
the `asyncReply` signal it emits. -/
def TQT_DBusProxy.handleAsyncReply (d : TQT_DBusProxy.Private) (message : TQT_DBusMessage) :
    TQT_DBusProxy.Private × (Int × TQT_DBusMessage) :=
  ({ d with error := message.error }, (message.replySerialNumber, message))

/-! # Theorems -/

/-! ## Signature building -/

theorem specTypeCharacter_data (t : TQT_DBusType) :
    (specTypeCharacter t).data = qDBusTypeForTQT_DBusType t := by
  cases t <;> rfl

theorem isContainerType_iff (t : TQT_DBusType) :
    isContainerType t = true ↔ (t = .List ∨ t = .Struct ∨ t = .Map) := by
  cases t <;> simp [isContainerType]

mutual
theorem buildDBusSignature_eq_spec :
    ∀ d : TQT_DBusData, d.buildDBusSignature = (specSignature d).toList
  | .list type containerItem _ => by
      have ih := buildDBusSignature_eq_spec containerItem
      simp only [TQT_DBusData.buildDBusSignature, specSignature, String.toList, String.data_append]
      by_cases h : isContainerType type = true
      · have h2 := (isContainerType_iff type).1 h
        simp [h, h2, ih]
      · have h2 : ¬ (type = .List ∨ type = .Struct ∨ type = .Map) :=
          fun hh => h ((isContainerType_iff type).2 hh)
        simp [h, h2, specTypeCharacter_data]
  | .struct members => by
      have ih := buildMemberSignatures_eq_spec members
      simp [TQT_DBusData.buildDBusSignature, specSignature, String.toList, String.data_append, ih]
  | .map keyType valueType containerValueType _ => by
      have ih := buildDBusSignature_eq_spec containerValueType
      simp only [TQT_DBusData.buildDBusSignature, specSignature, String.toList, String.data_append]
      by_cases h : isContainerType valueType = true
      · have h2 := (isContainerType_iff valueType).1 h
        simp [h, h2, ih, specTypeCharacter_data]
      · have h2 : ¬ (valueType = .List ∨ valueType = .Struct ∨ valueType = .Map) :=
          fun hh => h ((isContainerType_iff valueType).2 hh)
        simp [h, h2, specTypeCharacter_data]
  | .invalid => rfl
  | .bool _ => rfl
  | .byte _ => rfl
  | .int16 _ => rfl
  | .uint16 _ => rfl
  | .int32 _ => rfl
  | .uint32 _ => rfl
  | .int64 _ => rfl
  | .uint64 _ => rfl
  | .double _ => rfl
  | .string _ => rfl
  | .objectPath _ => rfl
  | .unixFd _ => rfl
  | .variant _ _ => rfl
theorem buildMemberSignatures_eq_spec :
    ∀ ms : List TQT_DBusData, buildMemberSignatures ms = (specMemberSignatures ms).toList
  | [] => rfl
  | m :: rest => by
      have ih1 := buildDBusSignature_eq_spec m
      have ih2 := buildMemberSignatures_eq_spec rest
      simp [buildMemberSignatures, specMemberSignatures, String.toList, String.data_append, ih1, ih2]
end

/-- C3. For every value, `buildDBusSignature` is the recursive reference signature of the
specification: the scalar kinds and Variant give their character, a List gives
`a` and the signature of its element type, a Struct its members' signatures in
parentheses, a Map `a{` key character, value signature, `}`, and an Invalid
value gives the empty (null) string. -/
theorem buildDBusSignature_refines_spec (d : TQT_DBusData) :
    d.buildDBusSignature = (specSignature d).toList ∧
    (TQT_DBusData.invalid).buildDBusSignature = [] :=
  ⟨buildDBusSignature_eq_spec d, rfl⟩

/-! ## Construction of lists and maps from a native collection -/

theorem list_restMatches_iff (type : TQT_DBusType) (sig : List Char) (rest : List TQT_DBusData) :
    TQT_DBusDataList.restMatches type sig rest = true ↔
      ∀ x ∈ rest, x.type = type ∧ (isContainerType type = true → x.buildDBusSignature = sig) := by
  induction rest with
  | nil => simp [TQT_DBusDataList.restMatches]
  | cons x xs ih =>
      simp only [TQT_DBusDataList.restMatches, List.mem_cons, forall_eq_or_imp]
      by_cases h1 : type = x.type
      · by_cases h2 : isContainerType type = true
        · by_cases h3 : x.buildDBusSignature = sig
          · simp [h1.symm, h2, h3, ih]
          · simp [h1.symm, h2, h3]
        · simp [h1.symm, h2, ih]
      · have h1b : ¬ x.type = type := fun h => h1 h.symm
        simp [h1, h1b]

theorem map_restMatches_iff (valueType : TQT_DBusType) (sig : List Char)
    (rest : List (MapKey × TQT_DBusData)) :
    TQT_DBusDataMap.restMatches valueType sig rest = true ↔
      ∀ x ∈ rest, x.2.type = valueType ∧
        (isContainerType valueType = true → x.2.buildDBusSignature = sig) := by
  induction rest with
  | nil => simp [TQT_DBusDataMap.restMatches]
  | cons x xs ih =>
      simp only [TQT_DBusDataMap.restMatches, List.mem_cons, forall_eq_or_imp]
      by_cases h1 : x.2.type = valueType
      · by_cases h2 : isContainerType valueType = true
        · by_cases h3 : x.2.buildDBusSignature = sig
          · simp [h1, h2, h3, ih]
          · simp [h1, h2, h3]
        · simp [h1, h2, ih]
      · simp [h1]

theorem homogeneous_cons_iff (first : TQT_DBusData) (rest : List TQT_DBusData) :
    Homogeneous first (first :: rest) ↔ Homogeneous first rest := by
  simp [Homogeneous]

/-- C5. A `TQT_DBusDataList` built from a non-empty `TQValueList<TQT_DBusData>` of valid elements has
the type of the first element and exactly the given elements in order when the
collection is homogeneous (same type and, for container types, the first
element's signature), and otherwise type Invalid and no elements; the same holds
for a `TQT_DBusDataMap<T>` built from a `TQMap`; and an empty collection gives an
empty Invalid container. -/
theorem construction_from_native_collection
    (first : TQT_DBusData) (rest : List TQT_DBusData)
    (K : MapKeyType) (firstEntry : MapKey × TQT_DBusData)
    (restEntries : List (MapKey × TQT_DBusData))
    (_hvalid : ∀ x ∈ first :: rest, x.isValid = true)
    (_hvalidEntries : ∀ e ∈ firstEntry :: restEntries, e.2.isValid = true) :
    (Homogeneous first (first :: rest) →
        (TQT_DBusDataList.ofTQValueList (first :: rest)).type = first.type ∧
        (TQT_DBusDataList.ofTQValueList (first :: rest)).toTQValueList = first :: rest) ∧
    (¬ Homogeneous first (first :: rest) →
        (TQT_DBusDataList.ofTQValueList (first :: rest)).type = .Invalid ∧
        (TQT_DBusDataList.ofTQValueList (first :: rest)).count = 0) ∧
    (Homogeneous firstEntry.2 ((firstEntry :: restEntries).map Prod.snd) →
        (TQT_DBusDataMap.ofTQMap K (firstEntry :: restEntries)).valueType = firstEntry.2.type ∧
        (TQT_DBusDataMap.ofTQMap K (firstEntry :: restEntries)).toTQMap =
          firstEntry :: restEntries) ∧
    (¬ Homogeneous firstEntry.2 ((firstEntry :: restEntries).map Prod.snd) →
        (TQT_DBusDataMap.ofTQMap K (firstEntry :: restEntries)).valueType = .Invalid ∧
        (TQT_DBusDataMap.ofTQMap K (firstEntry :: restEntries)).count = 0) ∧
    ((TQT_DBusDataList.ofTQValueList []).type = .Invalid ∧
        (TQT_DBusDataList.ofTQValueList []).count = 0) ∧
    ((TQT_DBusDataMap.ofTQMap K []).valueType = .Invalid ∧
        (TQT_DBusDataMap.ofTQMap K []).count = 0) := by
  have hl : TQT_DBusDataList.restMatches first.type
        (if isContainerType first.type then
          (if isContainerType first.type then first else TQT_DBusData.invalid).buildDBusSignature
         else []) rest = true ↔ Homogeneous first (first :: rest) := by
    rw [homogeneous_cons_iff, list_restMatches_iff]
    unfold Homogeneous
    by_cases hc : isContainerType first.type = true <;> simp [hc]
  have hm : TQT_DBusDataMap.restMatches firstEntry.2.type
        (if isContainerType firstEntry.2.type then
          (if isContainerType firstEntry.2.type then firstEntry.2
           else TQT_DBusData.invalid).buildDBusSignature
         else []) restEntries = true ↔
        Homogeneous firstEntry.2 ((firstEntry :: restEntries).map Prod.snd) := by
    rw [List.map_cons, homogeneous_cons_iff, map_restMatches_iff]
    unfold Homogeneous
    by_cases hc : isContainerType firstEntry.2.type = true <;> simp [hc] <;>
      exact ⟨fun h x k hm => h k x hm, fun h k x hm => h x k hm⟩
  refine ⟨?_, ?_, ?_, ?_, ⟨rfl, rfl⟩, ⟨rfl, rfl⟩⟩
  · intro h
    simp only [TQT_DBusDataList.ofTQValueList, TQT_DBusDataList.toTQValueList]
    rw [if_pos (hl.2 h)]
    exact ⟨rfl, rfl⟩
  · intro h
    simp only [TQT_DBusDataList.ofTQValueList, TQT_DBusDataList.count]
    rw [if_neg (fun hh => h (hl.1 hh))]
    exact ⟨rfl, rfl⟩
  · intro h
    simp only [TQT_DBusDataMap.ofTQMap, TQT_DBusDataMap.toTQMap]
    rw [if_pos (hm.2 h)]
    exact ⟨rfl, rfl⟩
  · intro h
    simp only [TQT_DBusDataMap.ofTQMap, TQT_DBusDataMap.count]
    rw [if_neg (fun hh => h (hm.1 hh))]
    exact ⟨rfl, rfl⟩

/-- Witness of C5: two Int32 values, and the map from `"a"` to 1 and from `"b"` to 2. -/
theorem construction_from_native_collection_witness :
    (TQT_DBusDataList.ofTQValueList
        [TQT_DBusData.fromInt32 1, TQT_DBusData.fromInt32 2]).toTQValueList =
      [TQT_DBusData.fromInt32 1, TQT_DBusData.fromInt32 2] ∧
    (TQT_DBusDataMap.ofTQMap .String
        [(.string "a", TQT_DBusData.fromInt32 1), (.string "b", TQT_DBusData.fromInt32 2)]).valueType
      = .Int32 := by
  have h := construction_from_native_collection
    (TQT_DBusData.fromInt32 1) [TQT_DBusData.fromInt32 2] .String
    (.string "a", TQT_DBusData.fromInt32 1) [(.string "b", TQT_DBusData.fromInt32 2)]
    (by simp [TQT_DBusData.isValid, TQT_DBusData.fromInt32, TQT_DBusData.type])
    (by simp [TQT_DBusData.isValid, TQT_DBusData.fromInt32, TQT_DBusData.type])
  refine ⟨(h.1 ?_).2, (h.2.2.1 ?_).1⟩
  · simp [Homogeneous, TQT_DBusData.fromInt32, TQT_DBusData.type, isContainerType]
  · simp [Homogeneous, TQT_DBusData.fromInt32, TQT_DBusData.type, isContainerType]

/-! ## Appending to a list -/

/-- C6. A rejected append leaves the list unchanged: when the list has an established type
and the valid data has another type, or the list has a container element type
and the data a signature different from that of the container prototype, the
list after `operator<<` is the list before it (count, type, container prototype
and elements). -/
theorem rejected_append_unchanged (l : TQT_DBusDataList) (d : TQT_DBusData)
    (hT : l.type ≠ .Invalid) (hd : d.isValid = true)
    (h : d.type ≠ l.type ∨
      (isContainerType l.type = true ∧
        d.buildDBusSignature ≠ l.containerItem.buildDBusSignature)) :
    l.append d = l ∧ (l.append d).count = l.count ∧ (l.append d).type = l.type ∧
      (l.append d).containerItemType = l.containerItemType ∧
      (l.append d).toTQValueList = l.toTQValueList := by
  have hmain : l.append d = l := by
    have hd2 : d.type ≠ .Invalid := by
      simpa [TQT_DBusData.isValid] using hd
    unfold TQT_DBusDataList.append
    simp only [beq_iff_eq, hd2, if_false, hT, bne_iff_ne, ne_eq]
    by_cases h1 : l.type = d.type
    · rcases h with h | ⟨hc, hs⟩
      · exact absurd h1.symm h
      · have hs2 : ¬ l.containerItem.buildDBusSignature = d.buildDBusSignature :=
          fun hh => hs hh.symm
        simp [h1, hs2]
        rw [← h1]
        simp [hc]
    · simp [h1]
  rw [hmain]
  exact ⟨rfl, rfl, rfl, rfl, rfl⟩

/-- Witness of C6: a Byte appended to a list of String. -/
theorem rejected_append_unchanged_witness :
    (TQT_DBusDataList.ofTQStringList ["a", "b"]).append (TQT_DBusData.fromByte 7) =
        TQT_DBusDataList.ofTQStringList ["a", "b"] ∧
    ((TQT_DBusDataList.ofTQStringList ["a", "b"]).append (TQT_DBusData.fromByte 7)).count = 2 :=
  have h := rejected_append_unchanged (TQT_DBusDataList.ofTQStringList ["a", "b"])
    (TQT_DBusData.fromByte 7) (by decide) (by decide) (Or.inl (by decide))
  ⟨h.1, h.2.1⟩

/-! ## Structs -/

/-- C7 (the code at the failing input). The result of `fromStruct` on the empty member list is
a valid object of type Struct with no members. -/
theorem fromStruct_empty_is_struct :
    TQT_DBusData.fromStruct [] = TQT_DBusData.struct [] ∧
    (TQT_DBusData.fromStruct []).type = .Struct ∧
    (TQT_DBusData.fromStruct []).isValid = true ∧
    (TQT_DBusData.fromStruct []).toStruct (some false) = ([], some true) :=
  ⟨rfl, rfl, rfl, rfl⟩

/-! ## Accessors -/

theorem any_invalid_eq_false (m : List TQT_DBusData) (hv : ∀ x ∈ m, x.isValid = true) :
    m.any (fun x => x.type == .Invalid) = false := by
  rw [List.any_eq_false]
  intro x hx
  have := hv x hx
  simpa [TQT_DBusData.isValid] using this

/-- C9. Constructor and accessor agree: for Bool, Byte, Int16, UInt16, Int32, UInt32, Int64,
UInt64 and String, `fromX(v)` has type X and `toX` on it returns `v` and sets the
flag to true; `toStruct` on `fromStruct(m)` returns `m` for a non-empty list of
valid members, and `toList` on `fromList(l)` returns `l` for a list of valid
type, both with the flag set to true. -/
theorem constructor_accessor_round_trip
    (m : List TQT_DBusData) (l : TQT_DBusDataList) (ok : Option Bool)
    (_hne : m ≠ []) (hv : ∀ x ∈ m, x.isValid = true) (hl : l.type ≠ .Invalid) :
    (∀ v, (TQT_DBusData.fromBool v).type = .Bool ∧
        (TQT_DBusData.fromBool v).toBool ok = (v, setOk ok true)) ∧
    (∀ v, (TQT_DBusData.fromByte v).type = .Byte ∧
        (TQT_DBusData.fromByte v).toByte ok = (v, setOk ok true)) ∧
    (∀ v, (TQT_DBusData.fromInt16 v).type = .Int16 ∧
        (TQT_DBusData.fromInt16 v).toInt16 ok = (v, setOk ok true)) ∧
    (∀ v, (TQT_DBusData.fromUInt16 v).type = .UInt16 ∧
        (TQT_DBusData.fromUInt16 v).toUInt16 ok = (v, setOk ok true)) ∧
    (∀ v, (TQT_DBusData.fromInt32 v).type = .Int32 ∧
        (TQT_DBusData.fromInt32 v).toInt32 ok = (v, setOk ok true)) ∧
    (∀ v, (TQT_DBusData.fromUInt32 v).type = .UInt32 ∧
        (TQT_DBusData.fromUInt32 v).toUInt32 ok = (v, setOk ok true)) ∧
    (∀ v, (TQT_DBusData.fromInt64 v).type = .Int64 ∧
        (TQT_DBusData.fromInt64 v).toInt64 ok = (v, setOk ok true)) ∧
    (∀ v, (TQT_DBusData.fromUInt64 v).type = .UInt64 ∧
        (TQT_DBusData.fromUInt64 v).toUInt64 ok = (v, setOk ok true)) ∧
    (∀ v, (TQT_DBusData.fromString v).type = .String ∧
        (TQT_DBusData.fromString v).toString ok = (v, setOk ok true)) ∧
    ((TQT_DBusData.fromStruct m).type = .Struct ∧
        (TQT_DBusData.fromStruct m).toStruct ok = (m, setOk ok true)) ∧
    ((TQT_DBusData.fromList l).type = .List ∧
        (TQT_DBusData.fromList l).toList ok = (l, setOk ok true)) ∧
    (∀ flag, setOk (some flag) true = some true) := by
  refine ⟨fun _ => ⟨rfl, rfl⟩, fun _ => ⟨rfl, rfl⟩, fun _ => ⟨rfl, rfl⟩, fun _ => ⟨rfl, rfl⟩,
    fun _ => ⟨rfl, rfl⟩, fun _ => ⟨rfl, rfl⟩, fun _ => ⟨rfl, rfl⟩, fun _ => ⟨rfl, rfl⟩,
    fun _ => ⟨rfl, rfl⟩, ?_, ?_, fun _ => rfl⟩
  · simp only [TQT_DBusData.fromStruct, any_invalid_eq_false m hv]
    exact ⟨rfl, rfl⟩
  · have : (l.type == TQT_DBusType.Invalid) = false := by simpa using hl
    simp only [TQT_DBusData.fromList, this]
    exact ⟨rfl, rfl⟩

/-- Witness of C9: the struct of the Int32 members 640 and 480 and a list of two strings. -/
theorem constructor_accessor_round_trip_witness :
    (TQT_DBusData.fromStruct [TQT_DBusData.fromInt32 640, TQT_DBusData.fromInt32 480]).toStruct
        (some false) =
      ([TQT_DBusData.fromInt32 640, TQT_DBusData.fromInt32 480], some true) ∧
    (TQT_DBusData.fromList (TQT_DBusDataList.ofTQStringList ["a", "b"])).toList (some false) =
      (TQT_DBusDataList.ofTQStringList ["a", "b"], some true) :=
  have h := constructor_accessor_round_trip
    [TQT_DBusData.fromInt32 640, TQT_DBusData.fromInt32 480]
    (TQT_DBusDataList.ofTQStringList ["a", "b"]) (some false)
    (by simp)
    (by simp [TQT_DBusData.isValid, TQT_DBusData.fromInt32, TQT_DBusData.type])
    (by decide)
  ⟨h.2.2.2.2.2.2.2.2.2.1.2, h.2.2.2.2.2.2.2.2.2.2.1.2⟩

/-- C10. An accessor called on an object of another type (Invalid included) sets the flag to
false when one is supplied and returns the default of its kind: false, 0, the
0.0 pattern, the empty string, the empty (invalid) path, the invalid handle, the
empty Invalid list, the empty member list, the empty variant.  The accessors
are functions of the object and return no changed object. -/
theorem mismatched_accessor_fails_safely (d : TQT_DBusData) (ok : Option Bool) :
    (d.type ≠ .Bool → d.toBool ok = (false, setOk ok false)) ∧
    (d.type ≠ .Byte → d.toByte ok = (0, setOk ok false)) ∧
    (d.type ≠ .Int16 → d.toInt16 ok = (0, setOk ok false)) ∧
    (d.type ≠ .UInt16 → d.toUInt16 ok = (0, setOk ok false)) ∧
    (d.type ≠ .Int32 → d.toInt32 ok = (0, setOk ok false)) ∧
    (d.type ≠ .UInt32 → d.toUInt32 ok = (0, setOk ok false)) ∧
    (d.type ≠ .Int64 → d.toInt64 ok = (0, setOk ok false)) ∧
    (d.type ≠ .UInt64 → d.toUInt64 ok = (0, setOk ok false)) ∧
    (d.type ≠ .Double → d.toDouble ok = (0, setOk ok false)) ∧
    (d.type ≠ .String → d.toString ok = ("", setOk ok false)) ∧
    (d.type ≠ .ObjectPath → d.toObjectPath ok = (⟨""⟩, setOk ok false) ∧
        (d.toObjectPath ok).1.isValid = false) ∧
    (d.type ≠ .UnixFd → ∀ address : Nat,
        d.toUnixFd ok address = (TQT_DBusUnixFd.null address, setOk ok false) ∧
        (d.toUnixFd ok address).1.isValid = false) ∧
    (d.type ≠ .List → d.toList ok = (TQT_DBusDataList.default, setOk ok false)) ∧
    (d.type ≠ .Struct → d.toStruct ok = ([], setOk ok false)) ∧
    (d.type ≠ .Variant → d.toVariant ok = (⟨"", TQT_DBusData.invalid⟩, setOk ok false)) ∧
    (∀ flag, setOk (some flag) false = some false) := by
  refine ⟨?_, ?_, ?_, ?_, ?_, ?_, ?_, ?_, ?_, ?_, ?_, ?_, ?_, ?_, ?_, fun _ => rfl⟩ <;>
    cases d <;> intro h <;>
    first
      | exact absurd rfl h
      | rfl
      | exact ⟨rfl, rfl⟩
      | exact fun _ => ⟨rfl, rfl⟩

/-- Witness of C10: every one of these accessors on a String-keyed map of Int32. -/
theorem mismatched_accessor_fails_safely_witness :
    (TQT_DBusData.fromKeyMap (TQT_DBusDataMap.ofType .String .Int32)).toInt32 (some true) =
      (0, some false) ∧
    (TQT_DBusData.fromKeyMap (TQT_DBusDataMap.ofType .String .Int32)).toList (some true) =
      (TQT_DBusDataList.default, some false) ∧
    (TQT_DBusData.fromString "x").toBool (some true) = (false, some false) :=
  have h := mismatched_accessor_fails_safely
    (TQT_DBusData.fromKeyMap (TQT_DBusDataMap.ofType .String .Int32)) (some true)
  have h2 := mismatched_accessor_fails_safely (TQT_DBusData.fromString "x") (some true)
  ⟨h.2.2.2.2.1 (by decide), h.2.2.2.2.2.2.2.2.2.2.2.2.1 (by decide), h2.1 (by decide)⟩

/-! ## Typed list constructors -/

/-- C4 (the code at the failing input). The list built by the constructor from a
`TQValueList<TQT_DBusObjectPath>` holding the valid path `/a` and the invalid path `b`
has type ObjectPath and two elements, the second of which is an Invalid object;
the constructor from a `TQValueList<TQT_DBusUnixFd>` does the same with an invalid
handle; `operator<<` with the same Invalid object leaves a list unchanged. -/
theorem typed_constructor_stores_invalid_element :
    (TQT_DBusDataList.ofObjectPathList [⟨"/a"⟩, ⟨"b"⟩]).type = .ObjectPath ∧
    (TQT_DBusDataList.ofObjectPathList [⟨"/a"⟩, ⟨"b"⟩]).toTQValueList =
      [TQT_DBusData.objectPath ⟨"/a"⟩, TQT_DBusData.invalid] ∧
    (TQT_DBusDataList.ofObjectPathList [⟨"/a"⟩, ⟨"b"⟩]).count = 2 ∧
    (∃ x ∈ (TQT_DBusDataList.ofObjectPathList [⟨"/a"⟩, ⟨"b"⟩]).toTQValueList,
      x.type ≠ (TQT_DBusDataList.ofObjectPathList [⟨"/a"⟩, ⟨"b"⟩]).type) ∧
    (TQT_DBusDataList.ofUnixFdList [TQT_DBusUnixFd.null 1]).type = .UnixFd ∧
    (TQT_DBusDataList.ofUnixFdList [TQT_DBusUnixFd.null 1]).toTQValueList =
      [TQT_DBusData.invalid] ∧
    ((TQT_DBusDataList.ofType .ObjectPath).append
        (TQT_DBusData.fromObjectPath ⟨"b"⟩)).count = 0 := by
  refine ⟨rfl, rfl, rfl, ⟨TQT_DBusData.invalid, ?_, ?_⟩, rfl, rfl, rfl⟩
  · exact List.mem_cons_of_mem _ (List.mem_singleton.2 rfl)
  · decide

/-! ## Equality -/

/-- C8 (the code at the failing input). The UInt32 case of `operator==` compares `uint32Value`
of this object with `uint64Value` of the other one.  With the four bytes of the
union that `fromUInt32` does not write holding 1, two UInt32 objects with
separately allocated contents never compare equal, also when both hold 7; with
these bytes holding 0 the two objects holding 7 are equal. -/
theorem uint32_equality_reads_unwritten_bytes :
    TQT_DBusData.operatorEq 1 (TQT_DBusData.fromUInt32 7) (TQT_DBusData.fromUInt32 7) = false ∧
    (∀ a b : Nat,
      TQT_DBusData.operatorEq 1 (TQT_DBusData.fromUInt32 a) (TQT_DBusData.fromUInt32 b) = false) ∧
    TQT_DBusData.operatorEq 0 (TQT_DBusData.fromUInt32 7) (TQT_DBusData.fromUInt32 7) = true ∧
    TQT_DBusData.operatorEq 1
      (TQT_DBusData.fromStruct [TQT_DBusData.fromUInt32 7])
      (TQT_DBusData.fromStruct [TQT_DBusData.fromUInt32 7]) = false := by
  refine ⟨by decide, ?_, by decide, by decide⟩
  intro a b
  show (a % 2 ^ 32 == b % 2 ^ 32 + 2 ^ 32 * (1 % 2 ^ 32)) = false
  rw [beq_eq_false_iff_ne]
  omega

/-! ## Signature parsing -/

/-- C2 (the code at the failing input). The struct of a list of lists of Int32 and a String has
the signature `(aais)`; `parseSignature` on it returns one prototype, a Struct with
the single member list-of-list-of-Int32 (signature `(aai)`): the String member
is lost.  On `d`, the signature of a Double, it returns one Invalid object, and
on `(id)` an Invalid object as well. -/
theorem parseSignature_loses_shape :
    (TQT_DBusData.fromStruct
        [TQT_DBusData.fromList (TQT_DBusDataList.ofContainerItemType
            (TQT_DBusData.fromList (TQT_DBusDataList.ofType .Int32))),
         TQT_DBusData.fromString ""]).buildDBusSignature = "(aais)".toList ∧
    parseSignature "(aais)".toList =
      .ok ([TQT_DBusData.fromStruct
              [TQT_DBusData.fromList (TQT_DBusDataList.ofContainerItemType
                (TQT_DBusData.fromList (TQT_DBusDataList.ofType .Int32)))]], []) ∧
    (TQT_DBusData.fromStruct
        [TQT_DBusData.fromList (TQT_DBusDataList.ofContainerItemType
            (TQT_DBusData.fromList (TQT_DBusDataList.ofType .Int32)))]).buildDBusSignature
      = "(aai)".toList ∧
    (TQT_DBusData.fromDouble 0).buildDBusSignature = "d".toList ∧
    parseSignature "d".toList = .ok ([TQT_DBusData.invalid], []) ∧
    (TQT_DBusData.fromStruct
        [TQT_DBusData.fromInt32 0, TQT_DBusData.fromDouble 0]).buildDBusSignature
      = "(id)".toList ∧
    parseSignature "(id)".toList = .ok ([TQT_DBusData.invalid], []) :=
  ⟨rfl, rfl, rfl, rfl, rfl, rfl, rfl⟩

/-! ## Signature parsing: budget and prototypes -/

theorem sigAt_ne_outOfFuel (signature : List Char) (index : Nat) :
    sigAt signature index ≠ .error .outOfFuel := by
  unfold sigAt
  split_ifs <;> simp

theorem firstOf_ne_outOfFuel (l : List TQT_DBusData) : firstOf l ≠ .error .outOfFuel := by
  cases l <;> simp [firstOf]

/-- A budget above the length of the signature is never used up, and the signature a call
leaves behind is not longer than the one it was given. -/
theorem parseSignatureLoop_budget :
    ∀ (fuel : Nat) (signature : List Char) (result : List TQT_DBusData),
      signature.length < fuel →
      parseSignatureLoop fuel signature result ≠ .error .outOfFuel ∧
      ∀ r s, parseSignatureLoop fuel signature result = .ok (r, s) →
        s.length ≤ signature.length := by
  intro fuel
  induction fuel with
  | zero => intro signature result h; omega
  | succ n ih =>
    intro signature result hlen
    cases signature with
    | nil => simp [parseSignatureLoop]
    | cons c rest =>
      have hrest : rest.length < n := by simpa using hlen
      -- a continuation of the loop on a signature no longer than `rest`
      have hcont : ∀ (s : List Char) (res : List TQT_DBusData), s.length ≤ rest.length →
          parseSignatureLoop n s res ≠ .error .outOfFuel ∧
          ∀ r s2, parseSignatureLoop n s res = .ok (r, s2) →
            s2.length ≤ (c :: rest).length := by
        intro s res hs
        have h := ih s res (by omega)
        exact ⟨h.1, fun r s2 h2 => by have := h.2 r s2 h2; simp; omega⟩
      rw [parseSignatureLoop]
      by_cases h1 : c = '('
      · simp only [h1, beq_self_eq_true, if_true, List.drop_succ_cons, List.drop_zero]
        have hA := ih rest [] hrest
        cases hrec : parseSignatureLoop n rest [] with
        | error e =>
            refine ⟨?_, by simp⟩
            intro h
            simp only [Except.error.injEq] at h
            exact hA.1 (h ▸ hrec)
        | ok p =>
            obtain ⟨ml, s⟩ := p
            have hs := hA.2 ml s hrec
            exact hcont (s.drop 1) _ (by simp; omega)
      · by_cases h2 : c = ')'
        · simp [h2]
        · by_cases h3 : c = '{'
          · simp only [h3, beq_iff_eq, Char.reduceEq, if_false, if_true]
            cases hc1 : sigAt ('{' :: rest) 1 with
            | error e =>
                refine ⟨?_, by simp⟩
                intro h
                simp only [Except.error.injEq] at h
                exact sigAt_ne_outOfFuel _ _ (h ▸ hc1)
            | ok c1 =>
              cases hc2 : sigAt ('{' :: rest) 2 with
              | error e =>
                  refine ⟨?_, by simp⟩
                  intro h
                  simp only [Except.error.injEq] at h
                  exact sigAt_ne_outOfFuel _ _ (h ▸ hc2)
              | ok c2 =>
                simp only
                split_ifs with hv
                · have := hcont ((List.drop 3 ('{' :: rest)).drop 1) (match mapKeyTypeOf (qSingleTypeForDBusSignature c1) with
                    | some K => result ++ [TQT_DBusData.fromKeyMap (TQT_DBusDataMap.ofType K (qSingleTypeForDBusSignature c2))]
                    | none => result) (by simp)
                  simpa [h3] using this
                · have hA := ih (List.drop 2 ('{' :: rest)) [] (by simp; omega)
                  cases hrec : parseSignatureLoop n (List.drop 2 ('{' :: rest)) [] with
                  | error e =>
                      refine ⟨?_, by simp⟩
                      intro h
                      simp only [Except.error.injEq] at h
                      exact hA.1 (h ▸ hrec)
                  | ok p =>
                      obtain ⟨vc, s⟩ := p
                      have hs := hA.2 vc s hrec
                      have hs2 : (s.drop 1).length ≤ rest.length := by
                        simp at hs ⊢; omega
                      simp only
                      cases hk : mapKeyTypeOf (qSingleTypeForDBusSignature c1) with
                      | none => simpa [h3] using hcont (s.drop 1) result hs2
                      | some K =>
                          simp only
                          cases hf : firstOf vc with
                          | error e =>
                              refine ⟨?_, by simp⟩
                              intro h
                              simp only [Except.error.injEq] at h
                              exact firstOf_ne_outOfFuel _ (h ▸ hf)
                          | ok v0 => simpa [h3] using hcont (s.drop 1) _ hs2
          · by_cases h4 : c = '}'
            · simp [h4]
            · by_cases h5 : c = 'a'
              · simp only [h5, beq_iff_eq, Char.reduceEq, if_false, if_true]
                cases hc1 : sigAt ('a' :: rest) 1 with
                | error e =>
                    refine ⟨?_, by simp⟩
                    intro h
                    simp only [Except.error.injEq] at h
                    exact sigAt_ne_outOfFuel _ _ (h ▸ hc1)
                | ok c1 =>
                  simp only
                  split_ifs with hv
                  · simpa [h5] using hcont (List.drop 2 ('a' :: rest)) _ (by simp)
                  · cases hc0 : sigAt (List.drop 1 ('a' :: rest)) 0 with
                    | error e =>
                        refine ⟨?_, by simp⟩
                        intro h
                        simp only [Except.error.injEq] at h
                        exact sigAt_ne_outOfFuel _ _ (h ▸ hc0)
                    | ok c0 =>
                      simp only [List.drop_succ_cons, List.drop_zero]
                      have hA := ih rest [] hrest
                      cases hrec : parseSignatureLoop n rest [] with
                      | error e =>
                          refine ⟨?_, by simp⟩
                          intro h
                          simp only [Except.error.injEq] at h
                          exact hA.1 (h ▸ hrec)
                      | ok p =>
                          obtain ⟨ec, s⟩ := p
                          have hs := hA.2 ec s hrec
                          simp only
                          cases hf : firstOf ec with
                          | error e =>
                              refine ⟨?_, by simp⟩
                              intro h
                              simp only [Except.error.injEq] at h
                              exact firstOf_ne_outOfFuel _ (h ▸ hf)
                          | ok e0 =>
                              simp only
                              split_ifs
                              · simpa [h5] using hcont s _ hs
                              · simpa [h5] using hcont s _ hs
              · simp only [beq_iff_eq, h1, h2, h3, h4, h5, if_false, List.drop_succ_cons,
                  List.drop_zero]
                split_ifs
                · exact hcont rest _ (le_refl _)
                · exact hcont rest _ (le_refl _)

theorem parseSignatureLoop_nil (fuel : Nat) (result : List TQT_DBusData) (h : 0 < fuel) :
    parseSignatureLoop fuel [] result = .ok (result, []) := by
  cases fuel with
  | zero => omega
  | succ n => simp [parseSignatureLoop]

theorem parseSignatureLoop_single_codes (tail : List Char) :
    ∀ (sig : List Char) (fuel : Nat) (result : List TQT_DBusData),
      (∀ c ∈ sig, c ≠ '(' ∧ c ≠ ')' ∧ c ≠ '{' ∧ c ≠ '}' ∧ c ≠ 'a') →
      parseSignatureLoop (fuel + sig.length) (sig ++ tail) result =
        parseSignatureLoop fuel tail
          (result ++ sig.map (fun c => singleTypePrototype (qSingleTypeForDBusSignature c))) := by
  intro sig
  induction sig with
  | nil => intro fuel result _; simp
  | cons c s ih =>
      intro fuel result h
      obtain ⟨h1, h2, h3, h4, h5⟩ := h c (List.mem_cons_self _ _)
      have hstep : fuel + (c :: s).length = (fuel + s.length) + 1 := by simp; omega
      rw [hstep, List.cons_append, parseSignatureLoop]
      simp only [beq_iff_eq, h1, h2, h3, h4, h5, if_false, List.drop_succ_cons, List.drop_zero]
      have hrest := ih fuel (result ++ [singleTypePrototype (qSingleTypeForDBusSignature c)])
        (fun x hx => h x (List.mem_cons_of_mem _ hx))
      by_cases ht : qSingleTypeForDBusSignature c = .Invalid
      · have hp : singleTypePrototype (qSingleTypeForDBusSignature c) = TQT_DBusData.invalid := by
          rw [ht]; rfl
        have hp2 : singleTypePrototype TQT_DBusType.Invalid = TQT_DBusData.invalid := rfl
        rw [hp] at hrest
        simp only [ht, bne_self_eq_false, Bool.false_eq_true, if_false, hrest, List.map_cons, hp2,
          List.append_assoc, List.singleton_append]
      · have hne : (qSingleTypeForDBusSignature c != TQT_DBusType.Invalid) = true := by
          simpa using ht
        simp only [hne, if_true, hrest, List.map_cons, List.append_assoc, List.singleton_append]

theorem arrayPrototype_list_simple (t : TQT_DBusType)
    (ht : t ≠ .Invalid) (hc : isContainerType t = false) :
    arrayPrototype (Marshall.qDBusTypeForTQT_DBusType t) = .ok (.list t .invalid []) := by
  cases t <;>
    first
      | exact absurd rfl ht
      | exact absurd hc (by decide)
      | rfl

theorem arrayPrototype_keyMap_simple (k : MapKeyType) (vt : TQT_DBusType)
    (hvt : vt ≠ .Invalid) (hc : isContainerType vt = false) :
    arrayPrototype ('{' :: (Marshall.qDBusTypeForTQT_DBusType k.toType ++
      (Marshall.qDBusTypeForTQT_DBusType vt ++ ['}']))) = .ok (.map k vt .invalid []) := by
  cases vt <;>
    first
      | exact absurd rfl hvt
      | exact absurd hc (by decide)
      | (cases k <;> rfl)

theorem listPrototypeFits_simple (t : TQT_DBusType) (c : TQT_DBusData) (hasItems : Bool)
    (ht : t ≠ .Invalid) (hc : isContainerType t = false) :
    listPrototypeFits t c hasItems = true := by
  unfold listPrototypeFits listArraySignature
  simp only [hc, Bool.false_eq_true, if_false]
  rw [arrayPrototype_list_simple t ht hc]
  simp [TQT_DBusData.toList, hc]

theorem mapPrototypeFits_simple (k : MapKeyType) (vt : TQT_DBusType) (c : TQT_DBusData)
    (hasEntries : Bool) (hvt : vt ≠ .Invalid) (hc : isContainerType vt = false) :
    mapPrototypeFits k vt c hasEntries = true := by
  unfold mapPrototypeFits keyMapArraySignature TQT_DBusDataMap.hasContainerValueType
  simp only [hc, Bool.false_eq_true, if_false]
  rw [arrayPrototype_keyMap_simple k vt hvt hc]
  simp [hc]

/-- With a budget above the length of the signature the result does not depend on the
budget. -/
theorem parseSignatureLoop_budget_irrelevant :
    ∀ (fuel1 fuel2 : Nat) (signature : List Char) (result : List TQT_DBusData),
      signature.length < fuel1 → signature.length < fuel2 →
      parseSignatureLoop fuel1 signature result = parseSignatureLoop fuel2 signature result := by
  intro fuel1
  induction fuel1 with
  | zero => intro fuel2 signature result h; omega
  | succ n1 ih =>
    intro fuel2 signature result hlen1 hlen2
    cases fuel2 with
    | zero => omega
    | succ n2 =>
    cases signature with
    | nil => simp [parseSignatureLoop]
    | cons c rest =>
      have hr1 : rest.length < n1 := by simpa using hlen1
      have hr2 : rest.length < n2 := by simpa using hlen2
      have hcont : ∀ (s : List Char) (res : List TQT_DBusData), s.length ≤ rest.length →
          parseSignatureLoop n1 s res = parseSignatureLoop n2 s res :=
        fun s res hs => ih n2 s res (by omega) (by omega)
      have hleft : ∀ (s : List Char) (res x : List TQT_DBusData) (s2 : List Char),
          s.length ≤ rest.length → parseSignatureLoop n2 s res = .ok (x, s2) →
          s2.length ≤ rest.length :=
        fun s res x s2 hs h =>
          le_trans ((parseSignatureLoop_budget n2 s res (by omega)).2 x s2 h) hs
      rw [parseSignatureLoop, parseSignatureLoop]
      by_cases h1 : c = '('
      · simp only [h1, beq_self_eq_true, if_true, List.drop_succ_cons, List.drop_zero]
        rw [hcont rest [] (le_refl _)]
        cases hrec : parseSignatureLoop n2 rest [] with
        | error e => rfl
        | ok p =>
            obtain ⟨ml, s⟩ := p
            have hs := hleft rest [] ml s (le_refl _) hrec
            exact hcont (s.drop 1) _ (by simp; omega)
      · by_cases h2 : c = ')'
        · simp [h2]
        · by_cases h3 : c = '{'
          · simp only [h3, beq_iff_eq, Char.reduceEq, if_false, if_true]
            cases hc1 : sigAt ('{' :: rest) 1 with
            | error e => cases hc2 : sigAt ('{' :: rest) 2 <;> rfl
            | ok c1 =>
              cases hc2 : sigAt ('{' :: rest) 2 with
              | error e => rfl
              | ok c2 =>
                simp only
                split_ifs with hv
                · exact hcont _ _ (by simp)
                · rw [hcont (List.drop 2 ('{' :: rest)) [] (by simp)]
                  cases hrec : parseSignatureLoop n2 (List.drop 2 ('{' :: rest)) [] with
                  | error e => rfl
                  | ok p =>
                      obtain ⟨vc, s⟩ := p
                      have hs := hleft (List.drop 2 ('{' :: rest)) [] vc s (by simp) hrec
                      simp only
                      cases hk : mapKeyTypeOf (qSingleTypeForDBusSignature c1) with
                      | none => exact hcont (s.drop 1) _ (by simp; omega)
                      | some K =>
                          simp only
                          cases hf : firstOf vc with
                          | error e => rfl
                          | ok v0 => exact hcont (s.drop 1) _ (by simp; omega)
          · by_cases h4 : c = '}'
            · simp [h4]
            · by_cases h5 : c = 'a'
              · simp only [h5, beq_iff_eq, Char.reduceEq, if_false, if_true]
                cases hc1 : sigAt ('a' :: rest) 1 with
                | error e => rfl
                | ok c1 =>
                  simp only
                  split_ifs with hv
                  · exact hcont _ _ (by simp)
                  · cases hc0 : sigAt (List.drop 1 ('a' :: rest)) 0 with
                    | error e => rfl
                    | ok c0 =>
                      simp only [List.drop_succ_cons, List.drop_zero]
                      rw [hcont rest [] (le_refl _)]
                      cases hrec : parseSignatureLoop n2 rest [] with
                      | error e => rfl
                      | ok p =>
                          obtain ⟨ec, s⟩ := p
                          have hs := hleft rest [] ec s (le_refl _) hrec
                          simp only
                          cases hf : firstOf ec with
                          | error e => rfl
                          | ok e0 =>
                              simp only
                              split_ifs
                              · exact hcont s _ hs
                              · exact hcont s _ hs
              · simp only [beq_iff_eq, h1, h2, h3, h4, h5, if_false, List.drop_succ_cons,
                  List.drop_zero]
                split_ifs
                · exact hcont rest _ (le_refl _)
                · exact hcont rest _ (le_refl _)

theorem parseSignatureLoop_closedTail (fuel : Nat) (rest : List Char)
    (result : List TQT_DBusData) (hf : 0 < fuel) (hc : closedTail rest = true) :
    parseSignatureLoop fuel rest result = .ok (result, rest) := by
  cases fuel with
  | zero => omega
  | succ n =>
    cases rest with
    | nil => simp [parseSignatureLoop]
    | cons c tl =>
        simp only [closedTail, List.isEmpty_cons, List.head?_cons, Bool.false_or,
          Bool.or_eq_true, beq_iff_eq, Option.some.injEq] at hc
        rcases hc with hc | hc <;> subst hc <;> simp [parseSignatureLoop]

theorem simple_type_code (t : TQT_DBusType) (ht : t ≠ .Invalid)
    (hc : isContainerType t = false) :
    ∃ ch, qDBusTypeForTQT_DBusType t = [ch] ∧ Marshall.qDBusTypeForTQT_DBusType t = [ch] ∧
      qSingleTypeForDBusSignature ch = t := by
  cases t <;>
    first
      | exact absurd rfl ht
      | exact absurd hc (by decide)
      | exact ⟨_, rfl, rfl, rfl⟩

theorem key_type_code (k : MapKeyType) :
    ∃ ch, qDBusTypeForTQT_DBusType k.toType = [ch] ∧
      Marshall.qDBusTypeForTQT_DBusType k.toType = [ch] ∧
      mapKeyTypeOf (qSingleTypeForDBusSignature ch) = some k := by
  cases k <;> exact ⟨_, rfl, rfl, rfl⟩

theorem container_signature_head (c : TQT_DBusData) (hc : isContainerType c.type = true) :
    ∃ h tl, c.buildDBusSignature = h :: tl ∧ (h = 'a' ∨ h = '(') := by
  cases c <;> simp [TQT_DBusData.type, isContainerType] at hc
  · exact ⟨'a', _, by rw [TQT_DBusData.buildDBusSignature], Or.inl rfl⟩
  · exact ⟨'(', _, by rw [TQT_DBusData.buildDBusSignature], Or.inr rfl⟩
  · exact ⟨'a', _, by rw [TQT_DBusData.buildDBusSignature], Or.inl rfl⟩

theorem step_struct (n : Nat) (s : List Char) (r : List TQT_DBusData) :
    parseSignatureLoop (n + 1) ('(' :: s) r =
      match parseSignatureLoop n s [] with
      | .error e => .error e
      | .ok (memberList, signature) =>
          parseSignatureLoop n (signature.drop 1) (r ++ [TQT_DBusData.fromStruct memberList]) := by
  rw [parseSignatureLoop]
  simp

theorem step_array_simple (n : Nat) (c1 : Char) (s : List Char) (r : List TQT_DBusData)
    (h : qSingleTypeForDBusSignature c1 ≠ .Invalid) :
    parseSignatureLoop (n + 1) ('a' :: c1 :: s) r =
      parseSignatureLoop n s
        (r ++ [TQT_DBusData.fromList (TQT_DBusDataList.ofType (qSingleTypeForDBusSignature c1))]) := by
  rw [parseSignatureLoop]
  simp [sigAt, h]

theorem step_array_container (n : Nat) (c1 : Char) (s : List Char) (r : List TQT_DBusData)
    (h : c1 = 'a' ∨ c1 = '(') :
    parseSignatureLoop (n + 1) ('a' :: c1 :: s) r =
      match parseSignatureLoop n (c1 :: s) [] with
      | .error e => .error e
      | .ok (elementContainer, signature) =>
          match firstOf elementContainer with
          | .error e => .error e
          | .ok e0 =>
              parseSignatureLoop n signature
                (r ++ [TQT_DBusData.fromList (TQT_DBusDataList.ofContainerItemType e0)]) := by
  rw [parseSignatureLoop]
  rcases h with h | h <;> subst h <;> simp [sigAt, qSingleTypeForDBusSignature]

theorem step_array_dict (n : Nat) (s : List Char) (r : List TQT_DBusData) :
    parseSignatureLoop (n + 1) ('a' :: '{' :: s) r =
      match parseSignatureLoop n ('{' :: s) [] with
      | .error e => .error e
      | .ok (elementContainer, signature) =>
          match firstOf elementContainer with
          | .error e => .error e
          | .ok e0 => parseSignatureLoop n signature (r ++ [e0]) := by
  rw [parseSignatureLoop]
  simp [sigAt, qSingleTypeForDBusSignature]

theorem step_dict_simple (n : Nat) (c1 c2 : Char) (s : List Char) (r : List TQT_DBusData)
    (K : MapKeyType) (hk : mapKeyTypeOf (qSingleTypeForDBusSignature c1) = some K)
    (h : qSingleTypeForDBusSignature c2 ≠ .Invalid) :
    parseSignatureLoop (n + 1) ('{' :: c1 :: c2 :: s) r =
      parseSignatureLoop n (s.drop 1)
        (r ++ [TQT_DBusData.fromKeyMap
          (TQT_DBusDataMap.ofType K (qSingleTypeForDBusSignature c2))]) := by
  rw [parseSignatureLoop]
  simp [sigAt, h, hk]

theorem step_dict_container (n : Nat) (c1 c2 : Char) (s : List Char) (r : List TQT_DBusData)
    (K : MapKeyType) (hk : mapKeyTypeOf (qSingleTypeForDBusSignature c1) = some K)
    (h : c2 = 'a' ∨ c2 = '(') :
    parseSignatureLoop (n + 1) ('{' :: c1 :: c2 :: s) r =
      match parseSignatureLoop n (c2 :: s) [] with
      | .error e => .error e
      | .ok (valueContainer, signature) =>
          match firstOf valueContainer with
          | .error e => .error e
          | .ok v0 =>
              parseSignatureLoop n (signature.drop 1)
                (r ++ [TQT_DBusData.fromKeyMap (TQT_DBusDataMap.ofContainerValueType K v0)]) := by
  have ha : qSingleTypeForDBusSignature 'a' = .Invalid := rfl
  have hp : qSingleTypeForDBusSignature '(' = .Invalid := rfl
  rw [parseSignatureLoop]
  rcases h with h | h <;> subst h <;> simp [sigAt, ha, hp, hk]

theorem step_single (n : Nat) (c : Char) (s : List Char) (r : List TQT_DBusData)
    (h : c ≠ '(' ∧ c ≠ ')' ∧ c ≠ '{' ∧ c ≠ '}' ∧ c ≠ 'a') :
    parseSignatureLoop (n + 1) (c :: s) r =
      parseSignatureLoop n s (r ++ [singleTypePrototype (qSingleTypeForDBusSignature c)]) := by
  have h0 := parseSignatureLoop_single_codes s [c] n r (by simpa using h)
  simpa using h0

theorem single_code_value (v : TQT_DBusData) (ch : Char)
    (hsig : v.buildDBusSignature = [ch])
    (hch : ch ≠ '(' ∧ ch ≠ ')' ∧ ch ≠ '{' ∧ ch ≠ '}' ∧ ch ≠ 'a')
    (hproto : singleTypePrototype (qSingleTypeForDBusSignature ch) = prototypeOf v) :
    (∀ (rest : List Char) (r : List TQT_DBusData) (fuel : Nat),
      closedTail rest = true → (v.buildDBusSignature ++ rest).length < fuel →
      parseSignatureLoop fuel (v.buildDBusSignature ++ rest) r =
        .ok (r ++ [prototypeOf v], rest)) ∧
    (leavesRest v = true →
      ∀ (rest : List Char) (r : List TQT_DBusData) (fuel : Nat),
        (v.buildDBusSignature ++ rest).length < fuel →
        parseSignatureLoop fuel (v.buildDBusSignature ++ rest) r =
          parseSignatureLoop fuel rest (r ++ [prototypeOf v])) := by
  have hA : ∀ (rest : List Char) (r : List TQT_DBusData) (fuel : Nat),
      (v.buildDBusSignature ++ rest).length < fuel →
      parseSignatureLoop fuel (v.buildDBusSignature ++ rest) r =
        parseSignatureLoop fuel rest (r ++ [prototypeOf v]) := by
    intro rest r fuel hf
    rw [hsig] at hf ⊢
    cases fuel with
    | zero => omega
    | succ n =>
      have hlen : rest.length < n := by simpa using hf
      rw [List.singleton_append, step_single n ch rest r hch, hproto]
      exact parseSignatureLoop_budget_irrelevant n (n + 1) rest _ hlen (by omega)
  refine ⟨?_, fun _ => hA⟩
  intro rest r fuel hc hf
  rw [hA rest r fuel hf]
  exact parseSignatureLoop_closedTail fuel rest _ (by omega) hc

mutual
theorem prototypeOf_type_signature :
    ∀ v : TQT_DBusData, readsBack v = true →
      (prototypeOf v).type = v.type ∧ v.type ≠ .Invalid ∧
      (prototypeOf v).buildDBusSignature = v.buildDBusSignature
  | .bool _, _ => ⟨rfl, by simp [TQT_DBusData.type], rfl⟩
  | .byte _, _ => ⟨rfl, by simp [TQT_DBusData.type], rfl⟩
  | .int16 _, _ => ⟨rfl, by simp [TQT_DBusData.type], rfl⟩
  | .uint16 _, _ => ⟨rfl, by simp [TQT_DBusData.type], rfl⟩
  | .int32 _, _ => ⟨rfl, by simp [TQT_DBusData.type], rfl⟩
  | .uint32 _, _ => ⟨rfl, by simp [TQT_DBusData.type], rfl⟩
  | .int64 _, _ => ⟨rfl, by simp [TQT_DBusData.type], rfl⟩
  | .uint64 _, _ => ⟨rfl, by simp [TQT_DBusData.type], rfl⟩
  | .string _, _ => ⟨rfl, by simp [TQT_DBusData.type], rfl⟩
  | .invalid, h => by simp [readsBack] at h
  | .double _, h => by simp [readsBack] at h
  | .objectPath _, h => by simp [readsBack] at h
  | .unixFd _, h => by simp [readsBack] at h
  | .variant _ _, h => by simp [readsBack] at h
  | .list t c items, h => by
      refine ⟨rfl, by simp [TQT_DBusData.type], ?_⟩
      by_cases hc : isContainerType t = true
      · simp only [readsBack, hc, if_true, Bool.and_eq_true] at h
        have := (prototypeOf_type_signature c h.2).2.2
        simp [prototypeOf, TQT_DBusData.buildDBusSignature, hc, this]
      · simp [prototypeOf, TQT_DBusData.buildDBusSignature, hc]
  | .map k vt c es, h => by
      refine ⟨rfl, by simp [TQT_DBusData.type], ?_⟩
      by_cases hc : isContainerType vt = true
      · simp only [readsBack, hc, if_true, Bool.and_eq_true] at h
        have := (prototypeOf_type_signature c h.2).2.2
        simp [prototypeOf, TQT_DBusData.buildDBusSignature, hc, this]
      · simp [prototypeOf, TQT_DBusData.buildDBusSignature, hc]
  | .struct ms, h => by
      simp only [readsBack, Bool.and_eq_true] at h
      have := (prototypesOf_signatures ms h.2).1
      refine ⟨rfl, by simp [TQT_DBusData.type], ?_⟩
      simp [prototypeOf, TQT_DBusData.buildDBusSignature, this]
theorem prototypesOf_signatures :
    ∀ ms : List TQT_DBusData, readsBackMembers ms = true →
      buildMemberSignatures (prototypesOf ms) = buildMemberSignatures ms ∧
      (prototypesOf ms).any (fun m => m.type == .Invalid) = false
  | [], _ => ⟨rfl, rfl⟩
  | m :: rest, h => by
      simp only [readsBackMembers, Bool.and_eq_true] at h
      obtain ⟨ht, hne, hs⟩ := prototypeOf_type_signature m h.1.1
      obtain ⟨hrs, hra⟩ := prototypesOf_signatures rest h.2
      refine ⟨by simp [prototypesOf, buildMemberSignatures, hs, hrs], ?_⟩
      simp only [prototypesOf, List.any_cons, hra, Bool.or_false, ht]
      simpa using hne
end

theorem fromStruct_prototypesOf (ms : List TQT_DBusData) (h : readsBackMembers ms = true) :
    TQT_DBusData.fromStruct (prototypesOf ms) = prototypeOf (.struct ms) := by
  simp [TQT_DBusData.fromStruct, (prototypesOf_signatures ms h).2, prototypeOf]

mutual
theorem parseSignatureLoop_value :
    ∀ v : TQT_DBusData, readsBack v = true →
      (∀ (rest : List Char) (r : List TQT_DBusData) (fuel : Nat),
        closedTail rest = true → (v.buildDBusSignature ++ rest).length < fuel →
        parseSignatureLoop fuel (v.buildDBusSignature ++ rest) r =
          .ok (r ++ [prototypeOf v], rest)) ∧
      (leavesRest v = true →
        ∀ (rest : List Char) (r : List TQT_DBusData) (fuel : Nat),
          (v.buildDBusSignature ++ rest).length < fuel →
          parseSignatureLoop fuel (v.buildDBusSignature ++ rest) r =
            parseSignatureLoop fuel rest (r ++ [prototypeOf v]))
  | .invalid, h => by simp [readsBack] at h
  | .double _, h => by simp [readsBack] at h
  | .objectPath _, h => by simp [readsBack] at h
  | .unixFd _, h => by simp [readsBack] at h
  | .variant _ _, h => by simp [readsBack] at h
  | .bool _, _ => single_code_value _ 'b' rfl (by decide) rfl
  | .byte _, _ => single_code_value _ 'y' rfl (by decide) rfl
  | .int16 _, _ => single_code_value _ 'n' rfl (by decide) rfl
  | .uint16 _, _ => single_code_value _ 'q' rfl (by decide) rfl
  | .int32 _, _ => single_code_value _ 'i' rfl (by decide) rfl
  | .uint32 _, _ => single_code_value _ 'u' rfl (by decide) rfl
  | .int64 _, _ => single_code_value _ 'x' rfl (by decide) rfl
  | .uint64 _, _ => single_code_value _ 't' rfl (by decide) rfl
  | .string _, _ => single_code_value _ 's' rfl (by decide) rfl
  | .struct ms, h => by
      simp only [readsBack, Bool.and_eq_true] at h
      have hA : ∀ (rest : List Char) (r : List TQT_DBusData) (fuel : Nat),
          ((TQT_DBusData.struct ms).buildDBusSignature ++ rest).length < fuel →
          parseSignatureLoop fuel ((TQT_DBusData.struct ms).buildDBusSignature ++ rest) r =
            parseSignatureLoop fuel rest (r ++ [prototypeOf (.struct ms)]) := by
        intro rest r fuel hf
        have hsig : (TQT_DBusData.struct ms).buildDBusSignature ++ rest =
            '(' :: (buildMemberSignatures ms ++ ')' :: rest) := by
          simp [TQT_DBusData.buildDBusSignature]
        rw [hsig] at hf ⊢
        cases fuel with
        | zero => omega
        | succ n =>
          have hlen : (buildMemberSignatures ms ++ ')' :: rest).length < n := by
            simpa using hf
          rw [step_struct, parseSignatureLoop_members ms h.2 (')' :: rest) [] n rfl hlen]
          simp only [List.nil_append, List.drop_succ_cons, List.drop_zero,
            fromStruct_prototypesOf ms h.2]
          exact parseSignatureLoop_budget_irrelevant n (n + 1) rest _
            (by simp at hlen; omega) (by simp at hlen; omega)
      refine ⟨?_, fun _ => hA⟩
      intro rest r fuel hc hf
      rw [hA rest r fuel hf]
      exact parseSignatureLoop_closedTail fuel rest _ (by omega) hc
  | .list t c items, h => by
      by_cases hct : isContainerType t = true
      · simp only [readsBack, hct, if_true, Bool.and_eq_true, beq_iff_eq] at h
        obtain ⟨htype, hc⟩ := h
        have hctype : isContainerType c.type = true := by rw [htype]; exact hct
        obtain ⟨hd, tl, hsigc, hhd⟩ := container_signature_head c hctype
        obtain ⟨hpt, _, _⟩ := prototypeOf_type_signature c hc
        refine ⟨?_, fun hl => ?_⟩
        · intro rest r fuel hclosed hf
          have hsig : (TQT_DBusData.list t c items).buildDBusSignature ++ rest =
              'a' :: (c.buildDBusSignature ++ rest) := by
            simp [TQT_DBusData.buildDBusSignature, hct]
          rw [hsig] at hf ⊢
          cases fuel with
          | zero => omega
          | succ n =>
            have hlen : (c.buildDBusSignature ++ rest).length < n := by simpa using hf
            have hrec := (parseSignatureLoop_value c hc).1 rest [] n hclosed hlen
            have hproto : TQT_DBusData.fromList
                (TQT_DBusDataList.ofContainerItemType (prototypeOf c)) =
                prototypeOf (.list t c items) := by
              simp [TQT_DBusData.fromList, TQT_DBusDataList.ofContainerItemType, hpt, htype, hct,
                prototypeOf]
              intro h0
              rw [h0] at hct
              exact absurd hct (by decide)
            rw [hsigc] at hrec hlen ⊢
            rw [List.cons_append, step_array_container n hd _ r hhd]
            rw [List.cons_append] at hrec
            rw [hrec]
            simp only [List.nil_append, firstOf, hproto]
            exact parseSignatureLoop_closedTail n rest _ (by omega) hclosed
        · simp [leavesRest, hct] at hl
      · have hcf : isContainerType t = false := by simpa using hct
        simp only [readsBack, hcf, Bool.false_eq_true, if_false, bne_iff_ne, ne_eq] at h
        obtain ⟨ch, hcode, _, hq⟩ := simple_type_code t h hcf
        have hA : ∀ (rest : List Char) (r : List TQT_DBusData) (fuel : Nat),
            ((TQT_DBusData.list t c items).buildDBusSignature ++ rest).length < fuel →
            parseSignatureLoop fuel ((TQT_DBusData.list t c items).buildDBusSignature ++ rest) r =
              parseSignatureLoop fuel rest (r ++ [prototypeOf (.list t c items)]) := by
          intro rest r fuel hf
          have hsig : (TQT_DBusData.list t c items).buildDBusSignature ++ rest =
              'a' :: ch :: rest := by
            simp [TQT_DBusData.buildDBusSignature, hcf, hcode]
          rw [hsig] at hf ⊢
          cases fuel with
          | zero => omega
          | succ n =>
            have hlen : rest.length + 1 < n := by simpa using hf
            have hproto : TQT_DBusData.fromList (TQT_DBusDataList.ofType t) =
                prototypeOf (.list t c items) := by
              simp [TQT_DBusData.fromList, TQT_DBusDataList.ofType, prototypeOf, hcf, h]
            rw [step_array_simple n ch rest r (by rw [hq]; exact h), hq, hproto]
            exact parseSignatureLoop_budget_irrelevant n (n + 1) rest _ (by omega) (by omega)
        refine ⟨?_, fun _ => hA⟩
        intro rest r fuel hc2 hf
        rw [hA rest r fuel hf]
        exact parseSignatureLoop_closedTail fuel rest _ (by omega) hc2
  | .map k vt c es, h => by
      refine ⟨?_, fun hl => by simp [leavesRest] at hl⟩
      intro rest r fuel hclosed hf
      obtain ⟨kc, hkcode, _, hkq⟩ := key_type_code k
      by_cases hct : isContainerType vt = true
      · simp only [readsBack, hct, if_true, Bool.and_eq_true, beq_iff_eq] at h
        obtain ⟨htype, hc⟩ := h
        have hctype : isContainerType c.type = true := by rw [htype]; exact hct
        obtain ⟨hd, tl, hsigc, hhd⟩ := container_signature_head c hctype
        obtain ⟨hpt, _, _⟩ := prototypeOf_type_signature c hc
        have hsig : (TQT_DBusData.map k vt c es).buildDBusSignature ++ rest =
            'a' :: '{' :: kc :: (c.buildDBusSignature ++ '}' :: rest) := by
          simp [TQT_DBusData.buildDBusSignature, hct, hkcode]
        rw [hsig] at hf ⊢
        cases fuel with
        | zero => omega
        | succ n =>
          cases n with
          | zero => simp at hf
          | succ m =>
            have hlen : (c.buildDBusSignature ++ '}' :: rest).length < m := by
              simp at hf ⊢; omega
            have hrec := (parseSignatureLoop_value c hc).1 ('}' :: rest) [] m rfl hlen
            have hproto : TQT_DBusData.fromKeyMap
                (TQT_DBusDataMap.ofContainerValueType k (prototypeOf c)) =
                prototypeOf (.map k vt c es) := by
              simp [TQT_DBusData.fromKeyMap, TQT_DBusDataMap.ofContainerValueType, hpt, htype,
                hct, prototypeOf]
            have hm0 : 0 < m := by omega
            rw [hsigc] at hrec ⊢
            rw [List.cons_append] at hrec ⊢
            rw [step_array_dict, step_dict_container m kc hd _ [] k hkq hhd, hrec]
            simp only [List.nil_append, firstOf, hproto, List.drop_succ_cons, List.drop_zero]
            rw [parseSignatureLoop_closedTail m rest _ hm0 hclosed]
            simp only [firstOf]
            exact parseSignatureLoop_closedTail (m + 1) rest _ (by omega) hclosed
      · have hcf : isContainerType vt = false := by simpa using hct
        simp only [readsBack, hcf, Bool.false_eq_true, if_false, bne_iff_ne, ne_eq] at h
        obtain ⟨vc, hvcode, _, hvq⟩ := simple_type_code vt h hcf
        have hsig : (TQT_DBusData.map k vt c es).buildDBusSignature ++ rest =
            'a' :: '{' :: kc :: vc :: '}' :: rest := by
          simp [TQT_DBusData.buildDBusSignature, hcf, hkcode, hvcode]
        rw [hsig] at hf ⊢
        cases fuel with
        | zero => omega
        | succ n =>
          cases n with
          | zero => simp at hf
          | succ m =>
            have hm0 : 0 < m := by simp at hf; omega
            have hproto : TQT_DBusData.fromKeyMap (TQT_DBusDataMap.ofType k vt) =
                prototypeOf (.map k vt c es) := by
              simp [TQT_DBusData.fromKeyMap, TQT_DBusDataMap.ofType, prototypeOf, hcf]
            rw [step_array_dict,
              step_dict_simple m kc vc _ [] k hkq (by rw [hvq]; exact h), hvq, hproto]
            simp only [List.nil_append, List.drop_succ_cons, List.drop_zero]
            rw [parseSignatureLoop_closedTail m rest _ hm0 hclosed]
            simp only [firstOf]
            exact parseSignatureLoop_closedTail (m + 1) rest _ (by omega) hclosed
theorem parseSignatureLoop_members :
    ∀ ms : List TQT_DBusData, readsBackMembers ms = true →
      ∀ (rest : List Char) (r : List TQT_DBusData) (fuel : Nat),
        closedTail rest = true → (buildMemberSignatures ms ++ rest).length < fuel →
        parseSignatureLoop fuel (buildMemberSignatures ms ++ rest) r =
          .ok (r ++ prototypesOf ms, rest)
  | [], _ => by
      intro rest r fuel hc hf
      simp only [buildMemberSignatures, List.nil_append, prototypesOf, List.append_nil]
      exact parseSignatureLoop_closedTail fuel rest r (by omega) hc
  | m :: ms, h => by
      intro rest r fuel hc hf
      simp only [readsBackMembers, Bool.and_eq_true, Bool.or_eq_true] at h
      obtain ⟨⟨hm, hlast⟩, hms⟩ := h
      have hsig : buildMemberSignatures (m :: ms) ++ rest =
          m.buildDBusSignature ++ (buildMemberSignatures ms ++ rest) := by
        simp [buildMemberSignatures]
      rw [hsig] at hf ⊢
      rcases hlast with hlast | hlast
      · have hnil : ms = [] := by simpa using hlast
        subst hnil
        simp only [buildMemberSignatures, List.nil_append, prototypesOf] at hf ⊢
        exact (parseSignatureLoop_value m hm).1 rest r fuel hc hf
      · rw [(parseSignatureLoop_value m hm).2 hlast _ r fuel hf]
        rw [parseSignatureLoop_members ms hms rest _ fuel hc (by simp at hf ⊢; omega)]
        simp [prototypesOf]
end

theorem listPrototypeFits_of_readsBack (t : TQT_DBusType) (c : TQT_DBusData) (hasItems : Bool)
    (ht : t ≠ .Invalid) (h : prototypeReadsBack t c = true) :
    listPrototypeFits t c hasItems = true := by
  by_cases hc : isContainerType t = true
  · simp only [prototypeReadsBack, hc, Bool.not_true, Bool.false_or, Bool.and_eq_true,
      beq_iff_eq] at h
    obtain ⟨htype, hrb⟩ := h
    have hrb2 : readsBack (.list t c []) = true := by simp [readsBack, hc, htype, hrb]
    have hparse := (parseSignatureLoop_value (.list t c []) hrb2).1 [] []
      (('a' :: c.buildDBusSignature).length + 1) rfl
      (by simp [TQT_DBusData.buildDBusSignature, hc])
    have hsig : (TQT_DBusData.list t c []).buildDBusSignature ++ [] =
        'a' :: c.buildDBusSignature := by
      simp [TQT_DBusData.buildDBusSignature, hc]
    rw [hsig] at hparse
    have hsigp := (prototypeOf_type_signature c hrb).2.2
    unfold listPrototypeFits listArraySignature arrayPrototype parseSignature
    simp only [hc, if_true, hparse, List.nil_append, firstOf, prototypeOf,
      TQT_DBusData.toList, hsigp]
    simp
  · exact listPrototypeFits_simple t c hasItems ht (by simpa using hc)

theorem mapPrototypeFits_of_readsBack (k : MapKeyType) (vt : TQT_DBusType) (c : TQT_DBusData)
    (hasEntries : Bool) (hvt : vt ≠ .Invalid) (h : prototypeReadsBack vt c = true) :
    mapPrototypeFits k vt c hasEntries = true := by
  by_cases hc : isContainerType vt = true
  · simp only [prototypeReadsBack, hc, Bool.not_true, Bool.false_or, Bool.and_eq_true,
      beq_iff_eq] at h
    obtain ⟨htype, hrb⟩ := h
    obtain ⟨kc, hkcode, hkm, _⟩ := key_type_code k
    have hrb2 : readsBack (.map k vt c []) = true := by simp [readsBack, hc, htype, hrb]
    have hsig : (TQT_DBusData.map k vt c []).buildDBusSignature ++ [] =
        'a' :: '{' :: kc :: (c.buildDBusSignature ++ ['}']) := by
      simp [TQT_DBusData.buildDBusSignature, hc, hkcode]
    have hparse := (parseSignatureLoop_value (.map k vt c []) hrb2).1 [] []
      (('a' :: '{' :: kc :: (c.buildDBusSignature ++ ['}'])).length + 1) rfl
      (by rw [hsig]; exact Nat.lt_succ_self _)
    rw [hsig] at hparse
    have hsigp := (prototypeOf_type_signature c hrb).2.2
    unfold mapPrototypeFits keyMapArraySignature arrayPrototype parseSignature
      TQT_DBusDataMap.hasContainerValueType
    simp only [hc, if_true, hkm, List.singleton_append, hparse, List.nil_append, firstOf,
      prototypeOf, hsigp]
    simp
  · exact mapPrototypeFits_simple k vt c hasEntries hvt (by simpa using hc)

/-! ## Round trip through the marshaller -/

theorem qBasicKeyEntriesToIterator_append (es : List (MapKey × TQT_DBusData)) :
    ∀ it sub : List DBusArg,
      qBasicKeyEntriesToIterator it sub es =
        (it ++ (qBasicKeyEntriesToIterator [] [] es).1,
         sub ++ (qBasicKeyEntriesToIterator [] [] es).2) := by
  induction es with
  | nil => intro it sub; simp [qBasicKeyEntriesToIterator]
  | cons e rest ih =>
      intro it sub
      obtain ⟨key, data⟩ := e
      simp only [qBasicKeyEntriesToIterator]
      rw [ih]
      conv_rhs => rw [ih]
      cases keyBasic key <;> simp

theorem qTextKeyEntriesToIterator_append (es : List (MapKey × TQT_DBusData)) :
    ∀ sub : List DBusArg,
      qTextKeyEntriesToIterator sub es = sub ++ qTextKeyEntriesToIterator [] es := by
  induction es with
  | nil => intro sub; simp [qTextKeyEntriesToIterator]
  | cons e rest ih =>
      intro sub
      obtain ⟨key, data⟩ := e
      simp only [qTextKeyEntriesToIterator]
      rw [ih]
      conv_rhs => rw [ih]
      simp

theorem qDBusDataToIterator_append (v : TQT_DBusData) (it : List DBusArg) :
    qDBusDataToIterator it v = it ++ qDBusDataToIterator [] v := by
  cases v with
  | map k vt c es =>
      simp only [qDBusDataToIterator]
      split
      · simp
      · rw [qBasicKeyEntriesToIterator_append]
        simp
  | variant s x =>
      simp only [qDBusDataToIterator]
      split <;> simp
  | struct ms =>
      simp only [qDBusDataToIterator]
      split <;> simp
  | _ => simp [qDBusDataToIterator]

theorem qListItemsToIterator_append (l : List TQT_DBusData) :
    ∀ sub : List DBusArg, qListItemsToIterator sub l = sub ++ qListItemsToIterator [] l := by
  induction l with
  | nil => intro sub; simp [qListItemsToIterator]
  | cons x rest ih =>
      intro sub
      simp only [qListItemsToIterator]
      rw [ih, qDBusDataToIterator_append x sub]
      conv_rhs => rw [ih]
      simp

mutual
theorem operatorEq_type_signature (stale : Nat) :
    ∀ a b : TQT_DBusData, TQT_DBusData.operatorEq stale a b = true →
      a.type = b.type ∧ a.buildDBusSignature = b.buildDBusSignature
  | .struct xs, b, h => by
      cases b with
      | struct ys =>
          simp only [TQT_DBusData.operatorEq] at h
          have := valueListEq_signatures stale xs ys h
          simp [TQT_DBusData.type, TQT_DBusData.buildDBusSignature, this]
      | _ => simp [TQT_DBusData.operatorEq] at h
  | .list t c xs, b, h => by
      cases b with
      | list t2 c2 ys =>
          simp only [TQT_DBusData.operatorEq, Bool.and_eq_true, beq_iff_eq] at h
          obtain ⟨⟨ht, hc⟩, _⟩ := h
          subst ht
          refine ⟨rfl, ?_⟩
          simp only [TQT_DBusData.buildDBusSignature]
          by_cases hct : isContainerType t = true
          · simp only [hct, if_true, beq_iff_eq] at hc
            simp [hct, hc]
          · simp [hct]
      | _ => simp [TQT_DBusData.operatorEq] at h
  | .map k vt c es, b, h => by
      cases b with
      | map k2 vt2 c2 es2 =>
          simp only [TQT_DBusData.operatorEq] at h
          by_cases hk : k = k2
          · by_cases hv : vt = vt2
            · subst hk; subst hv
              refine ⟨rfl, ?_⟩
              simp only [TQT_DBusData.buildDBusSignature]
              by_cases hct : isContainerType vt = true
              · by_cases hs : c.buildDBusSignature = c2.buildDBusSignature
                · simp [hct, hs]
                · simp [hct, hs] at h
              · simp [hct]
            · simp [hk, hv] at h
          · simp [hk] at h
      | _ => simp [TQT_DBusData.operatorEq] at h
  | .variant s v, b, h => by
      cases b <;> simp [TQT_DBusData.operatorEq] at h
      exact ⟨rfl, rfl⟩
  | .invalid, b, h => by
      cases b <;> simp [TQT_DBusData.operatorEq] at h
      exact ⟨rfl, rfl⟩
  | .bool _, b, h => by
      cases b <;> simp [TQT_DBusData.operatorEq] at h
      exact ⟨rfl, rfl⟩
  | .byte _, b, h => by
      cases b <;> simp [TQT_DBusData.operatorEq] at h
      exact ⟨rfl, rfl⟩
  | .int16 _, b, h => by
      cases b <;> simp [TQT_DBusData.operatorEq] at h
      exact ⟨rfl, rfl⟩
  | .uint16 _, b, h => by
      cases b <;> simp [TQT_DBusData.operatorEq] at h
      exact ⟨rfl, rfl⟩
  | .int32 _, b, h => by
      cases b <;> simp [TQT_DBusData.operatorEq] at h
      exact ⟨rfl, rfl⟩
  | .uint32 _, b, h => by
      cases b <;> simp only [TQT_DBusData.operatorEq] at h <;>
        first | exact ⟨rfl, rfl⟩ | exact absurd h (by decide)
  | .int64 _, b, h => by
      cases b <;> simp [TQT_DBusData.operatorEq] at h
      exact ⟨rfl, rfl⟩
  | .uint64 _, b, h => by
      cases b <;> simp [TQT_DBusData.operatorEq] at h
      exact ⟨rfl, rfl⟩
  | .double _, b, h => by
      cases b <;> simp only [TQT_DBusData.operatorEq] at h <;>
        first | exact ⟨rfl, rfl⟩ | exact absurd h (by decide)
  | .string _, b, h => by
      cases b <;> simp [TQT_DBusData.operatorEq] at h
      exact ⟨rfl, rfl⟩
  | .objectPath _, b, h => by
      cases b <;> simp [TQT_DBusData.operatorEq] at h
      exact ⟨rfl, rfl⟩
  | .unixFd _, b, h => by
      cases b <;> simp [TQT_DBusData.operatorEq] at h
      exact ⟨rfl, rfl⟩
theorem valueListEq_signatures (stale : Nat) :
    ∀ xs ys : List TQT_DBusData, valueListEq stale xs ys = true →
      buildMemberSignatures xs = buildMemberSignatures ys
  | [], ys, h => by
      cases ys with
      | nil => rfl
      | cons y ys => simp [valueListEq] at h
  | x :: xs, ys, h => by
      cases ys with
      | nil => simp [valueListEq] at h
      | cons y ys =>
          simp only [valueListEq, Bool.and_eq_true] at h
          have h1 := (operatorEq_type_signature stale x y h.1).2
          have h2 := valueListEq_signatures stale xs ys h.2
          simp [buildMemberSignatures, h1, h2]
end

theorem transportable_type_ne_invalid (v : TQT_DBusData) (h : transportable v = true) :
    v.type ≠ .Invalid := by
  cases v <;> simp [transportable, TQT_DBusData.type] at h ⊢

theorem utf8CString_of_noNul (s : String) (h : noNul s = true) :
    utf8CString s = s.toList := by
  unfold utf8CString
  unfold noNul at h
  exact List.takeWhile_eq_self_iff.2 (by simpa using h)

theorem asciiCString_of_safe (s : String) (h1 : noNul s = true) (h2 : isLatin1 s = true) :
    asciiCString s = s.toList := by
  unfold asciiCString
  unfold noNul at h1
  unfold isLatin1 at h2
  have hmap : s.toList.map (fun c => if c.toNat > 255 then '?' else c) = s.toList := by
    conv_rhs => rw [← List.map_id s.toList]
    apply List.map_congr_left
    intro c hc
    have := (List.all_eq_true.1 h2) c hc
    simp at this
    have h3 : ¬ c.toNat > 255 := by omega
    simp [h3]
  rw [hmap]
  exact List.takeWhile_eq_self_iff.2 (by simpa using h1)

theorem appendAll_typed (t : TQT_DBusType) (c : TQT_DBusData) (ht : t ≠ .Invalid)
    (ws : List TQT_DBusData) :
    ∀ acc : List TQT_DBusData,
      (∀ w ∈ ws, itemFits t c.buildDBusSignature w = true) →
      appendAll ⟨t, c, acc⟩ ws = ⟨t, c, acc ++ ws⟩ := by
  induction ws with
  | nil => intro acc _; simp [appendAll]
  | cons w rest ih =>
      intro acc hfit
      have hw := hfit w (List.mem_cons_self _ _)
      simp only [itemFits, Bool.and_eq_true, beq_iff_eq, Bool.or_eq_true,
        Bool.not_eq_true'] at hw
      obtain ⟨hwt, hws⟩ := hw
      have hstep : TQT_DBusDataList.append ⟨t, c, acc⟩ w = ⟨t, c, acc ++ [w]⟩ := by
        unfold TQT_DBusDataList.append
        have h1 : (w.type == TQT_DBusType.Invalid) = false := by
          rw [hwt]; simpa using ht
        have h2 : (t == TQT_DBusType.Invalid) = false := by simpa using ht
        simp only [h1, h2, hwt, bne_self_eq_false, Bool.false_eq_true, if_false]
        rcases hws with hws | hws
        · simp [hws]
        · by_cases hc : isContainerType t = true
          · simp [hc, hws]
          · simp [hc]
      simp only [appendAll]
      rw [hstep, ih (acc ++ [w]) (fun x hx => hfit x (List.mem_cons_of_mem _ hx))]
      simp

theorem appendAll_untyped (c0 : TQT_DBusData) (w : TQT_DBusData) (ws : List TQT_DBusData)
    (hw : w.type ≠ .Invalid)
    (hfit : ∀ x ∈ ws, itemFits w.type w.buildDBusSignature x = true) :
    appendAll ⟨.Invalid, c0, []⟩ (w :: ws) =
      ⟨w.type, if isContainerType w.type then w else c0, w :: ws⟩ := by
  have hstep : TQT_DBusDataList.append ⟨.Invalid, c0, []⟩ w =
      ⟨w.type, if isContainerType w.type then w else c0, [w]⟩ := by
    unfold TQT_DBusDataList.append
    have h1 : (w.type == TQT_DBusType.Invalid) = false := by simpa using hw
    simp [h1]
  simp only [appendAll]
  rw [hstep]
  by_cases hc : isContainerType w.type = true
  · simp only [hc, if_true]
    rw [appendAll_typed w.type w hw ws [w] hfit]
    simp
  · simp only [hc, Bool.false_eq_true, if_false]
    have hfit2 : ∀ x ∈ ws, itemFits w.type c0.buildDBusSignature x = true := by
      intro x hx
      have := hfit x hx
      simp only [itemFits, Bool.and_eq_true, beq_iff_eq, Bool.or_eq_true,
        Bool.not_eq_true'] at this ⊢
      refine ⟨this.1, Or.inl ?_⟩
      simpa using hc
    rw [appendAll_typed w.type c0 hw ws [w] hfit2]
    simp

theorem mapKey_lt_asymm (a b : MapKey) (h : MapKey.lt a b = true) : MapKey.lt b a = false := by
  cases a <;> cases b <;> simp only [MapKey.lt, decide_eq_true_eq, decide_eq_false_iff_not] at h ⊢ <;>
    exact lt_asymm h

theorem tqmap_insert_last (key : MapKey) (value : TQT_DBusData)
    (l : List (MapKey × TQT_DBusData)) (h : ∀ a ∈ l, MapKey.lt a.1 key = true) :
    TQMap.insert key value l = l ++ [(key, value)] := by
  induction l with
  | nil => rfl
  | cons a rest ih =>
      obtain ⟨k, v⟩ := a
      have h1 : MapKey.lt k key = true := h (k, v) (List.mem_cons_self _ _)
      have h2 : MapKey.lt key k = false := mapKey_lt_asymm k key h1
      simp only [TQMap.insert, h1, h2, Bool.false_eq_true, if_false, if_true, List.cons_append]
      rw [ih (fun a ha => h a (List.mem_cons_of_mem _ ha))]

/-- The object the decoder reads for a text key. -/
theorem fetchedKey_textKey (K : MapKeyType) (key : MapKey) (h : textKeyFits K key = true) :
    (K = .String ∨ K = .ObjectPath) ∧
    ∃ arg : DBusBasic,
      textKeyToIterator key = [DBusArg.basic arg] ∧
      fetchedKey K (fetchBasic arg) = key ∧
      fetchMapKeyType arg.argType = some K := by
  cases key with
  | string s =>
      cases K with
      | String =>
          simp only [textKeyFits] at h
          refine ⟨Or.inl rfl, _, rfl, ?_, rfl⟩
          rw [utf8CString_of_noNul s h]
          rfl
      | _ => simp [textKeyFits] at h
  | objectPath p =>
      cases K with
      | ObjectPath =>
          simp only [textKeyFits, Bool.and_eq_true] at h
          obtain ⟨⟨hv, hn⟩, hl⟩ := h
          refine ⟨Or.inr rfl, _, rfl, ?_, rfl⟩
          rw [asciiCString_of_safe p.path hn hl]
          show fetchedKey .ObjectPath (TQT_DBusData.fromObjectPath ⟨String.mk p.path.toList⟩) = _
          have : (⟨String.mk p.path.toList⟩ : TQT_DBusObjectPath) = p := rfl
          rw [this]
          simp [TQT_DBusData.fromObjectPath, hv, fetchedKey, TQT_DBusData.toObjectPath]
      | _ => simp [textKeyFits] at h
  | _ => cases K <;> simp [textKeyFits] at h

theorem fetchMapEntries_typed (K : MapKeyType) (vt : TQT_DBusType) (c : TQT_DBusData)
    (hvt : vt ≠ .Invalid)
    (rs : List (TQT_DBusData × TQT_DBusData)) :
    ∀ (ks : List MapKey) (acc : List (MapKey × TQT_DBusData)),
      ks.length = rs.length →
      (∀ r ∈ rs, itemFits vt c.buildDBusSignature r.2 = true) →
      (List.Forall₂ (fun r k => fetchedKey K r.1 = k) rs ks) →
      (∀ a ∈ acc, ∀ k ∈ ks, MapKey.lt a.1 k = true) →
      ks.Pairwise (fun a b => MapKey.lt a b = true) →
      fetchMapEntries K ⟨K, vt, c, acc⟩ rs =
        ⟨K, vt, c, acc ++ ks.zip (rs.map Prod.snd)⟩ := by
  induction rs with
  | nil =>
      intro ks acc hlen _ _ _ _
      cases ks with
      | nil => simp [fetchMapEntries]
      | cons k ks => simp at hlen
  | cons r rest ih =>
      intro ks acc hlen hfit hkeys hacc hsorted
      cases ks with
      | nil => simp at hlen
      | cons k ks =>
          obtain ⟨kd, w⟩ := r
          rw [List.forall₂_cons] at hkeys
          obtain ⟨hk, hkeys⟩ := hkeys
          simp only at hk
          have hw := hfit (kd, w) (List.mem_cons_self _ _)
          simp only [itemFits, Bool.and_eq_true, beq_iff_eq, Bool.or_eq_true,
            Bool.not_eq_true'] at hw
          obtain ⟨hwt, hws⟩ := hw
          have hins : TQMap.insert k w acc = acc ++ [(k, w)] :=
            tqmap_insert_last k w acc (fun a ha => hacc a ha k (List.mem_cons_self _ _))
          have hstep : (TQT_DBusDataMap.insert ⟨K, vt, c, acc⟩ k w).1 =
              ⟨K, vt, c, acc ++ [(k, w)]⟩ := by
            unfold TQT_DBusDataMap.insert
            have h1 : (w.type == TQT_DBusType.Invalid) = false := by
              rw [hwt]; simpa using hvt
            have h2 : (vt == TQT_DBusType.Invalid) = false := by simpa using hvt
            simp only [h1, h2, hwt, bne_self_eq_false, Bool.false_eq_true, if_false, hins]
            rcases hws with hws | hws
            · simp [hws]
            · by_cases hc : isContainerType vt = true
              · simp [hc, hws]
              · simp [hc]
          simp only [fetchMapEntries, hk]
          rw [hstep]
          rw [List.pairwise_cons] at hsorted
          rw [ih ks (acc ++ [(k, w)]) (by simpa using hlen)
            (fun x hx => hfit x (List.mem_cons_of_mem _ hx)) hkeys ?_ hsorted.2]
          · simp
          · intro a ha k2 hk2
            rcases List.mem_append.1 ha with ha | ha
            · exact hacc a ha k2 (List.mem_cons_of_mem _ hk2)
            · rw [List.mem_singleton] at ha
              subst ha
              exact hsorted.1 k2 hk2

theorem fetchMapEntries_untyped (K : MapKeyType) (c0 : TQT_DBusData)
    (kd w : TQT_DBusData) (rs : List (TQT_DBusData × TQT_DBusData))
    (key : MapKey) (ks : List MapKey)
    (hw : w.type ≠ .Invalid)
    (hlen : ks.length = rs.length)
    (hfit : ∀ r ∈ rs, itemFits w.type w.buildDBusSignature r.2 = true)
    (hkey : fetchedKey K kd = key)
    (hkeys : List.Forall₂ (fun r k => fetchedKey K r.1 = k) rs ks)
    (hsorted : (key :: ks).Pairwise (fun a b => MapKey.lt a b = true)) :
    fetchMapEntries K ⟨K, .Invalid, c0, []⟩ ((kd, w) :: rs) =
      ⟨K, w.type, if isContainerType w.type then w else c0,
        (key :: ks).zip (w :: rs.map Prod.snd)⟩ := by
  have hstep : (TQT_DBusDataMap.insert ⟨K, .Invalid, c0, []⟩ key w).1 =
      ⟨K, w.type, if isContainerType w.type then w else c0, [(key, w)]⟩ := by
    unfold TQT_DBusDataMap.insert
    have h1 : (w.type == TQT_DBusType.Invalid) = false := by simpa using hw
    simp [h1, TQMap.insert]
  rw [List.pairwise_cons] at hsorted
  simp only [fetchMapEntries, hkey]
  rw [hstep]
  have hacc : ∀ a ∈ [(key, w)], ∀ k ∈ ks, MapKey.lt a.1 k = true := by
    intro a ha k2 hk2
    rw [List.mem_singleton] at ha
    subst ha
    exact hsorted.1 k2 hk2
  by_cases hc : isContainerType w.type = true
  · simp only [hc, if_true]
    rw [fetchMapEntries_typed K w.type w hw rs ks [(key, w)] hlen hfit hkeys hacc hsorted.2]
    simp
  · simp only [hc, Bool.false_eq_true, if_false]
    have hfit2 : ∀ r ∈ rs, itemFits w.type c0.buildDBusSignature r.2 = true := by
      intro r hr
      have := hfit r hr
      simp only [itemFits, Bool.and_eq_true, beq_iff_eq, Bool.or_eq_true,
        Bool.not_eq_true'] at this ⊢
      refine ⟨this.1, Or.inl ?_⟩
      simpa using hc
    rw [fetchMapEntries_typed K w.type c0 hw rs ks [(key, w)] hlen hfit2 hkeys hacc hsorted.2]
    simp

theorem itemFits_of_operatorEq (stale : Nat) (t : TQT_DBusType) (cs : List Char)
    (w v : TQT_DBusData) (heq : TQT_DBusData.operatorEq stale w v = true)
    (h : itemFits t cs v = true) : itemFits t cs w = true := by
  obtain ⟨ht, hs⟩ := operatorEq_type_signature stale w v heq
  unfold itemFits at h ⊢
  rw [ht, hs]
  exact h

theorem forall₂_itemFits (stale : Nat) (t : TQT_DBusType) (cs : List Char)
    (ws vs : List TQT_DBusData)
    (hrel : List.Forall₂ (fun w v => TQT_DBusData.operatorEq stale w v = true) ws vs)
    (h : ∀ v ∈ vs, itemFits t cs v = true) : ∀ w ∈ ws, itemFits t cs w = true := by
  induction hrel with
  | nil => intro w hw; simp at hw
  | cons hwv _ ih =>
      intro x hx
      rcases List.mem_cons.1 hx with hx | hx
      · subst hx
        exact itemFits_of_operatorEq stale t cs _ _ hwv (h _ (List.mem_cons_self _ _))
      · exact ih (fun v hv => h v (List.mem_cons_of_mem _ hv)) x hx

theorem forall₂_valueListEq (stale : Nat) (ws vs : List TQT_DBusData)
    (hrel : List.Forall₂ (fun w v => TQT_DBusData.operatorEq stale w v = true) ws vs) :
    valueListEq stale ws vs = true := by
  induction hrel with
  | nil => rfl
  | cons hwv _ ih => simp [valueListEq, hwv, ih]

theorem forall₂_no_invalid (stale : Nat) (ws vs : List TQT_DBusData)
    (hrel : List.Forall₂ (fun w v => TQT_DBusData.operatorEq stale w v = true) ws vs)
    (h : transportableAll vs = true) :
    ws.any (fun m => m.type == .Invalid) = false := by
  induction hrel with
  | nil => rfl
  | @cons w v ws vs hwv _ ih =>
      simp only [transportableAll, Bool.and_eq_true] at h
      have hv := transportable_type_ne_invalid v h.1
      have ht := (operatorEq_type_signature stale w v hwv).1
      have : (w.type == TQT_DBusType.Invalid) = false := by
        rw [ht]; simpa using hv
      simp [this, ih h.2]

theorem keysIncreasing_pairwise (es : List (MapKey × TQT_DBusData))
    (h : keysIncreasing es = true) :
    (es.map Prod.fst).Pairwise (fun a b => MapKey.lt a b = true) := by
  induction es with
  | nil => simp
  | cons e rest ih =>
      obtain ⟨k, v⟩ := e
      simp only [keysIncreasing, Bool.and_eq_true, List.all_eq_true] at h
      simp only [List.map_cons, List.pairwise_cons, List.mem_map, forall_exists_index, and_imp]
      refine ⟨?_, ih h.2⟩
      intro k2 e he hk
      subst hk
      exact h.1 e he

theorem mapKey_operatorNe_self (k : MapKey) : MapKey.operatorNe k k = false := by
  cases k <;> simp [MapKey.operatorNe, TQT_DBusUnixFd.operatorNe]

theorem mapEntriesEq_zip (stale : Nat) (K : MapKeyType)
    (rs : List (TQT_DBusData × TQT_DBusData)) (es : List (MapKey × TQT_DBusData))
    (hrel : List.Forall₂ (fun r e => fetchedKey K r.1 = e.1 ∧
      TQT_DBusData.operatorEq stale r.2 e.2 = true) rs es) :
    mapEntriesEq stale ((es.map Prod.fst).zip (rs.map Prod.snd)) es = true ∧
    ((es.map Prod.fst).zip (rs.map Prod.snd)).length = es.length := by
  induction hrel with
  | nil => exact ⟨rfl, rfl⟩
  | @cons r e rs es hre _ ih =>
      obtain ⟨k, v⟩ := e
      simp only [List.map_cons, List.zip_cons_cons, mapEntriesEq, mapKey_operatorNe_self,
        Bool.false_eq_true, if_false, hre.2, Bool.not_true, List.length_cons]
      exact ⟨ih.1, by rw [ih.2]⟩

theorem elementType_of_signature (d : TQT_DBusData) :
    (dbus_message_iter_get_element_type d.buildDBusSignature == 'e') = false := by
  cases d <;>
    simp [TQT_DBusData.buildDBusSignature, dbus_message_iter_get_element_type,
      qDBusTypeForTQT_DBusType]

theorem elementType_of_listArraySignature (t : TQT_DBusType) (c : TQT_DBusData) :
    (dbus_message_iter_get_element_type (listArraySignature t c) == 'e') = false := by
  unfold listArraySignature
  by_cases hc : isContainerType t = true
  · simp only [hc, if_true]
    exact elementType_of_signature c
  · simp only [hc, Bool.false_eq_true, if_false]
    cases t <;> first | rfl | exact absurd rfl hc

theorem list_round_trip (stale : Nat) (t : TQT_DBusType) (c : TQT_DBusData)
    (items ws : List TQT_DBusData)
    (ht : t ≠ .Invalid)
    (hfits : listPrototypeFits t c (!items.isEmpty) = true)
    (hitems : ∀ v ∈ items, itemFits t c.buildDBusSignature v = true)
    (hf : fetchAll (qListItemsToIterator [] items) = .ok ws)
    (hrel : List.Forall₂ (fun w v => TQT_DBusData.operatorEq stale w v = true) ws items) :
    ∃ a w, qDBusDataToIterator [] (.list t c items) = [a] ∧ fetchArg a = .ok w ∧
      TQT_DBusData.operatorEq stale w (.list t c items) = true := by
  have henc : qDBusDataToIterator [] (.list t c items) =
      [.array (listArraySignature t c) (qListItemsToIterator [] items)] := by
    simp [qDBusDataToIterator, listArraySignature]
  have hws := forall₂_itemFits stale t c.buildDBusSignature ws items hrel hitems
  have hveq := forall₂_valueListEq stale ws items hrel
  unfold listPrototypeFits at hfits
  cases hp : arrayPrototype (listArraySignature t c) with
  | error e => rw [hp] at hfits; simp at hfits
  | ok p =>
    rw [hp] at hfits
    simp only at hfits
    generalize hl : (p.toList none).1 = l0 at hfits
    obtain ⟨t0, c0, xs0⟩ := l0
    simp only [Bool.and_eq_true, Bool.or_eq_true, List.isEmpty_iff, beq_iff_eq,
      Bool.not_eq_true', List.isEmpty_eq_true, Bool.not_eq_eq_eq_not, Bool.not_true] at hfits
    obtain ⟨hxs, hcase⟩ := hfits
    subst hxs
    have hfetch : fetchArg (.array (listArraySignature t c) (qListItemsToIterator [] items)) =
        .ok (TQT_DBusData.fromList (appendAll ⟨t0, c0, []⟩ ws)) := by
      simp only [fetchArg, hp, elementType_of_listArraySignature, hf, hl]
      rfl
    have htb : (t == TQT_DBusType.Invalid) = false := by simpa using ht
    rcases hcase with ⟨ht0, hsig⟩ | ⟨ht0, hne⟩
    · subst ht0
      have hws2 : ∀ w ∈ ws, itemFits t0 c0.buildDBusSignature w = true := by
        intro w hw
        have := hws w hw
        simp only [itemFits, Bool.and_eq_true, beq_iff_eq, Bool.or_eq_true,
          Bool.not_eq_true'] at this ⊢
        refine ⟨this.1, ?_⟩
        rcases hsig with hsig | hsig
        · exact Or.inl hsig
        · rcases this.2 with h2 | h2
          · exact Or.inl h2
          · exact Or.inr (by rw [h2, hsig])
      refine ⟨_, .list t0 c0 ws, henc, ?_, ?_⟩
      · rw [hfetch, appendAll_typed t0 c0 ht ws [] hws2]
        simp [TQT_DBusData.fromList, htb]
      · simp only [TQT_DBusData.operatorEq, hveq, beq_self_eq_true, Bool.true_and, Bool.and_true]
        by_cases hc : isContainerType t0 = true
        · rcases hsig with hsig | hsig
          · rw [hsig] at hc; exact absurd hc (by decide)
          · simp [hc, hsig]
        · simp [hc]
    · subst ht0
      cases hrel with
      | nil => simp at hne
      | @cons w v ws' items' hwv hrest =>
        have hv := hitems v (List.mem_cons_self _ _)
        have hw := hws w (List.mem_cons_self _ _)
        simp only [itemFits, Bool.and_eq_true, beq_iff_eq, Bool.or_eq_true,
          Bool.not_eq_true'] at hw
        obtain ⟨hwt, hwsig⟩ := hw
        have hwne : w.type ≠ .Invalid := by rw [hwt]; exact ht
        have hfit2 : ∀ x ∈ ws', itemFits w.type w.buildDBusSignature x = true := by
          intro x hx
          have := hws x (List.mem_cons_of_mem _ hx)
          simp only [itemFits, Bool.and_eq_true, beq_iff_eq, Bool.or_eq_true,
            Bool.not_eq_true'] at this ⊢
          rw [hwt]
          refine ⟨this.1, ?_⟩
          rcases hwsig with h1 | h1
          · exact Or.inl h1
          · rcases this.2 with h2 | h2
            · exact Or.inl h2
            · exact Or.inr (by rw [h2, h1])
        refine ⟨_, .list t (if isContainerType t then w else c0) (w :: ws'), henc, ?_, ?_⟩
        · rw [hfetch, appendAll_untyped c0 w ws' hwne hfit2, hwt]
          simp [TQT_DBusData.fromList, htb]
        · simp only [TQT_DBusData.operatorEq, hveq, beq_self_eq_true, Bool.true_and,
            Bool.and_true]
          by_cases hc : isContainerType t = true
          · rcases hwsig with h1 | h1
            · rw [h1] at hc; exact absurd hc (by decide)
            · simp [hc, h1]
          · simp [hc]

theorem fetchMapKeyType_ne_zero (ch : Char) (K : MapKeyType)
    (h : fetchMapKeyType ch = some K) : (ch == '\x00') = false := by
  by_cases hc : ch = '\x00'
  · subst hc
    have h0 : fetchMapKeyType '\x00' = none := rfl
    rw [h0] at h
    cases h
  · simpa using hc

theorem forall₂_entry_itemFits (stale : Nat) (K : MapKeyType) (t : TQT_DBusType)
    (cs : List Char) (rs : List (TQT_DBusData × TQT_DBusData))
    (es : List (MapKey × TQT_DBusData))
    (hrel : List.Forall₂ (fun r e => fetchedKey K r.1 = e.1 ∧
      TQT_DBusData.operatorEq stale r.2 e.2 = true) rs es)
    (h : ∀ e ∈ es, itemFits t cs e.2 = true) : ∀ r ∈ rs, itemFits t cs r.2 = true := by
  induction hrel with
  | nil => intro r hr; simp at hr
  | @cons r e rs es hre _ ih =>
      intro x hx
      rcases List.mem_cons.1 hx with hx | hx
      · subst hx
        exact itemFits_of_operatorEq stale t cs _ _ hre.2 (h e (List.mem_cons_self _ _))
      · exact ih (fun e he => h e (List.mem_cons_of_mem _ he)) x hx

theorem map_round_trip (stale : Nat) (k : MapKeyType) (vt : TQT_DBusType) (c : TQT_DBusData)
    (es : List (MapKey × TQT_DBusData)) (rs : List (TQT_DBusData × TQT_DBusData))
    (hk : (k == .String || k == .ObjectPath) = true)
    (hvt : vt ≠ .Invalid)
    (hfits : mapPrototypeFits k vt c (!es.isEmpty) = true)
    (hvalues : ∀ e ∈ es, itemFits vt c.buildDBusSignature e.2 = true)
    (hsorted : keysIncreasing es = true)
    (hf : fetchEntryAll (qTextKeyEntriesToIterator [] es) = .ok rs)
    (hfirst : es ≠ [] →
      fetchMapKeyType (firstEntryKeyType (qTextKeyEntriesToIterator [] es)) = some k)
    (hrel : List.Forall₂ (fun r e => fetchedKey k r.1 = e.1 ∧
      TQT_DBusData.operatorEq stale r.2 e.2 = true) rs es) :
    ∃ a w, qDBusDataToIterator [] (.map k vt c es) = [a] ∧ fetchArg a = .ok w ∧
      TQT_DBusData.operatorEq stale w (.map k vt c es) = true := by
  have hsigeq : keyMapArraySignature ⟨k, vt, c, es⟩ = keyMapArraySignature ⟨k, vt, c, []⟩ := rfl
  have henc : qDBusDataToIterator [] (.map k vt c es) =
      [.array (keyMapArraySignature ⟨k, vt, c, []⟩) (qTextKeyEntriesToIterator [] es)] := by
    simp only [qDBusDataToIterator, hk, if_true, List.nil_append, hsigeq]
  have helem : (dbus_message_iter_get_element_type (keyMapArraySignature ⟨k, vt, c, []⟩)
      == 'e') = true := rfl
  have hlen : rs.length = es.length := hrel.length_eq
  have hrs2 := forall₂_entry_itemFits stale k vt c.buildDBusSignature rs es hrel hvalues
  have hkeys : List.Forall₂ (fun r k' => fetchedKey k r.1 = k') rs (es.map Prod.fst) := by
    rw [List.forall₂_map_right_iff]
    exact List.Forall₂.imp (fun _ _ h => h.1) hrel
  have hpair := keysIncreasing_pairwise es hsorted
  obtain ⟨hmeq, hziplen⟩ := mapEntriesEq_zip stale k rs es hrel
  unfold mapPrototypeFits at hfits
  cases hp : arrayPrototype (keyMapArraySignature ⟨k, vt, c, []⟩) with
  | error e => rw [hp] at hfits; simp at hfits
  | ok p =>
    rw [hp] at hfits
    cases p with
    | map k0 vt0 c0 es0 =>
      simp only [Bool.and_eq_true, Bool.or_eq_true, beq_iff_eq, List.isEmpty_eq_true,
        Bool.not_eq_true', Bool.not_eq_eq_eq_not, Bool.not_true] at hfits
      obtain ⟨⟨hk0, hes0⟩, hcase⟩ := hfits
      subst hk0; subst hes0
      have hfetch : fetchArg (.array (keyMapArraySignature ⟨k0, vt, c, []⟩)
          (qTextKeyEntriesToIterator [] es)) =
          qFetchMap (firstEntryKeyType (qTextKeyEntriesToIterator [] es))
            (.ok rs) (.map k0 vt0 c0 []) := by
        simp only [fetchArg, hp, helem, if_true, hf]
      cases hes : es with
      | nil =>
        subst hes
        have hvt0 : vt0 = vt ∧ (isContainerType vt = false ∨
            c0.buildDBusSignature = c.buildDBusSignature) := by
          rcases hcase with h | h
          · exact h
          · simp at h
        obtain ⟨hvt0, hsig⟩ := hvt0
        subst hvt0
        refine ⟨_, .map k0 vt0 c0 [], henc, ?_, ?_⟩
        · rw [hfetch]
          simp [qTextKeyEntriesToIterator, firstEntryKeyType, qFetchMap]
        · simp only [TQT_DBusData.operatorEq, bne_self_eq_false, Bool.false_eq_true, if_false,
            mapEntriesEq]
          rcases hsig with hsig | hsig
          · simp [hsig]
          · simp [hsig]
      | cons e rest =>
        have hne : es ≠ [] := by rw [hes]; simp
        have hfk := hfirst hne
        have hnz := fetchMapKeyType_ne_zero _ _ hfk
        have hfetch2 : fetchArg (.array (keyMapArraySignature ⟨k0, vt, c, []⟩)
            (qTextKeyEntriesToIterator [] es)) =
            .ok (TQT_DBusData.fromKeyMap (fetchMapEntries k0 ⟨k0, vt0, c0, []⟩ rs)) := by
          rw [hfetch]
          simp only [qFetchMap, hnz, Bool.false_eq_true, if_false, hfk,
            TQT_DBusData.toKeyMap, TQT_DBusDataMap.default]
        rw [← hes]
        rcases hcase with ⟨hvt0, hsig⟩ | ⟨hvt0, _⟩
        · subst hvt0
          have hrs3 : ∀ r ∈ rs, itemFits vt0 c0.buildDBusSignature r.2 = true := by
            intro r hr
            have := hrs2 r hr
            simp only [itemFits, Bool.and_eq_true, beq_iff_eq, Bool.or_eq_true,
              Bool.not_eq_true'] at this ⊢
            refine ⟨this.1, ?_⟩
            rcases hsig with hsig | hsig
            · exact Or.inl hsig
            · rcases this.2 with h2 | h2
              · exact Or.inl h2
              · exact Or.inr (by rw [h2, hsig])
          have hm := fetchMapEntries_typed k0 vt0 c0 hvt rs (es.map Prod.fst) []
            (by simpa using hlen.symm) hrs3 hkeys (by simp) hpair
          refine ⟨_, .map k0 vt0 c0 ((es.map Prod.fst).zip (rs.map Prod.snd)), henc, ?_, ?_⟩
          · rw [hfetch2, hm]
            simp [TQT_DBusData.fromKeyMap]
          · simp only [TQT_DBusData.operatorEq, bne_self_eq_false, Bool.false_eq_true, if_false,
              hziplen, hmeq]
            rcases hsig with hsig | hsig
            · simp [hsig]
            · simp [hsig]
        · subst hvt0
          subst hes
          cases hrel with
          | @cons r e0 rs' es' hre hrest =>
            obtain ⟨kd, w⟩ := r
            obtain ⟨key, v⟩ := e
            have hw := hrs2 (kd, w) (List.mem_cons_self _ _)
            simp only [itemFits, Bool.and_eq_true, beq_iff_eq, Bool.or_eq_true,
              Bool.not_eq_true'] at hw
            obtain ⟨hwt, hwsig⟩ := hw
            have hwne : w.type ≠ .Invalid := by rw [hwt]; exact hvt
            have hfit2 : ∀ x ∈ rs', itemFits w.type w.buildDBusSignature x.2 = true := by
              intro x hx
              have := hrs2 x (List.mem_cons_of_mem _ hx)
              simp only [itemFits, Bool.and_eq_true, beq_iff_eq, Bool.or_eq_true,
                Bool.not_eq_true'] at this ⊢
              rw [hwt]
              refine ⟨this.1, ?_⟩
              rcases hwsig with h1 | h1
              · exact Or.inl h1
              · rcases this.2 with h2 | h2
                · exact Or.inl h2
                · exact Or.inr (by rw [h2, h1])
            simp only [List.map_cons, List.forall₂_cons] at hkeys
            simp only [List.map_cons] at hpair hmeq hziplen
            have hm := fetchMapEntries_untyped k0 c0 kd w rs' key (rest.map Prod.fst) hwne
              (by simpa using hrest.length_eq.symm) hfit2 hkeys.1 hkeys.2 hpair
            refine ⟨_, .map k0 vt (if isContainerType vt then w else c0)
              ((key :: rest.map Prod.fst).zip (w :: rs'.map Prod.snd)), henc, ?_, ?_⟩
            · rw [hfetch2, hm, hwt]
              simp [TQT_DBusData.fromKeyMap]
            · simp only [TQT_DBusData.operatorEq, bne_self_eq_false, Bool.false_eq_true,
                if_false, hziplen, hmeq]
              by_cases hc : isContainerType vt = true
              · rcases hwsig with h1 | h1
                · rw [h1] at hc; exact absurd hc (by decide)
                · simp [hc, h1]
              · simp [hc]
    | _ => simp at hfits

theorem doubleEq_self (bits : Nat) (h : doubleIsNaN bits = false) : doubleEq bits bits = true := by
  simp [doubleEq, h]

theorem empty_map_round_trip (stale : Nat) (k : MapKeyType) (vt : TQT_DBusType)
    (c : TQT_DBusData) (hfits : mapPrototypeFits k vt c false = true) :
    ∃ a w, qDBusDataToIterator [] (.map k vt c []) = [a] ∧ fetchArg a = .ok w ∧
      TQT_DBusData.operatorEq stale w (.map k vt c []) = true := by
  have henc : qDBusDataToIterator [] (.map k vt c []) =
      [.array (keyMapArraySignature ⟨k, vt, c, []⟩) []] := by
    by_cases hk : (k == MapKeyType.String || k == MapKeyType.ObjectPath) = true
    · simp only [qDBusDataToIterator, hk, if_true, List.nil_append, qTextKeyEntriesToIterator]
    · simp only [qDBusDataToIterator, hk, Bool.false_eq_true, if_false,
        qBasicKeyEntriesToIterator, List.nil_append]
  have helem : (dbus_message_iter_get_element_type (keyMapArraySignature ⟨k, vt, c, []⟩)
      == 'e') = true := rfl
  unfold mapPrototypeFits at hfits
  cases hp : arrayPrototype (keyMapArraySignature ⟨k, vt, c, []⟩) with
  | error e => rw [hp] at hfits; simp at hfits
  | ok p =>
    rw [hp] at hfits
    cases p with
    | map k0 vt0 c0 es0 =>
      simp only [Bool.and_eq_true, Bool.or_eq_true, beq_iff_eq, List.isEmpty_eq_true,
        Bool.false_eq_true, and_false, or_false, Bool.not_eq_true'] at hfits
      obtain ⟨⟨hk0, hes0⟩, hvt0, hsig⟩ := hfits
      subst hk0; subst hes0; subst hvt0
      refine ⟨_, .map k0 vt0 c0 [], henc, ?_, ?_⟩
      · simp [fetchArg, hp, helem, fetchEntryAll, firstEntryKeyType, qFetchMap]
      · simp only [TQT_DBusData.operatorEq, bne_self_eq_false, Bool.false_eq_true, if_false,
          mapEntriesEq]
        rcases hsig with hsig | hsig
        · simp [hsig]
        · simp [hsig]
    | _ => simp at hfits

mutual
theorem value_round_trip (stale : Nat) :
    ∀ v : TQT_DBusData, transportable v = true →
      ∃ a w, qDBusDataToIterator [] v = [a] ∧ fetchArg a = .ok w ∧
        TQT_DBusData.operatorEq stale w v = true
  | .invalid, h => by simp [transportable] at h
  | .unixFd _, h => by simp [transportable] at h
  | .bool b, _ => ⟨_, .bool b, rfl, rfl, by simp [TQT_DBusData.operatorEq]⟩
  | .byte b, _ => ⟨_, .byte b, rfl, rfl, by simp [TQT_DBusData.operatorEq]⟩
  | .int16 b, _ => ⟨_, .int16 b, rfl, rfl, by simp [TQT_DBusData.operatorEq]⟩
  | .uint16 b, _ => ⟨_, .uint16 b, rfl, rfl, by simp [TQT_DBusData.operatorEq]⟩
  | .int32 b, _ => ⟨_, .int32 b, rfl, rfl, by simp [TQT_DBusData.operatorEq]⟩
  | .uint32 _, h => by simp [transportable] at h
  | .int64 b, _ => ⟨_, .int64 b, rfl, rfl, by simp [TQT_DBusData.operatorEq]⟩
  | .uint64 b, _ => ⟨_, .uint64 b, rfl, rfl, by simp [TQT_DBusData.operatorEq]⟩
  | .double bits, h => by
      simp only [transportable, Bool.not_eq_true'] at h
      exact ⟨_, .double bits, rfl, rfl, by simp [TQT_DBusData.operatorEq, doubleEq_self bits h]⟩
  | .string s, h => by
      simp only [transportable] at h
      refine ⟨.basic (.string s.toList), .string s, ?_, rfl, by simp [TQT_DBusData.operatorEq]⟩
      simp [qDBusDataToIterator, utf8CString_of_noNul s h]
  | .objectPath p, h => by
      simp only [transportable, Bool.and_eq_true] at h
      obtain ⟨⟨hv, hn⟩, hl⟩ := h
      refine ⟨.basic (.objectPath p.path.toList), .objectPath p, ?_, ?_,
        by simp [TQT_DBusData.operatorEq]⟩
      · simp [qDBusDataToIterator, asciiCString_of_safe p.path hn hl]
      · show Except.ok (TQT_DBusData.fromObjectPath ⟨String.mk p.path.toList⟩) = _
        have : (⟨String.mk p.path.toList⟩ : TQT_DBusObjectPath) = p := rfl
        rw [this]
        simp [TQT_DBusData.fromObjectPath, hv]
  | .struct ms, h => by
      simp only [transportable, Bool.and_eq_true, Bool.not_eq_true', List.isEmpty_eq_false]
        at h
      obtain ⟨hne, hall⟩ := h
      obtain ⟨ws, hf, hrel⟩ := values_round_trip stale ms hall
      have hne2 : ms.isEmpty = false := by
        cases ms with
        | nil => simp at hne
        | cons _ _ => rfl
      refine ⟨.struct (qListItemsToIterator [] ms), .struct ws, ?_, ?_, ?_⟩
      · simp [qDBusDataToIterator, hne2]
      · simp only [fetchArg, hf, TQT_DBusData.fromStruct, forall₂_no_invalid stale ws ms hrel hall]
        rfl
      · simp only [TQT_DBusData.operatorEq]
        exact forall₂_valueListEq stale ws ms hrel
  | .variant s v, h => by
      simp only [transportable, Bool.and_eq_true, Bool.not_eq_true', beq_iff_eq] at h
      obtain ⟨⟨⟨hne, hn⟩, _⟩, hv⟩ := h
      obtain ⟨a, w, he, hf, hr⟩ := value_round_trip stale v hv
      have hvt : (v.type == TQT_DBusType.Invalid) = false := by
        simpa using transportable_type_ne_invalid v hv
      refine ⟨.variant s.toList [a], .variant s w, ?_, ?_, ?_⟩
      · simp [qDBusDataToIterator, hne, hvt, he, utf8CString_of_noNul s hn]
      · simp only [fetchArg, fetchFirst, hf, TQT_DBusData.fromVariant]
        rfl
      · simp [TQT_DBusData.operatorEq, hr]
  | .list t c items, h => by
      simp only [transportable, Bool.and_eq_true, bne_iff_ne, ne_eq, List.all_eq_true] at h
      obtain ⟨⟨⟨ht, hfits⟩, hitems⟩, hall⟩ := h
      obtain ⟨ws, hf, hrel⟩ := values_round_trip stale items hall
      exact list_round_trip stale t c items ws ht
        (listPrototypeFits_of_readsBack t c _ ht hfits) hitems hf hrel
  | .map k vt c es, h => by
      simp only [transportable, Bool.and_eq_true, bne_iff_ne, ne_eq, Bool.or_eq_true,
        List.isEmpty_eq_true] at h
      obtain ⟨⟨hvt, hrb⟩, hentries⟩ := h
      rcases hentries with hnil | ⟨⟨⟨hk, hes⟩, hsorted⟩, hall⟩
      · subst hnil
        exact empty_map_round_trip stale k vt c
          (mapPrototypeFits_of_readsBack k vt c false hvt hrb)
      · simp only [List.all_eq_true, Bool.and_eq_true] at hes
        obtain ⟨rs, hf, hfirst, hrel⟩ :=
          entries_round_trip stale k es hall (fun e he => (hes e he).1)
        exact map_round_trip stale k vt c es rs (by simpa using hk) hvt
          (mapPrototypeFits_of_readsBack k vt c _ hvt hrb)
          (fun e he => (hes e he).2) hsorted hf hfirst hrel
theorem values_round_trip (stale : Nat) :
    ∀ vs : List TQT_DBusData, transportableAll vs = true →
      ∃ ws, fetchAll (qListItemsToIterator [] vs) = .ok ws ∧
        List.Forall₂ (fun w v => TQT_DBusData.operatorEq stale w v = true) ws vs
  | [], _ => ⟨[], rfl, List.Forall₂.nil⟩
  | v :: rest, h => by
      simp only [transportableAll, Bool.and_eq_true] at h
      obtain ⟨a, w, he, hf, hr⟩ := value_round_trip stale v h.1
      obtain ⟨ws, hfs, hrs⟩ := values_round_trip stale rest h.2
      refine ⟨w :: ws, ?_, List.Forall₂.cons hr hrs⟩
      simp only [qListItemsToIterator, he]
      rw [qListItemsToIterator_append rest [a]]
      simp [fetchAll, hf, hfs]
theorem entries_round_trip (stale : Nat) (K : MapKeyType) :
    ∀ es : List (MapKey × TQT_DBusData), transportableEntries es = true →
      (∀ e ∈ es, textKeyFits K e.1 = true) →
      ∃ rs, fetchEntryAll (qTextKeyEntriesToIterator [] es) = .ok rs ∧
        (es ≠ [] →
          fetchMapKeyType (firstEntryKeyType (qTextKeyEntriesToIterator [] es)) = some K) ∧
        List.Forall₂ (fun r e => fetchedKey K r.1 = e.1 ∧
          TQT_DBusData.operatorEq stale r.2 e.2 = true) rs es
  | [], _, _ => ⟨[], rfl, fun h => absurd rfl h, List.Forall₂.nil⟩
  | (key, v) :: rest, h, hkeys => by
      simp only [transportableEntries, Bool.and_eq_true] at h
      obtain ⟨a, w, he, hf, hr⟩ := value_round_trip stale v h.1
      obtain ⟨rs, hfs, _, hrs⟩ :=
        entries_round_trip stale K rest h.2 (fun e he => hkeys e (List.mem_cons_of_mem _ he))
      obtain ⟨_, arg, harg, hfk, hty⟩ :=
        fetchedKey_textKey K key (hkeys (key, v) (List.mem_cons_self _ _))
      refine ⟨(fetchBasic arg, w) :: rs, ?_, ?_, List.Forall₂.cons ⟨hfk, hr⟩ hrs⟩
      · simp only [qTextKeyEntriesToIterator, harg]
        rw [qTextKeyEntriesToIterator_append rest, qDBusDataToIterator_append v, he]
        simp [fetchEntryAll, fetchEntry, fetchArg, hf, hfs]
      · intro _
        simp only [qTextKeyEntriesToIterator, harg]
        rw [qTextKeyEntriesToIterator_append rest, qDBusDataToIterator_append v, he]
        simpa [firstEntryKeyType, dbus_message_iter_get_arg_type, DBusArg.argType] using hty
end

/-- C11 (the code at the failing inputs). When the element type of an array is itself a
container, the `a` case of `parseSignature` hands the whole rest of the signature
to the recursive call and keeps only the first prototype it returns.  On `aais`
the result is the single prototype list-of-list-of-Int32, on `a(i)s` the single
prototype list-of-struct, on `a{sv}i` the single Map, each with nothing of the
signature left; on `(a(i)s)` it is one Struct with the single member
list-of-struct.  With a simple element type the cursor is right: `ais` gives a
list of Int32 and a String. -/
theorem parseSignature_array_of_container_drops_rest :
    parseSignature "aais".toList =
      .ok ([TQT_DBusData.fromList (TQT_DBusDataList.ofContainerItemType
              (TQT_DBusData.fromList (TQT_DBusDataList.ofType .Int32)))], []) ∧
    parseSignature "a(i)s".toList =
      .ok ([TQT_DBusData.fromList (TQT_DBusDataList.ofContainerItemType
              (TQT_DBusData.fromStruct [TQT_DBusData.fromInt32 0]))], []) ∧
    parseSignature "a\x7bsv\x7di".toList =
      .ok ([TQT_DBusData.fromKeyMap (TQT_DBusDataMap.ofType .String .Variant)], []) ∧
    parseSignature "(a(i)s)".toList =
      .ok ([TQT_DBusData.fromStruct
              [TQT_DBusData.fromList (TQT_DBusDataList.ofContainerItemType
                (TQT_DBusData.fromStruct [TQT_DBusData.fromInt32 0]))]], []) ∧
    ((TQT_DBusData.fromStruct
        [TQT_DBusData.fromList (TQT_DBusDataList.ofContainerItemType
          (TQT_DBusData.fromStruct [TQT_DBusData.fromInt32 0]))]).toStruct none).1.length = 1 ∧
    parseSignature "aais".toList = parseSignature "aai".toList ∧
    parseSignature "a(i)s".toList = parseSignature "a(i)".toList ∧
    parseSignature "a\x7bsv\x7di".toList = parseSignature "a\x7bsv\x7d".toList ∧
    parseSignature "ais".toList =
      .ok ([TQT_DBusData.fromList (TQT_DBusDataList.ofType .Int32),
            TQT_DBusData.fromString ""], []) :=
  ⟨rfl, rfl, rfl, rfl, rfl, rfl, rfl, rfl, rfl⟩

/-- C12 (the code at the failing inputs). On the one-character signatures `b y n q i u x t s`
`parseSignature` returns one prototype of type Bool, Byte, Int16, UInt16, Int32,
UInt32, Int64, UInt64, String.  On `d` the inner switch of the default case has
no Double case, and on `o` and `h` the prototype is made from a default path and
a default handle, which `fromObjectPath` and `fromUnixFd` turn down: on these
three the one prototype returned is Invalid, and so is the result for `(id)`.
As the element of an array or the value of a map the three codes give the
types Double, ObjectPath and UnixFd. -/
theorem parseSignature_single_codes :
    parseSignature ['b'] = .ok ([TQT_DBusData.fromBool false], []) ∧
    parseSignature ['y'] = .ok ([TQT_DBusData.fromByte 0], []) ∧
    parseSignature ['n'] = .ok ([TQT_DBusData.fromInt16 0], []) ∧
    parseSignature ['q'] = .ok ([TQT_DBusData.fromUInt16 0], []) ∧
    parseSignature ['i'] = .ok ([TQT_DBusData.fromInt32 0], []) ∧
    parseSignature ['u'] = .ok ([TQT_DBusData.fromUInt32 0], []) ∧
    parseSignature ['x'] = .ok ([TQT_DBusData.fromInt64 0], []) ∧
    parseSignature ['t'] = .ok ([TQT_DBusData.fromUInt64 0], []) ∧
    parseSignature ['s'] = .ok ([TQT_DBusData.fromString ""], []) ∧
    qSingleTypeForDBusSignature 'd' = .Double ∧
    qSingleTypeForDBusSignature 'o' = .ObjectPath ∧
    qSingleTypeForDBusSignature 'h' = .UnixFd ∧
    parseSignature ['d'] = .ok ([TQT_DBusData.invalid], []) ∧
    parseSignature ['o'] = .ok ([TQT_DBusData.invalid], []) ∧
    parseSignature ['h'] = .ok ([TQT_DBusData.invalid], []) ∧
    TQT_DBusData.invalid.type = .Invalid ∧
    parseSignature "(id)".toList = .ok ([TQT_DBusData.invalid], []) ∧
    parseSignature "ad".toList =
      .ok ([TQT_DBusData.fromList (TQT_DBusDataList.ofType .Double)], []) ∧
    parseSignature "ao".toList =
      .ok ([TQT_DBusData.fromList (TQT_DBusDataList.ofType .ObjectPath)], []) ∧
    parseSignature "a\x7bsh\x7d".toList =
      .ok ([TQT_DBusData.fromKeyMap (TQT_DBusDataMap.ofType .String .UnixFd)], []) :=
  ⟨rfl, rfl, rfl, rfl, rfl, rfl, rfl, rfl, rfl, rfl, rfl, rfl, rfl, rfl, rfl, rfl, rfl, rfl,
   rfl, rfl⟩

/-- C13 (counterexample). A closing bracket ends the call: on `i)`, which the call for the
members of `(i)` is handed, the result is the valid Int32 prototype alone, a
non-empty list of valid prototypes for a part of the input, and the bracket is
left in the caller's variable; the caller of `(i)` makes the Struct of it.
There is no rejecting path at all: on `(i` the result is the one valid
prototype that `(i)` gives and on `a{si` the one that `a{si}` gives (the two
`Q_ASSERT`s on the closing bracket only warn), on `iz` the result holds an
Invalid object for the unknown code, and on `a` the run reads the first
character of the null string that `mid(1)` returned. -/
theorem parseSignature_without_rejection_counterexample :
    parseSignature "i)".toList = .ok ([TQT_DBusData.fromInt32 0], [')']) ∧
    (TQT_DBusData.fromInt32 0).isValid = true ∧
    parseSignature "(i)".toList =
      .ok ([TQT_DBusData.fromStruct [TQT_DBusData.fromInt32 0]], []) ∧
    parseSignature "(i".toList = .ok ([TQT_DBusData.fromStruct [TQT_DBusData.fromInt32 0]], []) ∧
    parseSignature "(i".toList = parseSignature "(i)".toList ∧
    (TQT_DBusData.fromStruct [TQT_DBusData.fromInt32 0]).isValid = true ∧
    parseSignature "a\x7bsi".toList =
      .ok ([TQT_DBusData.fromKeyMap (TQT_DBusDataMap.ofType .String .Int32)], []) ∧
    parseSignature "a\x7bsi".toList = parseSignature "a\x7bsi\x7d".toList ∧
    (TQT_DBusData.fromKeyMap (TQT_DBusDataMap.ofType .String .Int32)).isValid = true ∧
    parseSignature "iz".toList = .ok ([TQT_DBusData.fromInt32 0, TQT_DBusData.invalid], []) ∧
    parseSignature "a".toList = .error .readPastEnd :=
  ⟨rfl, rfl, rfl, rfl, rfl, rfl, rfl, rfl, rfl, rfl, rfl⟩

/-- C13 (amended). On a signature made of single characters that are none of `(`, `)`, `{`, `}`
and `a`, `parseSignature` returns one prototype for every character, in order, and
the Invalid object for every character that is no type code: an unknown code
shows in the result.  A `)` or `}` behind such characters ends the call with the
prototypes read so far and is left in the signature with all that follows it,
and a `(` in front of them with its `)` behind them gives the one object that
`fromStruct` makes of these prototypes, with nothing left of the signature. -/
theorem parseSignature_without_rejection (sig : List Char)
    (h : ∀ c ∈ sig, c ≠ '(' ∧ c ≠ ')' ∧ c ≠ '{' ∧ c ≠ '}' ∧ c ≠ 'a') :
    parseSignature sig =
      .ok (sig.map (fun c => singleTypePrototype (qSingleTypeForDBusSignature c)), []) ∧
    (∀ c ∈ sig, qSingleTypeForDBusSignature c = .Invalid →
      singleTypePrototype (qSingleTypeForDBusSignature c) = TQT_DBusData.invalid) ∧
    (∀ rest : List Char, parseSignature (sig ++ ')' :: rest) =
      .ok (sig.map (fun c => singleTypePrototype (qSingleTypeForDBusSignature c)),
           ')' :: rest)) ∧
    (∀ rest : List Char, parseSignature (sig ++ '}' :: rest) =
      .ok (sig.map (fun c => singleTypePrototype (qSingleTypeForDBusSignature c)),
           '}' :: rest)) ∧
    parseSignature ('(' :: (sig ++ [')'])) =
      .ok ([TQT_DBusData.fromStruct
              (sig.map (fun c => singleTypePrototype (qSingleTypeForDBusSignature c)))], []) := by
  refine ⟨?_, ?_, ?_, ?_, ?_⟩
  · have h0 := parseSignatureLoop_single_codes [] sig 1 [] h
    rw [List.append_nil, Nat.add_comm] at h0
    unfold parseSignature
    rw [Nat.add_comm, Nat.add_comm 1, h0]
    simp [parseSignatureLoop]
  · intro c _ hc
    rw [hc]
    rfl
  · intro rest
    have h0 := parseSignatureLoop_single_codes (')' :: rest) sig (rest.length + 2) [] h
    unfold parseSignature
    have hl : (sig ++ ')' :: rest).length + 1 = rest.length + 2 + sig.length := by
      simp; omega
    rw [hl, h0]
    simp [parseSignatureLoop]
  · intro rest
    have h0 := parseSignatureLoop_single_codes ('}' :: rest) sig (rest.length + 2) [] h
    unfold parseSignature
    have hl : (sig ++ '}' :: rest).length + 1 = rest.length + 2 + sig.length := by
      simp; omega
    rw [hl, h0]
    simp [parseSignatureLoop]
  · unfold parseSignature
    rw [parseSignatureLoop]
    simp only [beq_self_eq_true, if_true, List.drop_succ_cons, List.drop_zero, List.length_cons]
    have h0 := parseSignatureLoop_single_codes [')'] sig 2 [] h
    have hl : (sig ++ [')']).length + 1 = 2 + sig.length := by simp; omega
    rw [hl, h0]
    simp [parseSignatureLoop, parseSignatureLoop_nil]

/-- Witness of C13 (amended): the signatures `iz`, `i)` and `(iz)`. -/
theorem parseSignature_without_rejection_witness :
    parseSignature ['i', 'z'] = .ok ([TQT_DBusData.fromInt32 0, TQT_DBusData.invalid], []) ∧
    parseSignature ['i', ')'] = .ok ([TQT_DBusData.fromInt32 0], [')']) ∧
    parseSignature ['(', 'i', 'z', ')'] = .ok ([TQT_DBusData.invalid], []) :=
  ⟨(parseSignature_without_rejection ['i', 'z'] (by decide)).1,
   (parseSignature_without_rejection ['i'] (by decide)).2.2.1 [],
   (parseSignature_without_rejection ['i', 'z'] (by decide)).2.2.2.2⟩

/-! ## Decoding a message -/

/-- C15 (the code at the failing inputs). The only `return false` of `TQT_DBusDataMap<T>::insert` is
the one for Invalid data; both branches that only warn fall through to the
final `return true`.  So the returned flag is true for every valid data: also
for a String put into a String-keyed map of Int32, and for a list of String
put into a map whose value prototype is a list of Int32, both of which leave
the map as it was. -/
theorem insert_reports_true_when_rejected :
    (∀ (m : TQT_DBusDataMap) (key : MapKey) (data : TQT_DBusData),
      (m.insert key data).2 = (data.type != .Invalid)) ∧
    (TQT_DBusDataMap.ofTQMap .String [(.string "a", TQT_DBusData.fromInt32 1)]).insert
        (.string "b") (TQT_DBusData.fromString "x") =
      (TQT_DBusDataMap.ofTQMap .String [(.string "a", TQT_DBusData.fromInt32 1)], true) ∧
    (TQT_DBusDataMap.ofType .String .Int32).insert (.string "b") (TQT_DBusData.fromString "x") =
      (TQT_DBusDataMap.ofType .String .Int32, true) ∧
    (TQT_DBusDataMap.ofContainerValueType .String
        (TQT_DBusData.fromList (TQT_DBusDataList.ofType .Int32))).insert (.string "b")
        (TQT_DBusData.fromList (TQT_DBusDataList.ofType .String)) =
      (TQT_DBusDataMap.ofContainerValueType .String
        (TQT_DBusData.fromList (TQT_DBusDataList.ofType .Int32)), true) ∧
    (TQT_DBusDataMap.ofType .String .Int32).insert (.string "b") TQT_DBusData.invalid =
      (TQT_DBusDataMap.ofType .String .Int32, false) ∧
    (TQT_DBusDataMap.ofType .String .Int32).insert (.string "b") (TQT_DBusData.fromInt32 2) =
      (⟨.String, .Int32, TQT_DBusData.invalid, [(.string "b", TQT_DBusData.fromInt32 2)]⟩,
       true) := by
  refine ⟨?_, rfl, rfl, rfl, rfl, rfl⟩
  intro m key data
  unfold TQT_DBusDataMap.insert
  by_cases h : data.type = .Invalid
  · simp [h]
  · simp only [beq_iff_eq, h, if_false]
    split
    · simp [h]
    · split
      · simp [h]
      · split
        · split <;> simp [h]
        · simp [h]

/-- C16 (the code at the failing input). The guard of the keyed-map accessors is
`type != Map && keyType != m_keyType`, so they fail for the objects that are not
Maps and for no Map: `toByteKeyMap` on a String-keyed Map sets the flag to true,
as every accessor of a key kind `K` does on every Map. -/
theorem toKeyMap_accepts_other_key_kind :
    (TQT_DBusData.fromKeyMap (TQT_DBusDataMap.ofType .String .Int32)).type = .Map ∧
    (TQT_DBusData.fromKeyMap (TQT_DBusDataMap.ofType .String .Int32)).keyType = .String ∧
    ((TQT_DBusData.fromKeyMap (TQT_DBusDataMap.ofType .String .Int32)).toKeyMap .Byte
        (some false)).2 = some true ∧
    (∀ (K k : MapKeyType) (vt : TQT_DBusType) (c : TQT_DBusData)
        (es : List (MapKey × TQT_DBusData)) (ok : Option Bool),
      ((TQT_DBusData.map k vt c es).toKeyMap K ok).2 = setOk ok true) ∧
    (∀ (K : MapKeyType),
      (TQT_DBusData.fromString "x").toKeyMap K (some true) =
        (TQT_DBusDataMap.default K, some false)) :=
  ⟨rfl, rfl, rfl, fun _ _ _ _ _ _ => rfl, fun _ => rfl⟩

/-- C17 (the code at the failing input). The factories `fromByteKeyMap` ... `fromUnixFdKeyMap` set
the type to Map without looking at the map: for every key kind the object made
from a default-constructed map is a valid object of type Map whose map has the
value type Invalid; `fromList` on a default-constructed list gives the Invalid
object. -/
theorem fromKeyMap_keeps_untyped_map :
    (∀ K : MapKeyType,
      (TQT_DBusData.fromKeyMap (TQT_DBusDataMap.default K)).type = .Map ∧
      (TQT_DBusData.fromKeyMap (TQT_DBusDataMap.default K)).isValid = true ∧
      (TQT_DBusData.fromKeyMap (TQT_DBusDataMap.default K)).keyType = K.toType ∧
      (TQT_DBusDataMap.default K).valueType = .Invalid ∧
      ((TQT_DBusData.fromKeyMap (TQT_DBusDataMap.default K)).toKeyMap K (some false)) =
        (TQT_DBusDataMap.default K, some true)) ∧
    (∀ m : TQT_DBusDataMap, (TQT_DBusData.fromKeyMap m).type = .Map) ∧
    TQT_DBusData.fromList TQT_DBusDataList.default = TQT_DBusData.invalid :=
  ⟨fun _ => ⟨rfl, rfl, rfl, rfl, rfl⟩, fun _ => rfl, rfl⟩

/-! ## List wrapping -/

/-- C19 (the code at the failing input). The accessor `toTQValueList` writes the caller's flag
only when the object is not a List.  On a List it returns the elements and
leaves the flag as it was: a flag that held false before the call holds false
after it.  On any other object the flag is set to false and the result is the
empty list. -/
theorem toTQValueList_leaves_flag_on_success :
    (TQT_DBusData.fromList (TQT_DBusDataList.ofBoolList [true, false])).type = .List ∧
    (TQT_DBusData.fromList (TQT_DBusDataList.ofBoolList [true, false])).toTQValueList
        (some false) =
      ([TQT_DBusData.fromBool true, TQT_DBusData.fromBool false], some false) ∧
    (TQT_DBusData.fromList (TQT_DBusDataList.ofBoolList [true, false])).toList (some false) =
      (TQT_DBusDataList.ofBoolList [true, false], some true) ∧
    (∀ (t : TQT_DBusType) (c : TQT_DBusData) (items : List TQT_DBusData) (ok : Option Bool),
      (TQT_DBusData.list t c items).toTQValueList ok = (items, ok)) ∧
    (TQT_DBusData.fromString "x").toTQValueList (some true) = ([], some false) :=
  ⟨rfl, rfl, rfl, fun _ _ _ _ => rfl, rfl⟩

theorem ofTQValueList_cons (first : TQT_DBusData) (rest : List TQT_DBusData) :
    (Homogeneous first (first :: rest) →
      TQT_DBusDataList.ofTQValueList (first :: rest) =
        ⟨first.type, if isContainerType first.type then first else TQT_DBusData.invalid,
         first :: rest⟩) ∧
    (¬ Homogeneous first (first :: rest) →
      TQT_DBusDataList.ofTQValueList (first :: rest) = TQT_DBusDataList.default) := by
  have hl : TQT_DBusDataList.restMatches first.type
        (if isContainerType first.type then
          (if isContainerType first.type then first else TQT_DBusData.invalid).buildDBusSignature
         else []) rest = true ↔ Homogeneous first (first :: rest) := by
    rw [homogeneous_cons_iff, list_restMatches_iff]
    unfold Homogeneous
    by_cases hc : isContainerType first.type = true <;> simp [hc]
  constructor
  · intro h
    simp only [TQT_DBusDataList.ofTQValueList]
    rw [if_pos (hl.2 h)]
  · intro h
    simp only [TQT_DBusDataList.ofTQValueList]
    rw [if_neg (fun hh => h (hl.1 hh))]
    rfl

/-- C18 (amended). The object `fromList(l)` is Invalid exactly when `l.type()` is Invalid, and
otherwise a List holding `l`, so an empty list with a declared element type gives
a valid List of that element type.  The object `fromTQValueList(L)` is Invalid when
`L` is empty, when its first element is Invalid, or when not every element has
the type of the first one and, for the types List, Struct and Map, also its
signature (in particular when two elements differ in type); otherwise it is a
List of the first element's type holding the elements of `L` in order. -/
theorem list_wrapping (l : TQT_DBusDataList) (first : TQT_DBusData)
    (rest : List TQT_DBusData) (ok : Option Bool) :
    ((TQT_DBusData.fromList l).type = .Invalid ↔ l.type = .Invalid) ∧
    (l.type ≠ .Invalid →
      (TQT_DBusData.fromList l).type = .List ∧
      (TQT_DBusData.fromList l).toList ok = (l, setOk ok true)) ∧
    (∀ t : TQT_DBusType, t ≠ .Invalid →
      (TQT_DBusData.fromList (TQT_DBusDataList.ofType t)).type = .List ∧
      ((TQT_DBusData.fromList (TQT_DBusDataList.ofType t)).toList ok).1.type = t ∧
      ((TQT_DBusData.fromList (TQT_DBusDataList.ofType t)).toList ok).1.count = 0) ∧
    TQT_DBusData.fromTQValueList [] = TQT_DBusData.invalid ∧
    (first.isValid = true → Homogeneous first (first :: rest) →
      (TQT_DBusData.fromTQValueList (first :: rest)).type = .List ∧
      ((TQT_DBusData.fromTQValueList (first :: rest)).toList ok).1.type = first.type ∧
      ((TQT_DBusData.fromTQValueList (first :: rest)).toList ok).1.toTQValueList =
        first :: rest ∧
      ((TQT_DBusData.fromTQValueList (first :: rest)).toTQValueList ok).1 = first :: rest) ∧
    (first.isValid = false → TQT_DBusData.fromTQValueList (first :: rest) = TQT_DBusData.invalid) ∧
    (¬ Homogeneous first (first :: rest) →
      TQT_DBusData.fromTQValueList (first :: rest) = TQT_DBusData.invalid) ∧
    ((∃ x ∈ rest, x.type ≠ first.type) →
      TQT_DBusData.fromTQValueList (first :: rest) = TQT_DBusData.invalid) := by
  have hbad : ¬ Homogeneous first (first :: rest) →
      TQT_DBusData.fromTQValueList (first :: rest) = TQT_DBusData.invalid := by
    intro h
    unfold TQT_DBusData.fromTQValueList
    rw [(ofTQValueList_cons first rest).2 h]
    rfl
  refine ⟨?_, ?_, ?_, rfl, ?_, ?_, hbad, ?_⟩
  · unfold TQT_DBusData.fromList
    by_cases h : l.type = .Invalid
    · simp [h, TQT_DBusData.type]
    · simp [h, TQT_DBusData.type]
  · intro h
    have : (l.type == TQT_DBusType.Invalid) = false := by simpa using h
    simp only [TQT_DBusData.fromList, this]
    exact ⟨rfl, rfl⟩
  · intro t ht
    have : (t == TQT_DBusType.Invalid) = false := by simpa using ht
    simp only [TQT_DBusData.fromList, TQT_DBusDataList.ofType, this]
    exact ⟨rfl, rfl, rfl⟩
  · intro hv hh
    have hv2 : (first.type == TQT_DBusType.Invalid) = false := by
      simpa [TQT_DBusData.isValid] using hv
    unfold TQT_DBusData.fromTQValueList
    rw [(ofTQValueList_cons first rest).1 hh]
    simp only [TQT_DBusData.fromList, hv2]
    exact ⟨rfl, rfl, rfl, rfl⟩
  · intro hv
    have hv2 : first.type = .Invalid := by
      simpa [TQT_DBusData.isValid] using hv
    by_cases hh : Homogeneous first (first :: rest)
    · unfold TQT_DBusData.fromTQValueList
      rw [(ofTQValueList_cons first rest).1 hh]
      simp [TQT_DBusData.fromList, hv2]
    · exact hbad hh
  · rintro ⟨x, hx, hne⟩
    apply hbad
    intro hh
    exact hne (hh x (List.mem_cons_of_mem _ hx)).1

/-- Witness of C18 (amended): the Int32 values 1 and 2, and a list declared with the element
type String. -/
theorem list_wrapping_witness :
    (TQT_DBusData.fromTQValueList [TQT_DBusData.fromInt32 1, TQT_DBusData.fromInt32 2]).type
      = .List ∧
    ((TQT_DBusData.fromTQValueList
        [TQT_DBusData.fromInt32 1, TQT_DBusData.fromInt32 2]).toList (some false)).1.toTQValueList
      = [TQT_DBusData.fromInt32 1, TQT_DBusData.fromInt32 2] ∧
    (TQT_DBusData.fromList (TQT_DBusDataList.ofType .String)).type = .List ∧
    TQT_DBusData.fromTQValueList [TQT_DBusData.fromInt32 1, TQT_DBusData.fromString "x"] =
      TQT_DBusData.invalid :=
  have h := list_wrapping (TQT_DBusDataList.ofType .String) (TQT_DBusData.fromInt32 1)
    [TQT_DBusData.fromInt32 2] (some false)
  have h2 := list_wrapping (TQT_DBusDataList.ofType .String) (TQT_DBusData.fromInt32 1)
    [TQT_DBusData.fromString "x"] (some false)
  have hh : Homogeneous (TQT_DBusData.fromInt32 1)
      [TQT_DBusData.fromInt32 1, TQT_DBusData.fromInt32 2] := by
    simp [Homogeneous, TQT_DBusData.fromInt32, TQT_DBusData.type, isContainerType]
  ⟨(h.2.2.2.2.1 (by decide) hh).1, (h.2.2.2.2.1 (by decide) hh).2.2.1,
   (h.2.1 (by decide)).1,
   h2.2.2.2.2.2.2.2 ⟨TQT_DBusData.fromString "x", List.mem_singleton.2 rfl, by decide⟩⟩

/-- C18 (counterexample). A list of Int32 and a list of String are both of type List, so the
two elements have the same type, and yet `fromTQValueList` of the two is the
Invalid object: the constructor of the list also compares the signatures of
container elements.  A sequence of Invalid objects has elements of one type as
well and gives the Invalid object. -/
theorem list_wrapping_counterexample :
    (∀ x ∈ [TQT_DBusData.fromList (TQT_DBusDataList.ofType .Int32),
            TQT_DBusData.fromList (TQT_DBusDataList.ofType .String)],
      x.type = TQT_DBusType.List) ∧
    TQT_DBusData.fromTQValueList
        [TQT_DBusData.fromList (TQT_DBusDataList.ofType .Int32),
         TQT_DBusData.fromList (TQT_DBusDataList.ofType .String)] = TQT_DBusData.invalid ∧
    (TQT_DBusData.fromList (TQT_DBusDataList.ofType .Int32)).buildDBusSignature = "ai".toList ∧
    (TQT_DBusData.fromList (TQT_DBusDataList.ofType .String)).buildDBusSignature = "as".toList ∧
    (∀ x ∈ [TQT_DBusData.invalid, TQT_DBusData.invalid], x.type = TQT_DBusType.Invalid) ∧
    TQT_DBusData.fromTQValueList [TQT_DBusData.invalid, TQT_DBusData.invalid] =
      TQT_DBusData.invalid := by
  refine ⟨?_, rfl, rfl, rfl, ?_, rfl⟩
  · intro x hx
    simp only [List.mem_cons, List.mem_singleton, List.not_mem_nil, or_false] at hx
    rcases hx with rfl | rfl <;> rfl
  · intro x hx
    simp only [List.mem_cons, List.mem_singleton, List.not_mem_nil, or_false] at hx
    rcases hx with rfl | rfl <;> rfl

/-! ## Structs of Int32 members -/

theorem fromStruct_int32 (vs : List Int) :
    TQT_DBusData.fromStruct (vs.map TQT_DBusData.fromInt32) =
      TQT_DBusData.struct (vs.map TQT_DBusData.int32) := by
  have h : (vs.map TQT_DBusData.fromInt32).any (fun m => m.type == .Invalid) = false := by
    rw [List.any_eq_false]
    intro x hx
    obtain ⟨v, _, rfl⟩ := List.mem_map.1 hx
    simp [TQT_DBusData.fromInt32, TQT_DBusData.type]
  simp only [TQT_DBusData.fromStruct, h]
  rfl

theorem buildMemberSignatures_int32 (vs : List Int) :
    buildMemberSignatures (vs.map TQT_DBusData.int32) = List.replicate vs.length 'i' := by
  induction vs with
  | nil => rfl
  | cons v rest ih =>
      simp only [List.map_cons, buildMemberSignatures, ih, TQT_DBusData.buildDBusSignature,
        qDBusTypeForTQT_DBusType, List.length_cons, List.replicate_succ]
      rfl

theorem qListItemsToIterator_int32 (vs : List Int) :
    qListItemsToIterator [] (vs.map TQT_DBusData.int32) =
      vs.map (fun v => DBusArg.basic (.int32 v)) := by
  induction vs with
  | nil => rfl
  | cons v rest ih =>
      simp only [List.map_cons, qListItemsToIterator]
      rw [qListItemsToIterator_append, ih]
      rfl

theorem fetchAll_int32 (vs : List Int) :
    fetchAll (vs.map (fun v => DBusArg.basic (.int32 v))) =
      .ok (vs.map TQT_DBusData.int32) := by
  induction vs with
  | nil => simp [fetchAll]
  | cons v rest ih => simp [fetchAll, fetchArg, fetchBasic, TQT_DBusData.fromInt32, ih]

/-- C20. For every non-empty sequence of Int32 values, the object `fromStruct` builds from
them is a Struct whose signature is `(`, one `i` for every member, `)`; its
encoding is one struct of the Int32 values; and decoding that encoding gives
one value, a Struct on which `toStruct` succeeds with as many members as there
were values, every member of type Int32, holding the values in their order. -/
theorem struct_of_int32_round_trip (vs : List Int) (ok : Option Bool) (hne : vs ≠ []) :
    (TQT_DBusData.fromStruct (vs.map TQT_DBusData.fromInt32)).type = .Struct ∧
    (TQT_DBusData.fromStruct (vs.map TQT_DBusData.fromInt32)).buildDBusSignature =
      '(' :: (List.replicate vs.length 'i' ++ [')']) ∧
    listToMessage [TQT_DBusData.fromStruct (vs.map TQT_DBusData.fromInt32)] [] =
      [.struct (vs.map (fun v => DBusArg.basic (.int32 v)))] ∧
    ∃ d, messageToList []
          (listToMessage [TQT_DBusData.fromStruct (vs.map TQT_DBusData.fromInt32)] []) =
        .ok [d] ∧
      d.type = .Struct ∧
      (d.toStruct ok).2 = setOk ok true ∧
      (d.toStruct ok).1.length = vs.length ∧
      (∀ m ∈ (d.toStruct ok).1, m.type = .Int32) ∧
      (d.toStruct ok).1.map (fun m => (m.toInt32 none).1) = vs ∧
      (d.toStruct ok).1 = vs.map TQT_DBusData.fromInt32 := by
  have hmsg : listToMessage [TQT_DBusData.fromStruct (vs.map TQT_DBusData.fromInt32)] [] =
      [.struct (vs.map (fun v => DBusArg.basic (.int32 v)))] := by
    have he : (vs.map TQT_DBusData.int32).isEmpty = false := by
      cases vs with
      | nil => exact absurd rfl hne
      | cons v rest => rfl
    rw [fromStruct_int32]
    simp [listToMessage, qListToIterator, qListItemsToIterator, qDBusDataToIterator, he,
      qListItemsToIterator_int32]
  refine ⟨?_, ?_, hmsg, TQT_DBusData.struct (vs.map TQT_DBusData.int32), ?_, rfl, rfl, ?_, ?_, ?_,
    rfl⟩
  · rw [fromStruct_int32]; rfl
  · rw [fromStruct_int32]
    simp only [TQT_DBusData.buildDBusSignature, buildMemberSignatures_int32]
  · rw [hmsg]
    have hs : TQT_DBusData.fromStruct (vs.map TQT_DBusData.int32) =
        TQT_DBusData.struct (vs.map TQT_DBusData.int32) := fromStruct_int32 vs
    simp [messageToList, fetchAll, fetchArg, fetchAll_int32, hs]
  · simp [TQT_DBusData.toStruct]
  · intro m hm
    simp only [TQT_DBusData.toStruct] at hm
    obtain ⟨v, _, rfl⟩ := List.mem_map.1 hm
    rfl
  · simp only [TQT_DBusData.toStruct, List.map_map]
    conv_rhs => rw [← List.map_id vs]
    apply List.map_congr_left
    intro v _
    rfl

/-- Witness of C20: the members 0, 0, 640, 480 and the signature `(iiii)`. -/
theorem struct_of_int32_round_trip_witness :
    (TQT_DBusData.fromStruct
        [TQT_DBusData.fromInt32 0, TQT_DBusData.fromInt32 0, TQT_DBusData.fromInt32 640,
         TQT_DBusData.fromInt32 480]).buildDBusSignature = "(iiii)".toList ∧
    ∃ d, messageToList []
          (listToMessage
            [TQT_DBusData.fromStruct
              [TQT_DBusData.fromInt32 0, TQT_DBusData.fromInt32 0, TQT_DBusData.fromInt32 640,
               TQT_DBusData.fromInt32 480]] []) = .ok [d] ∧
      (d.toStruct (some false)).2 = some true ∧
      (d.toStruct (some false)).1.map (fun m => (m.toInt32 none).1) = [0, 0, 640, 480] :=
  have h := struct_of_int32_round_trip [0, 0, 640, 480] (some false) (by decide)
  ⟨h.2.1, h.2.2.2.elim (fun d hd => ⟨d, hd.1, hd.2.2.1, hd.2.2.2.2.2.1⟩)⟩

/-! ## String-keyed maps of Int32 -/

theorem qTextKeyEntriesToIterator_string_int32 (entries : List (String × Int))
    (hkeys : ∀ e ∈ entries, noNul e.1 = true) :
    qTextKeyEntriesToIterator []
        (entries.map (fun e => (MapKey.string e.1, TQT_DBusData.int32 e.2))) =
      entries.map (fun e =>
        DBusArg.dictEntry [.basic (.string e.1.toList), .basic (.int32 e.2)]) := by
  induction entries with
  | nil => rfl
  | cons e rest ih =>
      simp only [List.map_cons, qTextKeyEntriesToIterator]
      rw [qTextKeyEntriesToIterator_append, ih (fun x hx => hkeys x (List.mem_cons_of_mem _ hx))]
      simp [qDBusDataToIterator, textKeyToIterator,
        utf8CString_of_noNul e.1 (hkeys e (List.mem_cons_self _ _))]

theorem fetchEntryAll_string_int32 (entries : List (String × Int)) :
    fetchEntryAll (entries.map (fun e =>
        DBusArg.dictEntry [.basic (.string e.1.toList), .basic (.int32 e.2)])) =
      .ok (entries.map (fun e => (TQT_DBusData.string e.1, TQT_DBusData.int32 e.2))) := by
  induction entries with
  | nil => simp [fetchEntryAll]
  | cons e rest ih =>
      simp only [List.map_cons, fetchEntryAll, fetchEntry, fetchArg, fetchBasic,
        TQT_DBusData.fromString, TQT_DBusData.fromInt32, ih]
      rfl

/-- C21 (amended). For every String-keyed map with the value type Int32 whose keys hold no NUL
character (its entries in key order, as a `TQMap` keeps them; the map may be
empty), the Map object has the signature `a{si}`, its encoding is one array of
dict entries, and decoding that encoding gives exactly one value: the Map
object with key type String, value type Int32 and the same entries. -/
theorem string_int32_map_round_trip (entries : List (String × Int)) (ok : Option Bool)
    (hkeys : ∀ e ∈ entries, noNul e.1 = true)
    (hsorted : keysIncreasing
      (entries.map (fun e => (MapKey.string e.1, TQT_DBusData.int32 e.2))) = true) :
    (TQT_DBusData.fromKeyMap ⟨.String, .Int32, TQT_DBusData.invalid,
        entries.map (fun e => (MapKey.string e.1, TQT_DBusData.int32 e.2))⟩).buildDBusSignature
      = ['a', '{', 's', 'i', '}'] ∧
    ∃ d, messageToList []
          (listToMessage [TQT_DBusData.fromKeyMap ⟨.String, .Int32, TQT_DBusData.invalid,
            entries.map (fun e => (MapKey.string e.1, TQT_DBusData.int32 e.2))⟩] []) = .ok [d] ∧
      d.type = .Map ∧ d.keyType = .String ∧
      d.toKeyMap .String ok =
        (⟨.String, .Int32, TQT_DBusData.invalid,
          entries.map (fun e => (MapKey.string e.1, TQT_DBusData.int32 e.2))⟩, setOk ok true) ∧
      (d.toKeyMap .String ok).1.valueType = .Int32 ∧
      (d.toKeyMap .String ok).1.toTQMap =
        entries.map (fun e => (MapKey.string e.1, TQT_DBusData.fromInt32 e.2)) := by
  refine ⟨rfl, TQT_DBusData.map .String .Int32 TQT_DBusData.invalid
    (entries.map (fun (e : String × Int) => (MapKey.string e.1, TQT_DBusData.int32 e.2))),
    ?_, rfl, rfl, rfl, rfl, rfl⟩
  have henc : listToMessage [TQT_DBusData.fromKeyMap ⟨.String, .Int32, TQT_DBusData.invalid,
      entries.map (fun e => (MapKey.string e.1, TQT_DBusData.int32 e.2))⟩] [] =
      [.array ['{', 's', 'i', '}'] (entries.map (fun e =>
        DBusArg.dictEntry [.basic (.string e.1.toList), .basic (.int32 e.2)]))] := by
    simp only [listToMessage, qListToIterator, qListItemsToIterator, TQT_DBusData.fromKeyMap,
      qDBusDataToIterator, qTextKeyEntriesToIterator_string_int32 entries hkeys]
    rfl
  have hproto : arrayPrototype ['{', 's', 'i', '}'] =
      .ok (TQT_DBusData.map .String .Int32 TQT_DBusData.invalid []) := rfl
  rw [henc]
  simp only [messageToList, fetchAll, fetchArg, hproto, fetchEntryAll_string_int32]
  cases entries with
  | nil => rfl
  | cons e rest =>
      have hfirst : firstEntryKeyType ((e :: rest).map (fun e =>
          DBusArg.dictEntry [.basic (.string e.1.toList), .basic (.int32 e.2)])) = 's' := rfl
      have hpw := keysIncreasing_pairwise _ hsorted
      have hfe := fetchMapEntries_typed .String .Int32 TQT_DBusData.invalid (by decide)
        ((e :: rest).map (fun e => (TQT_DBusData.string e.1, TQT_DBusData.int32 e.2)))
        ((e :: rest).map (fun e => MapKey.string e.1)) []
        (by simp)
        (by
          intro r hr
          obtain ⟨x, _, rfl⟩ := List.mem_map.1 hr
          rfl)
        (by
          rw [List.forall₂_map_left_iff, List.forall₂_map_right_iff]
          exact List.forall₂_same.2 (fun x _ => rfl))
        (by simp)
        (by simpa [List.map_map, Function.comp] using hpw)
      have hzip : ((e :: rest).map (fun e => MapKey.string e.1)).zip
          (((e :: rest).map (fun e => (TQT_DBusData.string e.1, TQT_DBusData.int32 e.2))).map
            Prod.snd) =
          (e :: rest).map (fun e => (MapKey.string e.1, TQT_DBusData.int32 e.2)) := by
        rw [List.map_map, List.zip_map_left, List.zip_map_right]
        generalize (e :: rest) = l
        induction l with
        | nil => rfl
        | cons x xs ih => simp [ih]
      simp only [hfirst, qFetchMap, TQT_DBusData.toKeyMap]
      have hk : fetchMapKeyType 's' = some .String := rfl
      have hz : ('s' == '\x00') = false := rfl
      simp only [hk, hz, Bool.false_eq_true, if_false]
      rw [hfe, hzip]
      rfl

/-- Witness of C21 (amended): the map from `a` to 1 and from `b` to 2, and the empty map with
the declared value type Int32. -/
theorem string_int32_map_round_trip_witness :
    (TQT_DBusData.fromKeyMap (TQT_DBusDataMap.ofTQMap .String
        [(.string "a", TQT_DBusData.fromInt32 1),
         (.string "b", TQT_DBusData.fromInt32 2)])).buildDBusSignature = "a\x7bsi\x7d".toList ∧
    (∃ d, messageToList []
          (listToMessage [TQT_DBusData.fromKeyMap (TQT_DBusDataMap.ofTQMap .String
            [(.string "a", TQT_DBusData.fromInt32 1),
             (.string "b", TQT_DBusData.fromInt32 2)])] []) = .ok [d] ∧
      (d.toKeyMap .String (some false)).2 = some true ∧
      (d.toKeyMap .String (some false)).1.toTQMap =
        [(.string "a", TQT_DBusData.fromInt32 1), (.string "b", TQT_DBusData.fromInt32 2)]) ∧
    (∃ d, messageToList []
          (listToMessage [TQT_DBusData.fromKeyMap (TQT_DBusDataMap.ofType .String .Int32)] []) =
        .ok [d] ∧
      d.keyType = .String ∧
      (d.toKeyMap .String none).1.valueType = .Int32 ∧
      (d.toKeyMap .String none).1.toTQMap = []) :=
  have h := string_int32_map_round_trip [("a", 1), ("b", 2)] (some false) (by decide) (by decide)
  have h0 := string_int32_map_round_trip [] none (by decide) (by decide)
  ⟨h.1,
   h.2.elim (fun d hd => ⟨d, hd.1, congrArg Prod.snd hd.2.2.2.1, hd.2.2.2.2.2⟩),
   h0.2.elim (fun d hd => ⟨d, hd.1, hd.2.2.1, hd.2.2.2.2.1, hd.2.2.2.2.2⟩)⟩

/-- C21 (counterexample). A `TQString` key may hold a NUL character, and the key reaches the bus
library as a `const char*`: the String-keyed map of Int32 with the one key `a`,
NUL, `b` is decoded as the map with the one key `a`, which is another key. -/
theorem string_int32_map_round_trip_counterexample :
    (TQT_DBusData.fromKeyMap (TQT_DBusDataMap.ofTQMap .String
        [(.string (String.mk ['a', '\x00', 'b']), TQT_DBusData.fromInt32 1)])).buildDBusSignature
      = "a\x7bsi\x7d".toList ∧
    (TQT_DBusDataMap.ofTQMap .String
        [(.string (String.mk ['a', '\x00', 'b']), TQT_DBusData.fromInt32 1)]).valueType
      = .Int32 ∧
    messageToList []
        (listToMessage [TQT_DBusData.fromKeyMap (TQT_DBusDataMap.ofTQMap .String
          [(.string (String.mk ['a', '\x00', 'b']), TQT_DBusData.fromInt32 1)])] []) =
      .ok [TQT_DBusData.fromKeyMap (TQT_DBusDataMap.ofTQMap .String
          [(.string "a", TQT_DBusData.fromInt32 1)])] ∧
    MapKey.string "a" ≠ MapKey.string (String.mk ['a', '\x00', 'b']) :=
  ⟨rfl, rfl, rfl, by decide⟩

/-! ## Errors -/

theorem tqmap_find_eq_none {κ α : Type} [DecidableEq κ] (key : κ) (m : List (κ × α))
    (h : ∀ e ∈ m, e.1 ≠ key) : TQMap.find key m = none := by
  induction m with
  | nil => rfl
  | cons e rest ih =>
      obtain ⟨k, v⟩ := e
      have hk : ¬ k = key := h (k, v) (List.mem_cons_self _ _)
      simp only [TQMap.find, hk, if_false]
      exact ih (fun x hx => h x (List.mem_cons_of_mem _ hx))

theorem errorTypesByName_keys :
    ∀ e ∈ qDBusErrorSetupNameMapping,
      ∃ t ∈ standardErrorTypes, e.1 = qDBusErrorNameForType t := by
  decide

theorem qDBusErrorTypeForName_standard :
    ∀ t ∈ standardErrorTypes, qDBusErrorTypeForName (qDBusErrorNameForType t) = t := by
  decide

theorem ofTypeMessage_rebuilt (t : TQT_DBusError.ErrorType) (message : String)
    (ht : t ∈ standardErrorTypes) :
    (TQT_DBusError.ofNameMessage (TQT_DBusError.ofTypeMessage t message).name
        (TQT_DBusError.ofTypeMessage t message).message).type =
      (TQT_DBusError.ofTypeMessage t message).type :=
  qDBusErrorTypeForName_standard t ht

/-- C22. An error built from the standard name of a kind from Failed through InvalidSignature
and any message has that kind as its type, so the standard names are pairwise
distinct; an error of a `std...` factory, built again from its name and message,
has the same type; an error built from any other non-empty name has the type
UserDefined; an error built from the empty name has the type InvalidError. -/
theorem error_classification_by_name (name message : String) :
    (∀ t ∈ standardErrorTypes,
      (TQT_DBusError.ofNameMessage (qDBusErrorNameForType t) message).type = t) ∧
    (∀ t : TQT_DBusError.ErrorType, t ∈ standardErrorTypes ↔ (t ≠ .InvalidError ∧ t ≠ .UserDefined)) ∧
    (∀ t ∈ standardErrorTypes, ∀ u ∈ standardErrorTypes,
      qDBusErrorNameForType t = qDBusErrorNameForType u → t = u) ∧
    (∀ e ∈ [TQT_DBusError.stdFailed message, TQT_DBusError.stdNoMemory message,
            TQT_DBusError.stdNoReply message, TQT_DBusError.stdIOError message,
            TQT_DBusError.stdNotSupported message, TQT_DBusError.stdLimitsExceeded message,
            TQT_DBusError.stdAccessDenied message, TQT_DBusError.stdAuthFailed message,
            TQT_DBusError.stdTimeout message, TQT_DBusError.stdInvalidArgs message,
            TQT_DBusError.stdFileNotFound message, TQT_DBusError.stdFileExists message,
            TQT_DBusError.stdUnknownMethod message, TQT_DBusError.stdInvalidSignature message],
      (TQT_DBusError.ofNameMessage e.name e.message).type = e.type ∧ e.message = message) ∧
    (name.isEmpty = false → (∀ t ∈ standardErrorTypes, name ≠ qDBusErrorNameForType t) →
      (TQT_DBusError.ofNameMessage name message).type = .UserDefined) ∧
    (name.isEmpty = true → (TQT_DBusError.ofNameMessage name message).type = .InvalidError) := by
  refine ⟨?_, ?_, ?_, ?_, ?_, ?_⟩
  · intro t ht
    exact qDBusErrorTypeForName_standard t ht
  · intro t
    cases t <;> decide
  · intro t ht u hu h
    have h1 := qDBusErrorTypeForName_standard t ht
    have h2 := qDBusErrorTypeForName_standard u hu
    rw [h] at h1
    exact h1.symm.trans h2
  · intro e he
    simp only [List.mem_cons, List.mem_singleton, List.not_mem_nil, or_false] at he
    rcases he with h | h | h | h | h | h | h | h | h | h | h | h | h | h <;> subst h <;>
      exact ⟨ofTypeMessage_rebuilt _ message (by decide), rfl⟩
  · intro hne hother
    show qDBusErrorTypeForName name = .UserDefined
    unfold qDBusErrorTypeForName
    rw [hne]
    have hnone : TQMap.find name qDBusErrorSetupNameMapping = none := by
      apply tqmap_find_eq_none
      intro e he heq
      obtain ⟨t, ht, hname⟩ := errorTypesByName_keys e he
      exact hother t ht (heq.symm.trans hname)
    simp [hnone]
  · intro he
    show qDBusErrorTypeForName name = .InvalidError
    unfold qDBusErrorTypeForName
    simp [he]

/-- Witness of C22: the name `com.example.Error` is none of the standard names. -/
theorem error_classification_by_name_witness :
    (TQT_DBusError.ofNameMessage "org.freedesktop.DBus.Error.TimedOut" "late").type = .TimedOut ∧
    (TQT_DBusError.ofNameMessage "com.example.Error" "boom").type = .UserDefined ∧
    (TQT_DBusError.ofNameMessage "" "boom").type = .InvalidError :=
  have h := error_classification_by_name "com.example.Error" "boom"
  have h2 := error_classification_by_name "" "boom"
  have h3 := error_classification_by_name "" "late"
  ⟨h3.1 .TimedOut (by decide), h.2.2.2.2.1 (by decide) (by decide), h2.2.2.2.2.2 (by decide)⟩

theorem qDBusErrorNameForType_standard_nonempty :
    ∀ t ∈ standardErrorTypes, (qDBusErrorNameForType t).isEmpty = false := by
  decide

theorem qDBusErrorTypeForName_invalid_iff (name : String) :
    qDBusErrorTypeForName name = .InvalidError ↔ name.isEmpty = true := by
  unfold qDBusErrorTypeForName
  by_cases h : name.isEmpty = true
  · simp [h]
  · simp only [h, Bool.false_eq_true, if_false, iff_false]
    cases hf : TQMap.find name qDBusErrorSetupNameMapping with
    | none => simp
    | some t =>
        simp only
        intro ht
        subst ht
        have hall : ∀ e ∈ qDBusErrorSetupNameMapping, e.2 ≠ TQT_DBusError.ErrorType.InvalidError := by
          decide
        have hmem : ∀ (m : List (String × TQT_DBusError.ErrorType)),
            TQMap.find name m = some .InvalidError → ∃ e ∈ m, e.2 = .InvalidError := by
          intro m
          induction m with
          | nil => intro hm; simp [TQMap.find] at hm
          | cons e rest ih =>
              obtain ⟨k, v⟩ := e
              intro hm
              simp only [TQMap.find] at hm
              by_cases hk : k = name
              · simp only [hk, if_true, Option.some.injEq] at hm
                exact ⟨(k, v), List.mem_cons_self _ _, hm⟩
              · simp only [hk, if_false] at hm
                obtain ⟨e, he, h2⟩ := ih hm
                exact ⟨e, List.mem_cons_of_mem _ he, h2⟩
        obtain ⟨e, he, h2⟩ := hmem _ hf
        exact hall e he h2

/-- C23. An error object is valid exactly when its type is not InvalidError and both its name and
its message are non-empty, whatever built it.  The default error is invalid; an
error built from a name and a message is valid exactly when both are non-empty;
the error of a `std...` factory (the private constructor with a standard type) is
valid exactly when its message is non-empty, so with an empty message it is
invalid. -/
theorem error_validity (e : TQT_DBusError) (name message : String) :
    (e.isValid = true ↔
      (e.type ≠ .InvalidError ∧ e.name.isEmpty = false ∧ e.message.isEmpty = false)) ∧
    TQT_DBusError.default.isValid = false ∧
    ((TQT_DBusError.ofNameMessage name message).isValid = true ↔
      (name.isEmpty = false ∧ message.isEmpty = false)) ∧
    (∀ t ∈ standardErrorTypes,
      ((TQT_DBusError.ofTypeMessage t message).isValid = true ↔ message.isEmpty = false) ∧
      (TQT_DBusError.ofTypeMessage t "").isValid = false) ∧
    (TQT_DBusError.stdFailed "").isValid = false ∧
    (TQT_DBusError.stdInvalidArgs "").isValid = false ∧
    (TQT_DBusError.stdUnknownMethod "").isValid = false := by
  refine ⟨?_, rfl, ?_, ?_, by decide, by decide, by decide⟩
  · simp [TQT_DBusError.isValid, TQT_DBusError.type, TQT_DBusError.name,
      TQT_DBusError.message, and_assoc]
  · have h := qDBusErrorTypeForName_invalid_iff name
    simp only [TQT_DBusError.isValid, TQT_DBusError.ofNameMessage, Bool.and_eq_true,
      bne_iff_ne, ne_eq, h, Bool.not_eq_true, Bool.not_eq_true']
    constructor
    · rintro ⟨⟨_, h2⟩, h3⟩
      exact ⟨h2, h3⟩
    · rintro ⟨h2, h3⟩
      exact ⟨⟨h2, h2⟩, h3⟩
  · intro t ht
    have hn := qDBusErrorNameForType_standard_nonempty t ht
    have ht2 : t ≠ .InvalidError := by
      intro h
      subst h
      exact absurd ht (by decide)
    constructor
    · simp [TQT_DBusError.isValid, TQT_DBusError.ofTypeMessage, hn, ht2]
    · have he : ("" : String).isEmpty = true := by decide
      simp [TQT_DBusError.isValid, TQT_DBusError.ofTypeMessage, he]

/-- Witness of C23: the error `org.freedesktop.DBus.Error.Failed` with the message `boom` is valid,
and the standard error Failed without a message is not. -/
theorem error_validity_witness :
    (TQT_DBusError.ofNameMessage "org.freedesktop.DBus.Error.Failed" "boom").isValid = true ∧
    (TQT_DBusError.ofTypeMessage .Failed "").isValid = false ∧
    (TQT_DBusError.ofNameMessage "" "boom").isValid = false :=
  have h := error_validity TQT_DBusError.default "org.freedesktop.DBus.Error.Failed" "boom"
  have h2 := error_validity TQT_DBusError.default "" "boom"
  ⟨h.2.2.1.2 ⟨by decide, by decide⟩, (h.2.2.2.1 .Failed (by decide)).2,
   by
     cases hv : (TQT_DBusError.ofNameMessage "" "boom").isValid with
     | false => rfl
     | true => exact absurd (h2.2.2.1.1 hv).1 (by decide)⟩

/-! ## Reply factories -/

/-- C24. For every message `c` that carries a wire message and every valid error `e`, the
message `methodError(c, e)` has the type ErrorMessage, refers to the wire message
of `c` as the call it answers, and its `error()` is `e`: same name, same message. -/
theorem methodError_carries_error (c : TQT_DBusMessage) (e : TQT_DBusError) (w : DBusMessage)
    (hc : c.d.msg = some w) (he : e.isValid = true) :
    (TQT_DBusMessage.methodError c e).type = .ErrorMessage ∧
    (TQT_DBusMessage.methodError c e).error = e ∧
    (TQT_DBusMessage.methodError c e).error.name = e.name ∧
    (TQT_DBusMessage.methodError c e).error.message = e.message ∧
    (TQT_DBusMessage.methodError c e).d.reply = some w := by
  have hm : TQT_DBusMessage.methodError c e =
      { TQT_DBusMessage.default with
        d := { TQT_DBusMessagePrivate.default with
               type := DBUS_MESSAGE_TYPE_ERROR, reply := c.d.msg, error := e } } := by
    simp [TQT_DBusMessage.methodError, he]
  rw [hm]
  exact ⟨rfl, rfl, rfl, rfl, hc⟩

/-- Witness of C24: a received method call and the error `org.freedesktop.DBus.Error.Failed` with
the message `boom`. -/
theorem methodError_carries_error_witness :
    ∃ c, TQT_DBusMessage.fromDBusMessage
          (some ⟨DBUS_MESSAGE_TYPE_METHOD_CALL, 7, 0, "/p", "i", "m", ":1.5", none, []⟩) = .ok c ∧
      c.type = .MethodCallMessage ∧
      (TQT_DBusMessage.methodError c
        (TQT_DBusError.ofNameMessage "org.freedesktop.DBus.Error.Failed" "boom")).type
        = .ErrorMessage ∧
      (TQT_DBusMessage.methodError c
        (TQT_DBusError.ofNameMessage "org.freedesktop.DBus.Error.Failed" "boom")).error.name
        = "org.freedesktop.DBus.Error.Failed" ∧
      (TQT_DBusMessage.methodError c
        (TQT_DBusError.ofNameMessage "org.freedesktop.DBus.Error.Failed" "boom")).error.message
        = "boom" :=
  ⟨_, rfl, by decide,
    (methodError_carries_error _
      (TQT_DBusError.ofNameMessage "org.freedesktop.DBus.Error.Failed" "boom")
      ⟨DBUS_MESSAGE_TYPE_METHOD_CALL, 7, 0, "/p", "i", "m", ":1.5", none, []⟩ rfl
      (by decide)).1,
    (methodError_carries_error _
      (TQT_DBusError.ofNameMessage "org.freedesktop.DBus.Error.Failed" "boom")
      ⟨DBUS_MESSAGE_TYPE_METHOD_CALL, 7, 0, "/p", "i", "m", ":1.5", none, []⟩ rfl
      (by decide)).2.2.1,
    (methodError_carries_error _
      (TQT_DBusError.ofNameMessage "org.freedesktop.DBus.Error.Failed" "boom")
      ⟨DBUS_MESSAGE_TYPE_METHOD_CALL, 7, 0, "/p", "i", "m", ":1.5", none, []⟩ rfl
      (by decide)).2.2.2.1⟩

/-- C25 (the code at the failing input). A method call created locally carries no wire message
and has the serial number 0.  The factories only assert that there is one
and go on: `methodReply` of such a call has the type ReplyMessage and `methodError`
of it with the valid error Failed the type ErrorMessage, each holding a null
reference to the call it answers; neither is an InvalidMessage, and it is so
for every call without a wire message.  The guard on the error does what the
assertion does not: whenever the error is not valid, `methodError` returns the
default message, of type InvalidMessage, whatever the call is. -/
theorem reply_factories_pass_call_without_wire_message :
    (TQT_DBusMessage.methodCall "s" "/p" "i" "m").serialNumber = 0 ∧
    (TQT_DBusMessage.methodCall "s" "/p" "i" "m").d.msg = none ∧
    (TQT_DBusMessage.methodReply (TQT_DBusMessage.methodCall "s" "/p" "i" "m")).type
      = .ReplyMessage ∧
    (TQT_DBusMessage.methodReply (TQT_DBusMessage.methodCall "s" "/p" "i" "m")).type
      ≠ .InvalidMessage ∧
    (TQT_DBusMessage.methodReply (TQT_DBusMessage.methodCall "s" "/p" "i" "m")).d.reply
      = none ∧
    (TQT_DBusError.stdFailed "boom").isValid = true ∧
    (TQT_DBusMessage.methodError (TQT_DBusMessage.methodCall "s" "/p" "i" "m")
        (TQT_DBusError.stdFailed "boom")).type = .ErrorMessage ∧
    (TQT_DBusMessage.methodError (TQT_DBusMessage.methodCall "s" "/p" "i" "m")
        (TQT_DBusError.stdFailed "boom")).type ≠ .InvalidMessage ∧
    (TQT_DBusMessage.methodError (TQT_DBusMessage.methodCall "s" "/p" "i" "m")
        TQT_DBusError.default).type = .InvalidMessage ∧
    (∀ (c : TQT_DBusMessage) (e : TQT_DBusError), e.isValid = false →
      TQT_DBusMessage.methodError c e = TQT_DBusMessage.default ∧
      (TQT_DBusMessage.methodError c e).type = .InvalidMessage) ∧
    (∀ (c : TQT_DBusMessage) (e : TQT_DBusError), c.d.msg = none →
      c.serialNumber = 0 ∧
      (TQT_DBusMessage.methodReply c).type = .ReplyMessage ∧
      (TQT_DBusMessage.methodReply c).d.reply = none ∧
      (e.isValid = true →
        (TQT_DBusMessage.methodError c e).type = .ErrorMessage ∧
        (TQT_DBusMessage.methodError c e).d.reply = none)) := by
  refine ⟨by decide, rfl, by decide, by decide, rfl, by decide, by decide, by decide,
    by decide, ?_, ?_⟩
  · intro c e he
    have hm : TQT_DBusMessage.methodError c e = TQT_DBusMessage.default := by
      simp [TQT_DBusMessage.methodError, he]
    rw [hm]
    exact ⟨rfl, rfl⟩
  · intro c e hc
    refine ⟨?_, rfl, ?_, ?_⟩
    · simp [TQT_DBusMessage.serialNumber, hc]
    · simp [TQT_DBusMessage.methodReply, hc]
    · intro he
      have hm : TQT_DBusMessage.methodError c e =
          { TQT_DBusMessage.default with
            d := { TQT_DBusMessagePrivate.default with
                   type := DBUS_MESSAGE_TYPE_ERROR, reply := c.d.msg, error := e } } := by
        simp [TQT_DBusMessage.methodError, he]
      rw [hm]
      exact ⟨rfl, hc⟩

/-! ## The signal filter of the proxy -/

/-- C27. The slot `handleDBusSignal` emits `dbusSignal(m)` exactly when the path of the proxy is
empty or that of `m`, its interface is empty or that of `m`, and its service does
not start with `:` or is the sender of `m`; otherwise it emits nothing.  A service
name that does not start with `:` has no part in the outcome. -/
theorem proxy_signal_filter (d : TQT_DBusProxy.Private) (m : TQT_DBusMessage) :
    (TQT_DBusProxy.handleDBusSignal d m = [m] ↔
      ((d.path.isEmpty = true ∨ d.path = m.path) ∧
       (d.interface.isEmpty = true ∨ d.interface = m.interface) ∧
       (TQString.startsWith d.service ":" = false ∨ d.service = m.sender))) ∧
    (¬ ((d.path.isEmpty = true ∨ d.path = m.path) ∧
       (d.interface.isEmpty = true ∨ d.interface = m.interface) ∧
       (TQString.startsWith d.service ":" = false ∨ d.service = m.sender)) →
      TQT_DBusProxy.handleDBusSignal d m = []) ∧
    (TQString.startsWith d.service ":" = false →
      ∀ sender : String,
        TQT_DBusProxy.handleDBusSignal d { m with d := { m.d with sender := sender } } =
          if (d.path.isEmpty = true ∨ d.path = m.path) ∧
              (d.interface.isEmpty = true ∨ d.interface = m.interface)
          then [{ m with d := { m.d with sender := sender } }] else []) := by
  have key : TQT_DBusProxy.handleDBusSignal d m = [m] ↔
      ((d.path.isEmpty = true ∨ d.path = m.path) ∧
       (d.interface.isEmpty = true ∨ d.interface = m.interface) ∧
       (TQString.startsWith d.service ":" = false ∨ d.service = m.sender)) := by
    unfold TQT_DBusProxy.handleDBusSignal
    by_cases h1 : d.path.isEmpty = true <;> by_cases h2 : d.path = m.path <;>
      by_cases h3 : d.interface.isEmpty = true <;> by_cases h4 : d.interface = m.interface <;>
      by_cases h5 : TQString.startsWith d.service ":" = true <;>
      by_cases h6 : d.service = m.sender <;>
      simp [h1, h2, h3, h4, h5, h6]
  have hnone : TQT_DBusProxy.handleDBusSignal d m ≠ [m] → TQT_DBusProxy.handleDBusSignal d m = [] := by
    unfold TQT_DBusProxy.handleDBusSignal
    intro h
    split_ifs at h ⊢ <;> first | rfl | exact absurd rfl h
  refine ⟨key, fun h => hnone (fun hh => h (key.1 hh)), ?_⟩
  intro h5 sender
  unfold TQT_DBusProxy.handleDBusSignal
  by_cases h1 : d.path.isEmpty = true <;> by_cases h2 : d.path = m.path <;>
    by_cases h3 : d.interface.isEmpty = true <;> by_cases h4 : d.interface = m.interface <;>
    simp_all [TQT_DBusMessage.path, TQT_DBusMessage.interface]

/-- Witness of C27: a proxy bound to the well-known name `org.example.Service` and the path `/a`
lets a signal from `:1.7` on `/a` pass and drops one on `/b`. -/
theorem proxy_signal_filter_witness :
    TQT_DBusProxy.handleDBusSignal ⟨"org.example.Service", "/a", "", false, TQT_DBusError.default⟩
        { TQT_DBusMessage.signal "/a" "org.example.I" "Changed" with
          d := { (TQT_DBusMessage.signal "/a" "org.example.I" "Changed").d with
                 sender := ":1.7" } } =
      [{ TQT_DBusMessage.signal "/a" "org.example.I" "Changed" with
          d := { (TQT_DBusMessage.signal "/a" "org.example.I" "Changed").d with
                 sender := ":1.7" } }] ∧
    TQT_DBusProxy.handleDBusSignal ⟨"org.example.Service", "/a", "", false, TQT_DBusError.default⟩
        (TQT_DBusMessage.signal "/b" "org.example.I" "Changed") = [] :=
  ⟨(proxy_signal_filter ⟨"org.example.Service", "/a", "", false, TQT_DBusError.default⟩ _).1.2
      ⟨Or.inr rfl, Or.inl (by decide), Or.inl (by decide)⟩,
   (proxy_signal_filter ⟨"org.example.Service", "/a", "", false, TQT_DBusError.default⟩ _).2.1
      (by
        rintro ⟨h, _⟩
        rcases h with h | h
        · exact absurd h (by decide)
        · exact absurd h (by decide))⟩

/-! ## The object registration table -/

theorem tqmap_find_assign_self {κ α : Type} [DecidableEq κ] (key : κ) (value : α)
    (m : List (κ × α)) : TQMap.find key (TQMap.assign key value m) = some value := by
  induction m with
  | nil => simp [TQMap.assign, TQMap.find]
  | cons e rest ih =>
      obtain ⟨k, v⟩ := e
      by_cases hk : k = key
      · simp [TQMap.assign, TQMap.find, hk]
      · simp [TQMap.assign, TQMap.find, hk, ih]

theorem tqmap_find_assign_other {κ α : Type} [DecidableEq κ] (key other : κ) (value : α)
    (m : List (κ × α)) (h : other ≠ key) :
    TQMap.find other (TQMap.assign key value m) = TQMap.find other m := by
  induction m with
  | nil =>
      have h2 : ¬ key = other := fun hh => h hh.symm
      simp [TQMap.assign, TQMap.find, h2]
  | cons e rest ih =>
      obtain ⟨k, v⟩ := e
      by_cases hk : k = key
      · have h2 : ¬ k = other := fun hh => h (hh.symm.trans hk)
        simp [TQMap.assign, TQMap.find, hk, h2]
        subst hk
        simp [h2]
      · by_cases h2 : k = other
        · subst h2
          simp [TQMap.assign, TQMap.find, hk]
        · simp [TQMap.assign, TQMap.find, hk, h2, ih]

theorem tqmap_find_erase_self {κ α : Type} [DecidableEq κ] (key : κ) (m : List (κ × α)) :
    TQMap.find key (TQMap.erase key m) = none := by
  apply tqmap_find_eq_none
  intro e he
  simpa [TQMap.erase] using (List.mem_filter.1 he).2

theorem tqmap_find_erase_other {κ α : Type} [DecidableEq κ] (key other : κ)
    (m : List (κ × α)) (h : other ≠ key) :
    TQMap.find other (TQMap.erase key m) = TQMap.find other m := by
  induction m with
  | nil => rfl
  | cons e rest ih =>
      obtain ⟨k, v⟩ := e
      have hstep : TQMap.erase key ((k, v) :: rest) =
          if k = key then TQMap.erase key rest else (k, v) :: TQMap.erase key rest := by
        by_cases hk : k = key <;> simp [TQMap.erase, List.filter_cons, hk]
      rw [hstep]
      by_cases hk : k = key
      · have h2 : ¬ k = other := fun hh => h (hh.symm.trans hk)
        simp only [hk, if_true, ih, TQMap.find]
        rw [if_neg (fun hh => h hh.symm)]
      · by_cases h2 : k = other
        · subst h2
          simp [TQMap.find, hk]
        · simp [TQMap.find, hk, h2, ih]

/-- C26. On a connection that has its private object and its bus connection, `registerObject(path, h)`
returns true exactly when `path` is non-empty, `h` is not null and no handler is
bound to `path`; it then binds `path` to `h` and leaves every other binding; when
it returns false (so when the path is occupied) the connection is as before.
After `unregisterObject(path)` with a non-empty `path` no handler is bound to `path`,
every other binding is as before, and a following `registerObject(path, h2)`
returns true exactly when `h2` is not null. -/
theorem object_registration_table (d : TQT_DBusConnectionPrivate) (path : String) (h h2 : Nat)
    (hconn : d.connection ≠ 0) :
    (((⟨some d⟩ : TQT_DBusConnection).registerObject path h).2 = true ↔
      (path.isEmpty = false ∧ h ≠ 0 ∧
        (⟨some d⟩ : TQT_DBusConnection).handlerFor path = none)) ∧
    (((⟨some d⟩ : TQT_DBusConnection).registerObject path h).2 = true →
      (((⟨some d⟩ : TQT_DBusConnection).registerObject path h).1.handlerFor path = some h ∧
       ∀ other, other ≠ path →
        ((⟨some d⟩ : TQT_DBusConnection).registerObject path h).1.handlerFor other =
          (⟨some d⟩ : TQT_DBusConnection).handlerFor other)) ∧
    (((⟨some d⟩ : TQT_DBusConnection).registerObject path h).2 = false →
      ((⟨some d⟩ : TQT_DBusConnection).registerObject path h).1 = ⟨some d⟩) ∧
    ((⟨some d⟩ : TQT_DBusConnection).handlerFor path ≠ none →
      ((⟨some d⟩ : TQT_DBusConnection).registerObject path h) = (⟨some d⟩, false)) ∧
    (path.isEmpty = false →
      ((⟨some d⟩ : TQT_DBusConnection).unregisterObject path).handlerFor path = none ∧
      (∀ other, other ≠ path →
        ((⟨some d⟩ : TQT_DBusConnection).unregisterObject path).handlerFor other =
          (⟨some d⟩ : TQT_DBusConnection).handlerFor other) ∧
      ((((⟨some d⟩ : TQT_DBusConnection).unregisterObject path).registerObject path h2).2 = true ↔
        h2 ≠ 0)) := by
  have hc : (d.connection == 0) = false := by simpa using hconn
  refine ⟨?_, ?_, ?_, ?_, ?_⟩
  · simp only [TQT_DBusConnection.registerObject, TQT_DBusConnection.handlerFor, hc,
      Bool.false_or]
    by_cases h0 : h = 0 <;> by_cases hp : path.isEmpty = true <;>
      cases hf : TQMap.find path d.registeredObjects <;> simp [h0, hp, hf]
  · simp only [TQT_DBusConnection.registerObject, TQT_DBusConnection.handlerFor, hc,
      Bool.false_or]
    by_cases h0 : h = 0 <;> by_cases hp : path.isEmpty = true <;>
      cases hf : TQMap.find path d.registeredObjects <;> simp [h0, hp, hf]
    exact ⟨tqmap_find_assign_self _ _ _, fun other ho => tqmap_find_assign_other _ _ _ _ ho⟩
  · simp only [TQT_DBusConnection.registerObject, hc, Bool.false_or]
    by_cases h0 : h = 0 <;> by_cases hp : path.isEmpty = true <;>
      cases hf : TQMap.find path d.registeredObjects <;> simp [h0, hp, hf]
  · simp only [TQT_DBusConnection.registerObject, TQT_DBusConnection.handlerFor, hc,
      Bool.false_or]
    by_cases h0 : h = 0 <;> by_cases hp : path.isEmpty = true <;>
      cases hf : TQMap.find path d.registeredObjects <;> simp [h0, hp, hf]
  · intro hp
    have hu : ((⟨some d⟩ : TQT_DBusConnection).unregisterObject path).handlerFor path = none ∧
        (∀ other, other ≠ path →
          ((⟨some d⟩ : TQT_DBusConnection).unregisterObject path).handlerFor other =
            (⟨some d⟩ : TQT_DBusConnection).handlerFor other) ∧
        ∃ d2 : TQT_DBusConnectionPrivate,
          (⟨some d⟩ : TQT_DBusConnection).unregisterObject path = ⟨some d2⟩ ∧
          d2.connection = d.connection := by
      simp only [TQT_DBusConnection.unregisterObject, TQT_DBusConnection.handlerFor, hc, hp,
        Bool.false_or, Bool.false_eq_true, if_false]
      cases hf : TQMap.find path d.registeredObjects with
      | none => exact ⟨hf, fun _ _ => rfl, d, rfl, rfl⟩
      | some x =>
          exact ⟨tqmap_find_erase_self _ _, fun other ho => tqmap_find_erase_other _ _ _ ho,
            _, rfl, rfl⟩
    refine ⟨hu.1, hu.2.1, ?_⟩
    obtain ⟨d2, hd2, hconn2⟩ := hu.2.2
    have hfree := hu.1
    rw [hd2] at hfree ⊢
    have hc2 : (d2.connection == 0) = false := by rw [hconn2]; exact hc
    simp only [TQT_DBusConnection.handlerFor] at hfree
    simp only [TQT_DBusConnection.registerObject, hc2, hp, Bool.false_or, hfree]
    by_cases h0 : h2 = 0 <;> simp [h0]

/-- Witness of C26: on a client connection with the object 5 at `/a`, registering 6 at `/a` fails,
registering 6 at `/b` succeeds, and after unregistering `/a` the object 6 can be
registered there. -/
theorem object_registration_table_witness :
    ((⟨some { TQT_DBusConnectionPrivate.init with
              mode := .ClientMode, connection := 1, registeredObjects := [("/a", 5)] }⟩ :
        TQT_DBusConnection).registerObject "/a" 6).2 = false ∧
    ((⟨some { TQT_DBusConnectionPrivate.init with
              mode := .ClientMode, connection := 1, registeredObjects := [("/a", 5)] }⟩ :
        TQT_DBusConnection).registerObject "/b" 6).2 = true ∧
    (((⟨some { TQT_DBusConnectionPrivate.init with
              mode := .ClientMode, connection := 1, registeredObjects := [("/a", 5)] }⟩ :
        TQT_DBusConnection).unregisterObject "/a").registerObject "/a" 6).2 = true :=
  have h := object_registration_table
    { TQT_DBusConnectionPrivate.init with
      mode := .ClientMode, connection := 1, registeredObjects := [("/a", 5)] } "/a" 6 6
    (by decide)
  have hb := object_registration_table
    { TQT_DBusConnectionPrivate.init with
      mode := .ClientMode, connection := 1, registeredObjects := [("/a", 5)] } "/b" 6 6
    (by decide)
  ⟨congrArg Prod.snd (h.2.2.2.1 (by decide)), hb.1.2 ⟨by decide, by decide, by decide⟩,
   (h.2.2.2.2 (by decide)).2.2.2 (by decide)⟩

/-! ## The dispatch guard -/

theorem handleSignal_inDispatch (s s' : TQT_DBusConnectionPrivate) (message : DBusMessage)
    (b : Bool) (h : s.handleSignal message = .ok (s', b)) : s'.inDispatch = s.inDispatch := by
  unfold TQT_DBusConnectionPrivate.handleSignal at h
  cases hm : TQT_DBusMessage.fromDBusMessage (some message) with
  | error e => simp [hm] at h
  | ok msg =>
      simp only [hm, Except.ok.injEq, Prod.mk.injEq] at h
      rw [← h.1]

theorem qDBusResultReceived_inDispatch (s s' : TQT_DBusConnectionPrivate) (pending : Nat)
    (reply : DBusMessage) (h : s.qDBusResultReceived pending reply = .ok s') :
    s'.inDispatch = s.inDispatch := by
  unfold TQT_DBusConnectionPrivate.qDBusResultReceived at h
  simp only [TQT_DBusConnectionPrivate.handleError] at h
  cases hf : TQMap.find pending s.pendingCalls with
  | none => simp [hf] at h
  | some call =>
      cases hm : TQT_DBusMessage.fromDBusMessage (some reply) with
      | error e => simp [hf, hm] at h
      | ok msg =>
          simp only [hf, hm, Except.ok.injEq,
            TQT_DBusConnectionPrivate.newMethodInResultEmissionQueue] at h
          rw [← h]

theorem registerObject_inDispatch (s : TQT_DBusConnectionPrivate) (path : String) (object : Nat) :
    ∃ s', ((⟨some s⟩ : TQT_DBusConnection).registerObject path object).1.d = some s' ∧
      s'.inDispatch = s.inDispatch := by
  unfold TQT_DBusConnection.registerObject
  simp only
  split
  · exact ⟨s, rfl, rfl⟩
  · split
    · exact ⟨s, rfl, rfl⟩
    · exact ⟨_, rfl, rfl⟩

theorem unregisterObject_inDispatch (s : TQT_DBusConnectionPrivate) (path : String) :
    ∃ s', ((⟨some s⟩ : TQT_DBusConnection).unregisterObject path).d = some s' ∧
      s'.inDispatch = s.inDispatch := by
  unfold TQT_DBusConnection.unregisterObject
  simp only
  split
  · exact ⟨s, rfl, rfl⟩
  · split
    · exact ⟨s, rfl, rfl⟩
    · exact ⟨_, rfl, rfl⟩

theorem dispatchWith_guard (s : TQT_DBusConnectionPrivate) (dataRemains : Bool)
    (library : TQT_DBusConnectionPrivate → Except Fault (TQT_DBusConnectionPrivate × Nat))
    (h : s.inDispatch = true) :
    TQT_DBusConnectionPrivate.dispatchWith s dataRemains library = .ok (s, 0) := by
  simp [TQT_DBusConnectionPrivate.dispatchWith, h]

mutual
theorem libraryCalls_in_dispatch :
    ∀ (l : List LibraryCall) (s s' : TQT_DBusConnectionPrivate) (n : Nat),
      s.inDispatch = true → TQT_DBusConnectionPrivate.libraryCalls s l = .ok (s', n) →
        s'.inDispatch = true ∧ n = 0
  | [], s, s', n, hs, h => by
      simp only [TQT_DBusConnectionPrivate.libraryCalls, Except.ok.injEq, Prod.mk.injEq] at h
      exact ⟨h.1 ▸ hs, h.2.symm⟩
  | call :: rest, s, s', n, hs, h => by
      simp only [TQT_DBusConnectionPrivate.libraryCalls] at h
      cases h1 : TQT_DBusConnectionPrivate.libraryCall s call with
      | error e => simp [h1] at h
      | ok r1 =>
          obtain ⟨s1, n1⟩ := r1
          have ih1 := libraryCall_in_dispatch call s s1 n1 hs h1
          cases h2 : TQT_DBusConnectionPrivate.libraryCalls s1 rest with
          | error e => simp [h1, h2] at h
          | ok r2 =>
              obtain ⟨s2, n2⟩ := r2
              have ih2 := libraryCalls_in_dispatch rest s1 s2 n2 ih1.1 h2
              simp only [h1, h2, Except.ok.injEq, Prod.mk.injEq] at h
              exact ⟨h.1 ▸ ih2.1, by omega⟩
theorem libraryCall_in_dispatch :
    ∀ (c : LibraryCall) (s s' : TQT_DBusConnectionPrivate) (n : Nat),
      s.inDispatch = true → TQT_DBusConnectionPrivate.libraryCall s c = .ok (s', n) →
        s'.inDispatch = true ∧ n = 0
  | .filter message handler handled, s, s', n, hs, h => by
      simp only [TQT_DBusConnectionPrivate.libraryCall] at h
      split at h
      · simp only [Except.ok.injEq, Prod.mk.injEq] at h
        exact ⟨h.1 ▸ hs, h.2.symm⟩
      · split at h
        · cases h1 : s.handleSignal message with
          | error e => simp [h1] at h
          | ok r =>
              obtain ⟨s1, b⟩ := r
              simp only [h1, Except.ok.injEq, Prod.mk.injEq] at h
              have := handleSignal_inDispatch s s1 message b h1
              exact ⟨h.1 ▸ (this.trans hs), h.2.symm⟩
        · split at h
          · cases h1 : TQT_DBusMessage.fromDBusMessage (some message) with
            | error e => simp [h1] at h
            | ok msg =>
                simp only [h1] at h
                cases h2 : TQMap.find msg.path s.registeredObjects with
                | none =>
                    simp only [h2, Except.ok.injEq, Prod.mk.injEq] at h
                    exact ⟨h.1 ▸ hs, h.2.symm⟩
                | some obj =>
                    simp only [h2] at h
                    exact handleMethodCall_in_dispatch handler s s' n hs h
          · simp only [Except.ok.injEq, Prod.mk.injEq] at h
            exact ⟨h.1 ▸ hs, h.2.symm⟩
  | .notify pending reply, s, s', n, hs, h => by
      simp only [TQT_DBusConnectionPrivate.libraryCall] at h
      cases h1 : s.qDBusResultReceived pending reply with
      | error e => simp [h1] at h
      | ok s1 =>
          simp only [h1, Except.ok.injEq, Prod.mk.injEq] at h
          have := qDBusResultReceived_inDispatch s s1 pending reply h1
          exact ⟨h.1 ▸ (this.trans hs), h.2.symm⟩
theorem handleMethodCall_in_dispatch :
    ∀ (l : List ConnectionCall) (s s' : TQT_DBusConnectionPrivate) (n : Nat),
      s.inDispatch = true → TQT_DBusConnectionPrivate.handleMethodCall s l = .ok (s', n) →
        s'.inDispatch = true ∧ n = 0
  | [], s, s', n, hs, h => by
      simp only [TQT_DBusConnectionPrivate.handleMethodCall, Except.ok.injEq,
        Prod.mk.injEq] at h
      exact ⟨h.1 ▸ hs, h.2.symm⟩
  | call :: rest, s, s', n, hs, h => by
      simp only [TQT_DBusConnectionPrivate.handleMethodCall] at h
      cases h1 : TQT_DBusConnectionPrivate.connectionCall s call with
      | error e => simp [h1] at h
      | ok r1 =>
          obtain ⟨s1, n1⟩ := r1
          have ih1 := connectionCall_in_dispatch call s s1 n1 hs h1
          cases h2 : TQT_DBusConnectionPrivate.handleMethodCall s1 rest with
          | error e => simp [h1, h2] at h
          | ok r2 =>
              obtain ⟨s2, n2⟩ := r2
              have ih2 := handleMethodCall_in_dispatch rest s1 s2 n2 ih1.1 h2
              simp only [h1, h2, Except.ok.injEq, Prod.mk.injEq] at h
              exact ⟨h.1 ▸ ih2.1, by omega⟩
theorem connectionCall_in_dispatch :
    ∀ (c : ConnectionCall) (s s' : TQT_DBusConnectionPrivate) (n : Nat),
      s.inDispatch = true → TQT_DBusConnectionPrivate.connectionCall s c = .ok (s', n) →
        s'.inDispatch = true ∧ n = 0
  | .dispatch library dataRemains, s, s', n, hs, h => by
      simp only [TQT_DBusConnectionPrivate.connectionCall] at h
      split at h
      · simp only [Except.ok.injEq, Prod.mk.injEq] at h
        exact ⟨h.1 ▸ hs, h.2.symm⟩
      · rw [dispatchWith_guard s dataRemains _ hs] at h
        simp only [Except.ok.injEq, Prod.mk.injEq] at h
        exact ⟨h.1 ▸ hs, h.2.symm⟩
  | .registerObject path object, s, s', n, hs, h => by
      simp only [TQT_DBusConnectionPrivate.connectionCall] at h
      obtain ⟨s1, h1, h2⟩ := registerObject_inDispatch s path object
      simp only [h1, Except.ok.injEq, Prod.mk.injEq] at h
      exact ⟨h.1 ▸ (h2.trans hs), h.2.symm⟩
  | .unregisterObject path, s, s', n, hs, h => by
      simp only [TQT_DBusConnectionPrivate.connectionCall] at h
      obtain ⟨s1, h1, h2⟩ := unregisterObject_inDispatch s path
      simp only [h1, Except.ok.injEq, Prod.mk.injEq] at h
      exact ⟨h.1 ▸ (h2.trans hs), h.2.symm⟩
end

/-- C28. A call of `dispatch()` made while `inDispatch` is true returns without a call of
`dbus_connection_dispatch` and leaves the whole connection state as it is; this
is what a call from a handler inside an outer dispatch meets.  A call made
while `inDispatch` is false that returns leaves `inDispatch` false, and during it
`dbus_connection_dispatch` is called once in client mode and never otherwise, the
calls from handlers adding none.  The constructor sets `inDispatch` to false and
no other entry point writes it, so it is false whenever no call of `dispatch()`
is running. -/
theorem dispatch_reentrancy_guard (s : TQT_DBusConnectionPrivate) (library : List LibraryCall)
    (dataRemains : Bool) :
    (s.inDispatch = true → s.dispatch library dataRemains = .ok (s, 0)) ∧
    (s.inDispatch = true →
      TQT_DBusConnectionPrivate.connectionCall s (.dispatch library dataRemains) = .ok (s, 0)) ∧
    (s.inDispatch = false →
      ∀ (s' : TQT_DBusConnectionPrivate) (n : Nat),
        s.dispatch library dataRemains = .ok (s', n) →
          s'.inDispatch = false ∧ n = (if s.mode = .ClientMode then 1 else 0)) ∧
    TQT_DBusConnectionPrivate.init.inDispatch = false ∧
    (∀ object : Nat, (s.objectDestroyed object).inDispatch = s.inDispatch) ∧
    s.transmitMessageEmissionQueue.1.inDispatch = s.inDispatch ∧
    s.transmitResultEmissionQueue.1.inDispatch = s.inDispatch ∧
    (∀ (path : String) (object : Nat),
      ∃ s', ((⟨some s⟩ : TQT_DBusConnection).registerObject path object).1.d = some s' ∧
        s'.inDispatch = s.inDispatch) ∧
    (∀ path : String,
      ∃ s', ((⟨some s⟩ : TQT_DBusConnection).unregisterObject path).d = some s' ∧
        s'.inDispatch = s.inDispatch) := by
  refine ⟨fun h => dispatchWith_guard s dataRemains _ h, ?_, ?_, rfl, fun _ => rfl, rfl, ?_,
    registerObject_inDispatch s, unregisterObject_inDispatch s⟩
  · intro h
    simp only [TQT_DBusConnectionPrivate.connectionCall]
    split
    · rfl
    · exact dispatchWith_guard s dataRemains _ h
  · intro h s' n hd
    unfold TQT_DBusConnectionPrivate.dispatch TQT_DBusConnectionPrivate.dispatchWith at hd
    rw [if_neg (by simp [h])] at hd
    by_cases hm : s.mode = .ClientMode
    · have hm2 : (s.mode == ConnectionMode.ClientMode) = true := by simp [hm]
      simp only [hm2, if_true] at hd
      cases hl : TQT_DBusConnectionPrivate.libraryCalls { s with inDispatch := true } library with
      | error e => simp [hl] at hd
      | ok r =>
          obtain ⟨s1, calls⟩ := r
          have hin := libraryCalls_in_dispatch library _ s1 calls rfl hl
          simp only [hl, Except.ok.injEq, Prod.mk.injEq] at hd
          refine ⟨hd.1 ▸ rfl, ?_⟩
          rw [if_pos hm]
          omega
    · have hm2 : (s.mode == ConnectionMode.ClientMode) = false := by simpa using hm
      simp only [hm2, Bool.false_eq_true, if_false, Except.ok.injEq, Prod.mk.injEq] at hd
      rw [if_neg hm]
      exact ⟨hd.1 ▸ rfl, hd.2.symm⟩
  · unfold TQT_DBusConnectionPrivate.transmitResultEmissionQueue
    split <;> rfl

/-- Witness of C28: a client connection with an object at `/p` whose handler calls `dispatch()`
again while the outer `dispatch()` hands it a method call: the library's dispatch
routine runs once, the signal after the call is queued, and `inDispatch` is false
afterwards. -/
theorem dispatch_reentrancy_guard_witness :
    ∃ s', ({ TQT_DBusConnectionPrivate.init with
             mode := .ClientMode, connection := 1, registeredObjects := [("/p", 5)] } :
          TQT_DBusConnectionPrivate).dispatch
        [.filter ⟨DBUS_MESSAGE_TYPE_METHOD_CALL, 7, 0, "/p", "i", "m", ":1.5", none, []⟩
            [.dispatch
              [.filter ⟨DBUS_MESSAGE_TYPE_SIGNAL, 8, 0, "/p", "i", "Changed", ":1.5", none, []⟩
                [] true] false] true,
         .filter ⟨DBUS_MESSAGE_TYPE_SIGNAL, 9, 0, "/p", "i", "Changed", ":1.5", none, []⟩
            [] true] false = .ok (s', 1) ∧
      s'.inDispatch = false ∧ s'.pendingMessages.length = 1 ∧
      ({ s' with inDispatch := true } : TQT_DBusConnectionPrivate).dispatch [] false =
        .ok ({ s' with inDispatch := true }, 0) :=
  ⟨_, rfl,
    ((dispatch_reentrancy_guard
        ({ TQT_DBusConnectionPrivate.init with
           mode := .ClientMode, connection := 1, registeredObjects := [("/p", 5)] } :
          TQT_DBusConnectionPrivate)
        [.filter ⟨DBUS_MESSAGE_TYPE_METHOD_CALL, 7, 0, "/p", "i", "m", ":1.5", none, []⟩
            [.dispatch
              [.filter ⟨DBUS_MESSAGE_TYPE_SIGNAL, 8, 0, "/p", "i", "Changed", ":1.5", none, []⟩
                [] true] false] true,
         .filter ⟨DBUS_MESSAGE_TYPE_SIGNAL, 9, 0, "/p", "i", "Changed", ":1.5", none, []⟩
            [] true] false).2.2.1 rfl _ 1 rfl).1,
    rfl,
    (dispatch_reentrancy_guard _ [] false).1 rfl⟩

/-! ## Pending calls and the emission queues -/

theorem messageEmissionLoop_eq (queue emitted : List TQT_DBusMessage) :
    TQT_DBusConnectionPrivate.messageEmissionLoop queue emitted = ([], emitted ++ queue) := by
  induction queue generalizing emitted with
  | nil => simp [TQT_DBusConnectionPrivate.messageEmissionLoop]
  | cons msg rest ih => simp [TQT_DBusConnectionPrivate.messageEmissionLoop, ih]

theorem resultEmissionLoop_eq (queue delivered : List TQT_DBusResultInfo) :
    TQT_DBusConnectionPrivate.resultEmissionLoop queue delivered = ([], delivered ++ queue) := by
  induction queue generalizing delivered with
  | nil => simp [TQT_DBusConnectionPrivate.resultEmissionLoop]
  | cons r rest ih => simp [TQT_DBusConnectionPrivate.resultEmissionLoop, ih]

/-- C29 (the code at the failing input). The slot `objectDestroyed` erases the pending calls of the
object (and those whose guarded receiver is already null) and keeps the others,
but it does not touch `m_resultEmissionQueue`.  With the call 3 of the receiver 5
pending, the notification `qDBusResultReceived` queues its reply for the receiver 5;
after `objectDestroyed(5)` the queue still holds it, and `transmitResultEmissionQueue`
connects the receiver 5 and emits the reply to it. -/
theorem queued_result_survives_objectDestroyed :
    (∀ (s : TQT_DBusConnectionPrivate) (object : Nat),
      (s.objectDestroyed object).m_resultEmissionQueue = s.m_resultEmissionQueue ∧
      (s.objectDestroyed object).pendingCalls =
        s.pendingCalls.filter (fun it => it.2.receiver != object && it.2.receiver != 0)) ∧
    (∃ s1 : TQT_DBusConnectionPrivate,
      ({ TQT_DBusConnectionPrivate.init with
         mode := .ClientMode, connection := 1,
         pendingCalls := [(3, ⟨5, "reply".toList, 3⟩), (4, ⟨6, "reply".toList, 4⟩)] } :
        TQT_DBusConnectionPrivate).qDBusResultReceived 3
          ⟨DBUS_MESSAGE_TYPE_METHOD_RETURN, 12, 7, "", "", "", ":1.9", none,
            [.basic (.int32 1)]⟩ = .ok s1 ∧
      s1.m_resultEmissionQueue.map (fun r => (r.receiver, r.method, r.message.arguments)) =
        [(5, "reply".toList, [TQT_DBusData.fromInt32 1])] ∧
      (s1.objectDestroyed 5).pendingCalls = [(4, ⟨6, "reply".toList, 4⟩)] ∧
      (s1.objectDestroyed 5).m_resultEmissionQueue.map (fun r => r.receiver) = [5] ∧
      (s1.objectDestroyed 5).transmitResultEmissionQueue.2.map
          (fun r => (r.receiver, r.method, r.message.arguments)) =
        [(5, "reply".toList, [TQT_DBusData.fromInt32 1])] ∧
      (s1.objectDestroyed 5).transmitResultEmissionQueue.1.m_resultEmissionQueue.length = 0) := by
  refine ⟨fun s object => ⟨rfl, ?_⟩, _, rfl, rfl, rfl, rfl, rfl, rfl⟩
  simp only [TQT_DBusConnectionPrivate.objectDestroyed]
  congr 1
  funext it
  simp [Bool.not_or, bne]

/-- C30. The slot `transmitMessageEmissionQueue` emits exactly the messages of `pendingMessages`, each
once and in the order of the list, leaves the list empty and does not change
`m_resultEmissionQueue`; `handleSignal` puts the message it converted at the end of
`pendingMessages`.  The slot `transmitResultEmissionQueue` makes exactly one delivery
for every result of `m_resultEmissionQueue`, in the order of the queue and with
the receiver, method and message of that result, leaves the queue empty and
does not change `pendingMessages`; `qDBusResultReceived` puts the result of a known
pending call, with the receiver and method of that call, at the end of the
queue. -/
theorem emission_queue_order (s : TQT_DBusConnectionPrivate) :
    (s.transmitMessageEmissionQueue.2 = s.pendingMessages ∧
     s.transmitMessageEmissionQueue.1.pendingMessages = [] ∧
     s.transmitMessageEmissionQueue.1.m_resultEmissionQueue = s.m_resultEmissionQueue) ∧
    (s.transmitResultEmissionQueue.2 = s.m_resultEmissionQueue ∧
     s.transmitResultEmissionQueue.1.m_resultEmissionQueue = [] ∧
     s.transmitResultEmissionQueue.1.pendingMessages = s.pendingMessages) ∧
    (∀ (message : DBusMessage) (s' : TQT_DBusConnectionPrivate) (handled : Bool),
      s.handleSignal message = .ok (s', handled) →
        ∃ msg, TQT_DBusMessage.fromDBusMessage (some message) = .ok msg ∧
          s'.pendingMessages = s.pendingMessages ++ [msg] ∧
          s'.m_resultEmissionQueue = s.m_resultEmissionQueue) ∧
    (∀ (pending : Nat) (reply : DBusMessage) (s' : TQT_DBusConnectionPrivate),
      s.qDBusResultReceived pending reply = .ok s' →
        ∃ call msg, TQMap.find pending s.pendingCalls = some call ∧
          TQT_DBusMessage.fromDBusMessage (some reply) = .ok msg ∧
          s'.m_resultEmissionQueue =
            s.m_resultEmissionQueue ++ [⟨msg, call.receiver, call.method⟩] ∧
          s'.pendingMessages = s.pendingMessages) := by
  refine ⟨⟨?_, ?_, rfl⟩, ⟨?_, ?_, ?_⟩, ?_, ?_⟩
  · simp [TQT_DBusConnectionPrivate.transmitMessageEmissionQueue, messageEmissionLoop_eq]
  · simp [TQT_DBusConnectionPrivate.transmitMessageEmissionQueue, messageEmissionLoop_eq]
  · unfold TQT_DBusConnectionPrivate.transmitResultEmissionQueue
    cases hq : s.m_resultEmissionQueue with
    | nil => simp
    | cons r rest => simp [resultEmissionLoop_eq]
  · unfold TQT_DBusConnectionPrivate.transmitResultEmissionQueue
    cases hq : s.m_resultEmissionQueue with
    | nil => simp [hq]
    | cons r rest => simp [resultEmissionLoop_eq]
  · unfold TQT_DBusConnectionPrivate.transmitResultEmissionQueue
    split <;> rfl
  · intro message s' handled h
    unfold TQT_DBusConnectionPrivate.handleSignal at h
    cases hm : TQT_DBusMessage.fromDBusMessage (some message) with
    | error e => simp [hm] at h
    | ok msg =>
        simp only [hm, Except.ok.injEq, Prod.mk.injEq] at h
        exact ⟨msg, rfl, by rw [← h.1], by rw [← h.1]⟩
  · intro pending reply s' h
    unfold TQT_DBusConnectionPrivate.qDBusResultReceived at h
    simp only [TQT_DBusConnectionPrivate.handleError] at h
    cases hf : TQMap.find pending s.pendingCalls with
    | none => simp [hf] at h
    | some call =>
        cases hm : TQT_DBusMessage.fromDBusMessage (some reply) with
        | error e => simp [hf, hm] at h
        | ok msg =>
            simp only [hf, hm, Except.ok.injEq,
              TQT_DBusConnectionPrivate.newMethodInResultEmissionQueue] at h
            exact ⟨call, msg, rfl, rfl, by rw [← h], by rw [← h]⟩

/-- Witness of C30: on a client connection with one signal queued, `handleSignal` puts a second
signal behind it, and the slot then emits the two in that order. -/
theorem emission_queue_order_witness :
    (∃ msg, TQT_DBusMessage.fromDBusMessage
          (some ⟨DBUS_MESSAGE_TYPE_SIGNAL, 9, 0, "/p", "i", "Second", ":1.5", none, []⟩) =
        .ok msg ∧
      ({ TQT_DBusConnectionPrivate.init with
         mode := .ClientMode, connection := 1, m_messageEmissionQueueTimerActive := true,
         pendingMessages := [TQT_DBusMessage.signal "/p" "i" "First", msg] } :
        TQT_DBusConnectionPrivate).pendingMessages =
        [TQT_DBusMessage.signal "/p" "i" "First"] ++ [msg] ∧
      ({ TQT_DBusConnectionPrivate.init with
         mode := .ClientMode, connection := 1, m_messageEmissionQueueTimerActive := true,
         pendingMessages := [TQT_DBusMessage.signal "/p" "i" "First", msg] } :
        TQT_DBusConnectionPrivate).transmitMessageEmissionQueue.2 =
        [TQT_DBusMessage.signal "/p" "i" "First", msg]) ∧
    ({ TQT_DBusConnectionPrivate.init with
       m_resultEmissionQueue :=
         [⟨TQT_DBusMessage.default, 5, "a".toList⟩, ⟨TQT_DBusMessage.default, 6, "b".toList⟩] } :
      TQT_DBusConnectionPrivate).transmitResultEmissionQueue.2.map (fun r => r.receiver) =
      [5, 6] :=
  ⟨((emission_queue_order
        ({ TQT_DBusConnectionPrivate.init with
           mode := .ClientMode, connection := 1,
           pendingMessages := [TQT_DBusMessage.signal "/p" "i" "First"] } :
          TQT_DBusConnectionPrivate)).2.2.1
        ⟨DBUS_MESSAGE_TYPE_SIGNAL, 9, 0, "/p", "i", "Second", ":1.5", none, []⟩ _ true
        rfl).elim
      (fun msg hmsg => ⟨msg, hmsg.1, rfl, (emission_queue_order _).1.1⟩),
   congrArg (List.map (fun r => r.receiver))
     (emission_queue_order
       ({ TQT_DBusConnectionPrivate.init with
          m_resultEmissionQueue :=
            [⟨TQT_DBusMessage.default, 5, "a".toList⟩,
             ⟨TQT_DBusMessage.default, 6, "b".toList⟩] } :
         TQT_DBusConnectionPrivate)).2.1.1⟩

/-! ## Conversion to native types -/

theorem int32Values_two (a b : TQT_DBusData) :
    (∃ values, TQT_DBusDataConverter.int32Values [a, b] = some values) ↔
      (a.type = .Int32 ∧ b.type = .Int32) := by
  cases a <;> cases b <;>
    simp [TQT_DBusDataConverter.int32Values, TQT_DBusData.toInt32, TQT_DBusData.type, setOk]

/-- C31. The conversion `convertFromTQT_DBusData<TQPoint>(d, p)` returns Success exactly when `d` is a
Struct with exactly two members, both of type Int32, and then `p` holds member 0 as
`x` and member 1 as `y`; in every other case it returns InvalidSignature and `p` is
as before.  The conversion of the result of `convertToTQT_DBusData` succeeds and gives
back the point, the size, and the rectangle (whose coordinates are 32-bit
values) it was made from. -/
theorem struct_to_native_conversion (d : TQT_DBusData) (p p0 : TQPoint) (s s0 : TQSize)
    (r r0 : TQRect) :
    ((TQT_DBusDataConverter.convertFromTQT_DBusData_TQPoint d p).1 = .Success ↔
      (d.type = .Struct ∧ (d.toStruct none).1.length = 2 ∧
        ∀ m ∈ (d.toStruct none).1, m.type = .Int32)) ∧
    (∀ a b : Int,
      TQT_DBusDataConverter.convertFromTQT_DBusData_TQPoint
          (TQT_DBusData.struct [TQT_DBusData.int32 a, TQT_DBusData.int32 b]) p =
        (.Success, ⟨a, b⟩)) ∧
    ((TQT_DBusDataConverter.convertFromTQT_DBusData_TQPoint d p).1 = .Success →
      (TQT_DBusDataConverter.convertFromTQT_DBusData_TQPoint d p).2.xp =
          (((d.toStruct none).1.getD 0 TQT_DBusData.invalid).toInt32 none).1 ∧
      (TQT_DBusDataConverter.convertFromTQT_DBusData_TQPoint d p).2.yp =
          (((d.toStruct none).1.getD 1 TQT_DBusData.invalid).toInt32 none).1) ∧
    ((TQT_DBusDataConverter.convertFromTQT_DBusData_TQPoint d p).1 ≠ .Success →
      TQT_DBusDataConverter.convertFromTQT_DBusData_TQPoint d p = (.InvalidSignature, p)) ∧
    (TQT_DBusDataConverter.convertFromTQT_DBusData_TQPoint
        (TQT_DBusDataConverter.convertToTQT_DBusData_TQPoint p0).2 p = (.Success, p0)) ∧
    (TQT_DBusDataConverter.convertFromTQT_DBusData_TQSize
        (TQT_DBusDataConverter.convertToTQT_DBusData_TQSize s0).2 s = (.Success, s0)) ∧
    ((-2 ^ 31 ≤ r0.x1 ∧ r0.x1 < 2 ^ 31) → (-2 ^ 31 ≤ r0.y1 ∧ r0.y1 < 2 ^ 31) →
      (-2 ^ 31 ≤ r0.x2 ∧ r0.x2 < 2 ^ 31) → (-2 ^ 31 ≤ r0.y2 ∧ r0.y2 < 2 ^ 31) →
      TQT_DBusDataConverter.convertFromTQT_DBusData_TQRect
        (TQT_DBusDataConverter.convertToTQT_DBusData_TQRect r0).2 r = (.Success, r0)) := by
  have hshape : (d.type = .Struct ∧ (d.toStruct none).1.length = 2 ∧
        ∀ m ∈ (d.toStruct none).1, m.type = .Int32) ↔
      ∃ a b : Int, d = TQT_DBusData.struct [TQT_DBusData.int32 a, TQT_DBusData.int32 b] := by
    constructor
    · rintro ⟨ht, hl, hm⟩
      cases d <;> simp [TQT_DBusData.type] at ht
      rename_i members
      simp only [TQT_DBusData.toStruct] at hl hm
      match members, hl with
      | [x, y], _ =>
          have hx := hm x (by simp)
          have hy := hm y (by simp)
          cases x <;> simp [TQT_DBusData.type] at hx
          cases y <;> simp [TQT_DBusData.type] at hy
          exact ⟨_, _, rfl⟩
    · rintro ⟨a, b, rfl⟩
      simp [TQT_DBusData.type, TQT_DBusData.toStruct]
  have hval : ∀ a b : Int,
      TQT_DBusDataConverter.convertFromTQT_DBusData_TQPoint
          (TQT_DBusData.struct [TQT_DBusData.int32 a, TQT_DBusData.int32 b]) p =
        (.Success, ⟨a, b⟩) := fun a b => rfl
  have hfail : (¬ ∃ a b : Int,
        d = TQT_DBusData.struct [TQT_DBusData.int32 a, TQT_DBusData.int32 b]) →
      TQT_DBusDataConverter.convertFromTQT_DBusData_TQPoint d p = (.InvalidSignature, p) := by
    intro hne
    unfold TQT_DBusDataConverter.convertFromTQT_DBusData_TQPoint
    by_cases ht : d.type = .Struct
    · cases d <;> simp [TQT_DBusData.type] at ht
      rename_i members
      simp only [TQT_DBusData.type, TQT_DBusData.toStruct, bne_self_eq_false,
        Bool.false_eq_true, if_false]
      by_cases hl : members.length = 2
      · match members, hl with
        | [x, y], _ =>
            have hxy : ¬ (x.type = .Int32 ∧ y.type = .Int32) := by
              rintro ⟨hx, hy⟩
              cases x <;> simp [TQT_DBusData.type] at hx
              cases y <;> simp [TQT_DBusData.type] at hy
              exact hne ⟨_, _, rfl⟩
            have hnone : TQT_DBusDataConverter.int32Values [x, y] = none := by
              cases hv : TQT_DBusDataConverter.int32Values [x, y] with
              | none => rfl
              | some values => exact absurd ((int32Values_two x y).1 ⟨values, hv⟩) hxy
            simp [hnone]
      · simp [hl]
    · simp [ht]
  refine ⟨?_, hval, ?_, ?_, rfl, rfl, ?_⟩
  · rw [hshape]
    constructor
    · intro h
      by_contra hne
      rw [hfail hne] at h
      simp at h
    · rintro ⟨a, b, rfl⟩
      rw [hval]
  · intro h
    by_cases hex : ∃ a b : Int,
        d = TQT_DBusData.struct [TQT_DBusData.int32 a, TQT_DBusData.int32 b]
    · obtain ⟨a, b, rfl⟩ := hex
      rw [hval]
      exact ⟨rfl, rfl⟩
    · rw [hfail hex] at h
      simp at h
  · intro h
    by_cases hex : ∃ a b : Int,
        d = TQT_DBusData.struct [TQT_DBusData.int32 a, TQT_DBusData.int32 b]
    · obtain ⟨a, b, rfl⟩ := hex
      rw [hval] at h
      exact absurd rfl h
    · exact hfail hex
  · intro hx1 hy1 hx2 hy2
    obtain ⟨x1, y1, x2, y2⟩ := r0
    simp only at hx1 hy1 hx2 hy2
    show (TQT_DBusDataConverter.Result.Success,
        TQRect.ofSize x1 y1 (TQRect.width ⟨x1, y1, x2, y2⟩) (TQRect.height ⟨x1, y1, x2, y2⟩)) = _
    have hw : wrapInt32 (wrapInt32 (x1 + wrapInt32 (wrapInt32 (x2 - x1) + 1)) - 1) = x2 := by
      unfold wrapInt32
      omega
    have hh : wrapInt32 (wrapInt32 (y1 + wrapInt32 (wrapInt32 (y2 - y1) + 1)) - 1) = y2 := by
      unfold wrapInt32
      omega
    simp only [TQRect.ofSize, TQRect.width, TQRect.height, hw, hh]

theorem struct_to_native_conversion_witness :
    TQT_DBusDataConverter.convertFromTQT_DBusData_TQRect
        (TQT_DBusDataConverter.convertToTQT_DBusData_TQRect ⟨-3, 4, 16, 4⟩).2 ⟨0, 0, 0, 0⟩ =
      (.Success, ⟨-3, 4, 16, 4⟩) ∧
    (TQT_DBusDataConverter.convertFromTQT_DBusData_TQPoint
        (TQT_DBusData.struct [TQT_DBusData.int32 7, TQT_DBusData.string "y"]) ⟨1, 2⟩).1 ≠
      .Success :=
  ⟨(struct_to_native_conversion (TQT_DBusData.struct [TQT_DBusData.int32 7]) ⟨1, 2⟩ ⟨0, 0⟩
      ⟨0, 0⟩ ⟨0, 0⟩ ⟨0, 0, 0, 0⟩ ⟨-3, 4, 16, 4⟩).2.2.2.2.2.2
      (by decide) (by decide) (by decide) (by decide),
   by decide⟩

/-! ## Dict entries of a Map -/

/-- C33 (the code at the failing input). For a Map with Int32 keys 1 and 2 the encoder
appends both keys to the enclosing iterator, ahead of the array, and each dict
entry of the array holds the value only; the same happens for a key of each of
the kinds Byte, Int16, UInt16, UInt32, Int64, UInt64 and UnixFd (for a UnixFd
key what is handed over is the address of the handle object, not of its
descriptor number).  For String and ObjectPath keys nothing but the array is
appended and each dict entry holds the key and then the value. -/
theorem basic_key_written_outside_dict_entry :
    listToMessage
        [TQT_DBusData.fromKeyMap (TQT_DBusDataMap.ofTQMap .Int32
          [(.int32 1, TQT_DBusData.fromString "x"), (.int32 2, TQT_DBusData.fromString "y")])] [] =
      [.basic (.int32 1), .basic (.int32 2),
       .array ['{', 'i', 's', '}']
         [.dictEntry [.basic (.string ['x'])], .dictEntry [.basic (.string ['y'])]]] ∧
    listToMessage
        [TQT_DBusData.fromKeyMap (TQT_DBusDataMap.ofTQMap .String
          [(.string "a", TQT_DBusData.fromString "x"),
           (.string "b", TQT_DBusData.fromString "y")])] [] =
      [.array ['{', 's', 's', '}']
         [.dictEntry [.basic (.string ['a']), .basic (.string ['x'])],
          .dictEntry [.basic (.string ['b']), .basic (.string ['y'])]]] ∧
    listToMessage
        [TQT_DBusData.fromKeyMap (TQT_DBusDataMap.ofTQMap .ObjectPath
          [(.objectPath ⟨"/a"⟩, TQT_DBusData.fromBool true)])] [] =
      [.array ['{', 'o', 'b', '}']
         [.dictEntry [.basic (.objectPath ['/', 'a']), .basic (.boolean true)]]] ∧
    listToMessage
        [TQT_DBusData.fromKeyMap (TQT_DBusDataMap.ofTQMap .Byte
          [(.byte 1, TQT_DBusData.fromBool true)])] [] =
      [.basic (.byte 1), .array ['{', 'y', 'b', '}'] [.dictEntry [.basic (.boolean true)]]] ∧
    listToMessage
        [TQT_DBusData.fromKeyMap (TQT_DBusDataMap.ofTQMap .Int16
          [(.int16 1, TQT_DBusData.fromBool true)])] [] =
      [.basic (.int16 1), .array ['{', 'n', 'b', '}'] [.dictEntry [.basic (.boolean true)]]] ∧
    listToMessage
        [TQT_DBusData.fromKeyMap (TQT_DBusDataMap.ofTQMap .UInt16
          [(.uint16 1, TQT_DBusData.fromBool true)])] [] =
      [.basic (.uint16 1), .array ['{', 'q', 'b', '}'] [.dictEntry [.basic (.boolean true)]]] ∧
    listToMessage
        [TQT_DBusData.fromKeyMap (TQT_DBusDataMap.ofTQMap .UInt32
          [(.uint32 1, TQT_DBusData.fromBool true)])] [] =
      [.basic (.uint32 1), .array ['{', 'u', 'b', '}'] [.dictEntry [.basic (.boolean true)]]] ∧
    listToMessage
        [TQT_DBusData.fromKeyMap (TQT_DBusDataMap.ofTQMap .Int64
          [(.int64 1, TQT_DBusData.fromBool true)])] [] =
      [.basic (.int64 1), .array ['{', 'x', 'b', '}'] [.dictEntry [.basic (.boolean true)]]] ∧
    listToMessage
        [TQT_DBusData.fromKeyMap (TQT_DBusDataMap.ofTQMap .UInt64
          [(.uint64 1, TQT_DBusData.fromBool true)])] [] =
      [.basic (.uint64 1), .array ['{', 't', 'b', '}'] [.dictEntry [.basic (.boolean true)]]] ∧
    listToMessage
        [TQT_DBusData.fromKeyMap (TQT_DBusDataMap.ofTQMap .UnixFd
          [(.unixFd ⟨.allocated 1, 3⟩, TQT_DBusData.fromBool true)])] [] =
      [.basic (.handleObject ⟨.allocated 1, 3⟩), .array ['{', 'h', 'b', '}'] [.dictEntry [.basic (.boolean true)]]] := by
  refine ⟨?_, ?_, ?_, ?_, ?_, ?_, ?_, ?_, ?_, ?_⟩ <;> rfl

/-! ## Appending to a list -/

/-- C34. The operator `l << d` with an Invalid `d` leaves every list `l` unchanged.  For a list `l`
whose type is Invalid and a valid `d`, the list after `l << d` has the type of `d`,
one element more, the elements of `l` followed by `d`; and if `d` is a List,
Struct or Map (or any other container kind) the list reports a container item
type, which is `d` and so has the signature of `d`. -/
theorem append_to_untyped_list (l : TQT_DBusDataList) (d : TQT_DBusData) :
    (d.type = .Invalid → l.append d = l) ∧
    (l.type = .Invalid → d.type ≠ .Invalid →
      (l.append d).type = d.type ∧
      (l.append d).count = l.count + 1 ∧
      (l.append d).toTQValueList = l.toTQValueList ++ [d] ∧
      (l.append d).toTQValueList.getLast? = some d ∧
      ((d.type = .List ∨ d.type = .Struct ∨ d.type = .Map ∨ isContainerType d.type = true) →
        (l.append d).hasContainerItemType = true ∧
        (l.append d).containerItemType = d ∧
        (l.append d).containerItemType.buildDBusSignature = d.buildDBusSignature)) := by
  constructor
  · intro hd
    simp [TQT_DBusDataList.append, hd]
  · intro hl hd
    have happ : l.append d =
        ⟨d.type, if isContainerType d.type then d else l.containerItem, l.list ++ [d]⟩ := by
      simp [TQT_DBusDataList.append, hd, hl]
    rw [happ]
    refine ⟨rfl, by simp [TQT_DBusDataList.count], rfl,
      by simp [TQT_DBusDataList.toTQValueList], ?_⟩
    intro hc
    have hcont : isContainerType d.type = true := by
      rcases hc with h | h | h | h
      · rw [h]; rfl
      · rw [h]; rfl
      · rw [h]; rfl
      · exact h
    simp [TQT_DBusDataList.hasContainerItemType, TQT_DBusDataList.containerItemType, hcont]

theorem append_to_untyped_list_witness :
    ((TQT_DBusDataList.default.append (TQT_DBusData.fromStruct [TQT_DBusData.fromInt32 1])).type =
        .Struct ∧
      (TQT_DBusDataList.default.append (TQT_DBusData.fromStruct [TQT_DBusData.fromInt32 1])).count =
        1) ∧
    (TQT_DBusDataList.ofType .Int32).append TQT_DBusData.invalid = TQT_DBusDataList.ofType .Int32 :=
  ⟨⟨((append_to_untyped_list TQT_DBusDataList.default
        (TQT_DBusData.fromStruct [TQT_DBusData.fromInt32 1])).2 rfl (by decide)).1,
    ((append_to_untyped_list TQT_DBusDataList.default
        (TQT_DBusData.fromStruct [TQT_DBusData.fromInt32 1])).2 rfl (by decide)).2.1⟩,
   rfl⟩

/-! ## Untyped containers -/

/-- C35 (the code at the failing input). The list constructed from a `TQValueList` of two Invalid
objects has type Invalid and two elements, and so has a list assigned that
collection; the map constructed from a `TQMap` whose two values are Invalid
objects has value type Invalid and two entries.  The operator `operator<<` and `insert`
refuse the same Invalid object. -/
theorem untyped_container_not_empty :
    (TQT_DBusDataList.ofTQValueList [TQT_DBusData.invalid, TQT_DBusData.invalid]).type =
      .Invalid ∧
    (TQT_DBusDataList.ofTQValueList [TQT_DBusData.invalid, TQT_DBusData.invalid]).count = 2 ∧
    (TQT_DBusDataList.assignTQValueList TQT_DBusDataList.default
        [TQT_DBusData.invalid, TQT_DBusData.invalid]).type = .Invalid ∧
    (TQT_DBusDataList.assignTQValueList TQT_DBusDataList.default
        [TQT_DBusData.invalid, TQT_DBusData.invalid]).count = 2 ∧
    (TQT_DBusDataMap.ofTQMap .Int32
        [(.int32 1, TQT_DBusData.invalid), (.int32 2, TQT_DBusData.invalid)]).valueType =
      .Invalid ∧
    (TQT_DBusDataMap.ofTQMap .Int32
        [(.int32 1, TQT_DBusData.invalid), (.int32 2, TQT_DBusData.invalid)]).count = 2 ∧
    (TQT_DBusDataList.default.append TQT_DBusData.invalid).count = 0 ∧
    ((TQT_DBusDataMap.default .Int32).insert (.int32 1) TQT_DBusData.invalid).1.count = 0 := by
  refine ⟨?_, ?_, ?_, ?_, ?_, ?_, ?_, ?_⟩ <;> rfl

/-! ## Equality and signatures -/

/-- C36. For all data objects `a` and `b` (compared by content, as objects built from
separately constructed contents are), if `a == b` then the signature of `a` is the
signature of `b`. -/
theorem equal_values_equal_signatures (stale : Nat) (a b : TQT_DBusData)
    (h : TQT_DBusData.operatorEq stale a b = true) :
    a.buildDBusSignature = b.buildDBusSignature :=
  (operatorEq_type_signature stale a b h).2

theorem equal_values_equal_signatures_witness :
    TQT_DBusData.operatorEq 0
        (TQT_DBusData.fromList (TQT_DBusDataList.ofTQValueList [TQT_DBusData.fromInt32 1]))
        (TQT_DBusData.fromList (TQT_DBusDataList.ofInt32List [1])) = true ∧
    (TQT_DBusData.fromList
        (TQT_DBusDataList.ofTQValueList [TQT_DBusData.fromInt32 1])).buildDBusSignature =
      (TQT_DBusData.fromList (TQT_DBusDataList.ofInt32List [1])).buildDBusSignature :=
  ⟨by decide, equal_values_equal_signatures 0 _ _ (by decide)⟩

/-! ## Termination of the signature parser -/

/-- C37 (the code at the failing input). The parser needs no more turns of its loop than the
signature has characters, whatever the signature: a budget of the length plus
one is never used up.  On the well-formed signature `a{bs}`, an array of dict
entries with a boolean key, the inner call on `{bs}` returns an empty list
(the key kind has no map class, nothing is appended), and the array case then
indexes that empty list; the same happens with a floating-point key, `a{ds}`.
With a key kind that has a map class, `a{ss}`, the inner call returns one
prototype. -/
theorem parseSignature_indexes_empty_list_for_bool_key :
    (∀ signature : List Char, parseSignature signature ≠ .error .outOfFuel) ∧
    parseSignature ['{', 'b', 's', '}'] = .ok ([], []) ∧
    parseSignature ['a', '{', 'b', 's', '}'] = .error .emptyListIndexed ∧
    parseSignature ['a', '{', 'd', 's', '}'] = .error .emptyListIndexed ∧
    parseSignature ['{', 's', 's', '}'] =
      .ok ([TQT_DBusData.fromKeyMap (TQT_DBusDataMap.ofType .String .String)], []) ∧
    parseSignature ['a', '{', 's', 's', '}'] =
      .ok ([TQT_DBusData.fromKeyMap (TQT_DBusDataMap.ofType .String .String)], []) :=
  ⟨fun signature =>
      (parseSignatureLoop_budget (signature.length + 1) signature [] (Nat.lt_succ_self _)).1,
   rfl, rfl, rfl, rfl, rfl⟩

/-! ## Object path nodes -/

theorem findRev_last_separator (pre ns : List Char) (h : '/' ∉ ns) :
    TQString.findRev (pre ++ '/' :: ns) '/' = pre.length := by
  have hidx : (pre ++ '/' :: ns).reverse.indexOf '/' = ns.length := by
    have hr : (pre ++ '/' :: ns).reverse = ns.reverse ++ '/' :: pre.reverse := by simp
    rw [hr, List.indexOf_append_of_not_mem (by simpa using h)]
    simp
  unfold TQString.findRev
  simp only [hidx, List.length_append, List.length_cons]
  rw [if_pos (by omega)]
  push_cast
  omega

theorem validate_valid_shape (cs : List Char)
    (h : TQT_DBusObjectPath.validate (String.mk cs) = -1) :
    ∃ t, cs = '/' :: t ∧ (t = [] ∨ cs.getLast? ≠ some '/') := by
  unfold TQT_DBusObjectPath.validate at h
  simp only [String.toList] at h
  cases cs with
  | nil => simp at h
  | cons a t =>
      simp only [List.isEmpty_cons, List.head?_cons, Bool.false_or] at h
      by_cases ha : a = '/'
      · subst ha
        refine ⟨t, rfl, ?_⟩
        by_cases ht : t = []
        · exact Or.inl ht
        · right
          intro hl
          have hlen : ('/' :: t).length > 1 := by
            cases t with
            | nil => exact absurd rfl ht
            | cons b u => simp
          rw [hl] at h
          simp only [beq_self_eq_true, Bool.true_and, decide_eq_true hlen, if_true] at h
          have hnn : (0 : Int) ≤ (('/' :: t).length : Int) - 1 := by
            have : (2 : Int) ≤ (('/' :: t).length : Int) := by exact_mod_cast hlen
            omega
          omega
      · simp [ha] at h

/-- C39. For every path `p` that `validate` accepts and every non-empty node name `n` without
a `/`, the path `c` constructed from the parent `p` and the name `n` is valid, is
`p + n` when `p` is `/` and `p + "/" + n` otherwise, and the parent node of `c` is
`p`.  The parent node of `/` is the empty path, which is not valid. -/
theorem object_path_child_parent (p : TQT_DBusObjectPath) (n : String)
    (hp : TQT_DBusObjectPath.validate p.path = -1) (hn : n.toList ≠ [])
    (hs : '/' ∉ n.toList) :
    (TQT_DBusObjectPath.ofParentNode p n).isValid = true ∧
    (TQT_DBusObjectPath.ofParentNode p n).path =
      (if p.path = "/" then p.path ++ n else p.path ++ "/" ++ n) ∧
    (TQT_DBusObjectPath.ofParentNode p n).parentNode = p ∧
    (⟨"/"⟩ : TQT_DBusObjectPath).parentNode = ⟨""⟩ ∧
    (⟨""⟩ : TQT_DBusObjectPath).isValid = false := by
  obtain ⟨⟨cs⟩⟩ := p
  obtain ⟨ns⟩ := n
  simp only at hp
  have hn : ns ≠ [] := hn
  have hs : '/' ∉ ns := hs
  obtain ⟨t, hcs, hlast⟩ := validate_valid_shape cs hp
  have hnlast : ∀ pre : List Char, (pre ++ ns).getLast? ≠ some '/' := by
    intro pre hl
    rw [List.getLast?_append_of_ne_nil _ hn] at hl
    exact hs (List.mem_of_getLast?_eq_some hl)
  have hvalid : ∀ u : List Char,
      TQT_DBusObjectPath.isValid ⟨String.mk ('/' :: (u ++ ns))⟩ = true := by
    intro u
    have h1 := hnlast ('/' :: u)
    simp only [List.cons_append] at h1
    simp [TQT_DBusObjectPath.isValid, TQT_DBusObjectPath.validate, h1]
  have hparent : ∀ pre : List Char, pre ≠ [] →
      TQT_DBusObjectPath.parentNode ⟨String.mk (pre ++ '/' :: ns)⟩ = ⟨String.mk pre⟩ := by
    intro pre hpre
    have hlen : (pre ++ '/' :: ns).length ≠ 1 := by
      cases pre with
      | nil => exact absurd rfl hpre
      | cons a u => simp
    have hpl : pre.length ≠ 0 := by
      cases pre with
      | nil => exact absurd rfl hpre
      | cons a u => simp
    have hf := findRev_last_separator pre ns hs
    have h1 : ((pre.length : Int) == -1) = false := by
      rw [beq_eq_false_iff_ne]; omega
    have h2 : ((pre.length : Int) == 0) = false := by
      rw [beq_eq_false_iff_ne]; omega
    unfold TQT_DBusObjectPath.parentNode
    have hlen2 : ((pre ++ '/' :: ns).length == 1) = false := by
      rw [beq_eq_false_iff_ne]; exact hlen
    simp only [String.toList, hf, hlen2, h1, h2, Bool.false_eq_true, if_false]
    simp [TQString.left]
  refine ⟨?_, ?_, ?_, by decide, by decide⟩
  · subst hcs
    by_cases ht : t = []
    · subst ht
      simpa [TQT_DBusObjectPath.ofParentNode] using hvalid []
    · have hl : ('/' :: t).length ≠ 1 := by
        cases t with
        | nil => exact absurd rfl ht
        | cons b u => simp
      have := hvalid (t ++ '/' :: [])
      simpa [TQT_DBusObjectPath.ofParentNode, hl, ht] using this
  · subst hcs
    by_cases ht : t = []
    · subst ht
      simp [TQT_DBusObjectPath.ofParentNode]
      rfl
    · have hl : ('/' :: t).length ≠ 1 := by
        cases t with
        | nil => exact absurd rfl ht
        | cons b u => simp
      have hne : (String.mk ('/' :: t)) ≠ "/" := by
        intro h
        have := congrArg String.toList h
        simp at this
        exact ht this
      simp only [TQT_DBusObjectPath.ofParentNode, bne_iff_ne, ne_eq, hl, not_false_eq_true,
        if_true, hne, if_false]
      apply String.ext
      simp [ht]
  · subst hcs
    by_cases ht : t = []
    · subst ht
      have hlen : ('/' :: ns).length ≠ 1 := by
        cases ns with
        | nil => exact absurd rfl hn
        | cons a u => simp
      have hf := findRev_last_separator [] ns hs
      simp only [List.nil_append, List.length_nil] at hf
      have hn2 : ¬ ns = [] := hn
      simp [TQT_DBusObjectPath.ofParentNode, TQT_DBusObjectPath.parentNode, hlen, hf,
        TQString.left, hn2]
    · have hl : ('/' :: t).length ≠ 1 := by
        cases t with
        | nil => exact absurd rfl ht
        | cons b u => simp
      have := hparent ('/' :: t) (by simp)
      simpa [TQT_DBusObjectPath.ofParentNode, hl, ht] using this

theorem object_path_child_parent_witness :
    TQT_DBusObjectPath.validate "/org/example" = -1 ∧
    (TQT_DBusObjectPath.ofParentNode ⟨"/org/example"⟩ "node").parentNode = ⟨"/org/example"⟩ ∧
    (TQT_DBusObjectPath.ofParentNode ⟨"/"⟩ "node").path = "/node" :=
  ⟨by decide,
   (object_path_child_parent ⟨"/org/example"⟩ "node" (by decide) (by decide) (by decide)).2.2.1,
   by decide⟩

/-! ## Socket watches -/

theorem purgeList_spins (list : List TQT_DBusConnectionPrivate.Watcher) :
    (∃ w ∈ list, w.read ≠ 0 ∨ w.write ≠ 0) →
      ∀ fuel, TQT_DBusConnectionPrivate.purgeList fuel list = none := by
  induction list with
  | nil => rintro ⟨w, hw, _⟩; simp at hw
  | cons x rest ih =>
      intro hex fuel
      by_cases hx : x.read = 0 ∧ x.write = 0
      · have hrest : ∃ w ∈ rest, w.read ≠ 0 ∨ w.write ≠ 0 := by
          obtain ⟨w, hw, hact⟩ := hex
          rcases List.mem_cons.1 hw with h | h
          · subst h
            rcases hact with h1 | h1
            · exact absurd hx.1 h1
            · exact absurd hx.2 h1
          · exact ⟨w, h, hact⟩
        cases fuel with
        | zero => rfl
        | succ n =>
            simp only [TQT_DBusConnectionPrivate.purgeList, hx.1, hx.2, beq_self_eq_true,
              Bool.and_self, if_true]
            exact ih hrest n
      · have hcond : (x.read == 0 && x.write == 0) = false := by
          rw [Bool.and_eq_false_iff]
          by_cases h1 : x.read = 0
          · right
            rw [beq_eq_false_iff_ne]
            exact fun h2 => hx ⟨h1, h2⟩
          · left
            rw [beq_eq_false_iff_ne]
            exact h1
        induction fuel with
        | zero => rfl
        | succ n ihn =>
            simp only [TQT_DBusConnectionPrivate.purgeList, hcond, Bool.false_eq_true, if_false]
            exact ihn

theorem purgeWatchers_spins (fuel : Nat)
    (watchers : List (Int × List TQT_DBusConnectionPrivate.Watcher)) :
    (∃ e ∈ watchers, ∃ w ∈ e.2, w.read ≠ 0 ∨ w.write ≠ 0) →
      TQT_DBusConnectionPrivate.purgeWatchers fuel watchers = none := by
  induction watchers with
  | nil => rintro ⟨e, he, _⟩; simp at he
  | cons x rest ih =>
      obtain ⟨fd, list⟩ := x
      rintro ⟨e, he, hact⟩
      simp only [TQT_DBusConnectionPrivate.purgeWatchers]
      cases hl : TQT_DBusConnectionPrivate.purgeList fuel list with
      | none => rfl
      | some l2 =>
          rcases List.mem_cons.1 he with h | h
          · subst h
            rw [purgeList_spins list hact fuel] at hl
            exact absurd hl (by simp)
          · simp only [ih ⟨e, h, hact⟩]

theorem purgeList_all_removed (list : List TQT_DBusConnectionPrivate.Watcher)
    (h : ∀ w ∈ list, w.read = 0 ∧ w.write = 0) :
    ∀ fuel, list.length < fuel → TQT_DBusConnectionPrivate.purgeList fuel list = some [] := by
  induction list with
  | nil =>
      intro fuel hf
      cases fuel with
      | zero => omega
      | succ n => rfl
  | cons x rest ih =>
      intro fuel hf
      cases fuel with
      | zero => omega
      | succ n =>
          have hx := h x (by simp)
          simp only [TQT_DBusConnectionPrivate.purgeList, hx.1, hx.2, beq_self_eq_true,
            Bool.and_self, if_true]
          exact ih (fun w hw => h w (by simp [hw])) n (by simpa using hf)

/-- C38 (the code at the failing input). Whenever `removedWatches` is not empty and some list of the
table holds a watcher that still has a read or a write notifier, no number of
loop turns lets `purgeRemovedWatches` return: the inner loop does not move past
that watcher.  Such a state is what the callbacks leave after two watches were
added for descriptor 5 and the first one removed.  When `removedWatches` is
empty the call returns at once with nothing changed, and when no watcher of
the list of a descriptor has a notifier the inner loop erases them all. -/
theorem purgeRemovedWatches_spins_on_active_watcher :
    (∀ (fuel : Nat) (d : TQT_DBusConnectionPrivate.Watches),
      d.removedWatches ≠ [] →
      (∃ e ∈ d.watchers, ∃ w ∈ e.2, w.read ≠ 0 ∨ w.write ≠ 0) →
      TQT_DBusConnectionPrivate.purgeRemovedWatches fuel d = none) ∧
    qDBusRemoveWatch
        (qDBusAddWatch (qDBusAddWatch ⟨[], []⟩ 11 true false 5 true 21 22)
          12 false true 5 true 23 24) 11 5 =
      (⟨[⟨11, 21, 0⟩], [(5, [⟨0, 0, 0⟩, ⟨12, 0, 24⟩])]⟩, true) ∧
    (∀ fuel : Nat,
      TQT_DBusConnectionPrivate.purgeRemovedWatches fuel
        ⟨[⟨11, 21, 0⟩], [(5, [⟨0, 0, 0⟩, ⟨12, 0, 24⟩])]⟩ = none) ∧
    (∀ (fuel : Nat) (d : TQT_DBusConnectionPrivate.Watches),
      d.removedWatches = [] →
      TQT_DBusConnectionPrivate.purgeRemovedWatches fuel d = some d) ∧
    (∀ (fuel : Nat) (list : List TQT_DBusConnectionPrivate.Watcher),
      (∀ w ∈ list, w.read = 0 ∧ w.write = 0) → list.length < fuel →
      TQT_DBusConnectionPrivate.purgeList fuel list = some []) ∧
    TQT_DBusConnectionPrivate.purgeRemovedWatches 3
        ⟨[⟨11, 21, 0⟩, ⟨12, 0, 24⟩], [(5, [⟨0, 0, 0⟩, ⟨0, 0, 0⟩])]⟩ = some ⟨[], []⟩ := by
  have hgen : ∀ (fuel : Nat) (d : TQT_DBusConnectionPrivate.Watches),
      d.removedWatches ≠ [] →
      (∃ e ∈ d.watchers, ∃ w ∈ e.2, w.read ≠ 0 ∨ w.write ≠ 0) →
      TQT_DBusConnectionPrivate.purgeRemovedWatches fuel d = none := by
    intro fuel d hne hact
    have hemp : d.removedWatches.isEmpty = false := by
      cases hr : d.removedWatches with
      | nil => exact absurd hr hne
      | cons a b => rfl
    simp [TQT_DBusConnectionPrivate.purgeRemovedWatches, hemp, purgeWatchers_spins fuel _ hact]
  refine ⟨hgen, by decide, ?_, ?_, ?_, by decide⟩
  · intro fuel
    exact hgen fuel _ (by simp)
      ⟨(5, [⟨0, 0, 0⟩, ⟨12, 0, 24⟩]), by simp, ⟨12, 0, 24⟩, by simp, Or.inr (by decide)⟩
  · intro fuel d hd
    simp [TQT_DBusConnectionPrivate.purgeRemovedWatches, hd]
  · intro fuel list h hf
    exact purgeList_all_removed list h fuel hf

/-! ## Asynchronous calls -/

theorem toInt_injective (a b : Nat) (ha : a < 2 ^ 32) (hb : b < 2 ^ 32)
    (h : TQT_DBusMessage.toInt a = TQT_DBusMessage.toInt b) : a = b := by
  unfold TQT_DBusMessage.toInt at h
  rw [Nat.mod_eq_of_lt ha, Nat.mod_eq_of_lt hb] at h
  split_ifs at h <;> omega

/-- A call that returns a number other than zero has gone through to the library: the
pending call is recorded with the proxy as receiver and the number is the
serial of the message. -/
theorem sendWithAsyncReply_nonzero (p : TQT_DBusProxy.Private) (c : TQT_DBusConnection)
    (self : Nat) (method : String) (params : List TQT_DBusData) (library : SendResults)
    (h : (TQT_DBusProxy.sendWithAsyncReply p c self method params library).2 ≠ 0) :
    ∃ d pending serial, c.d = some d ∧ library.sent = some (pending, serial) ∧
      TQT_DBusProxy.sendWithAsyncReply p c self method params library =
        (⟨some { d with
            pendingCalls :=
              (TQMap.assign pending
                (⟨self, TQ_SLOT "handleAsyncReply(const TQT_DBusMessage&)", pending⟩ :
                  TQT_DBusPendingCall)
                d.pendingCalls) }⟩,
         TQT_DBusMessage.toInt serial) := by
  unfold TQT_DBusProxy.sendWithAsyncReply at h ⊢
  split_ifs at h ⊢ with hc
  · exact absurd rfl h
  · obtain ⟨cd⟩ := c
    cases cd with
    | none => exact absurd rfl h
    | some d =>
        simp only [TQT_DBusConnection.sendWithAsyncReply] at h ⊢
        split_ifs at h ⊢ with hconn
        · exact absurd rfl h
        · simp only [TQT_DBusConnectionPrivate.sendWithReplyAsync] at h ⊢
          split_ifs at h ⊢ with hr hk
          · exact absurd rfl h
          · exact absurd rfl h
          · cases hm : TQT_DBusMessage.toDBusMessage
                { TQT_DBusMessage.methodCall p.service p.path p.interface method with
                  arguments :=
                    (TQT_DBusMessage.methodCall p.service p.path p.interface method).arguments ++
                      params } library.created with
            | none =>
                rw [hm] at h
                exact absurd rfl h
            | some msg =>
                rw [hm] at h
                simp only [hm]
                cases hsent : library.sent with
                | none =>
                    rw [hsent] at h
                    exact absurd rfl h
                | some q =>
                    obtain ⟨pending, serial⟩ := q
                    exact ⟨d, pending, serial, rfl, rfl, rfl⟩

/-- A reply the library hands over for a pending call of the proxy is delivered to the slot
of the proxy, and `asyncReply` is emitted with the reply serial of the reply. -/
theorem asyncReply_of_pending (p : TQT_DBusProxy.Private) (s s3 : TQT_DBusConnectionPrivate)
    (self pending : Nat) (reply : DBusMessage)
    (hfind : ∃ call, TQMap.find pending s.pendingCalls = some call ∧ call.receiver = self ∧
      call.method = TQ_SLOT "handleAsyncReply(const TQT_DBusMessage&)")
    (h : TQT_DBusConnectionPrivate.qDBusResultReceived s pending reply = .ok s3) :
    ∃ message,
      (TQT_DBusConnectionPrivate.transmitResultEmissionQueue s3).2 =
        s.m_resultEmissionQueue ++
          [⟨message, self, TQ_SLOT "handleAsyncReply(const TQT_DBusMessage&)"⟩] ∧
      (TQT_DBusProxy.handleAsyncReply p message).2 =
        (TQT_DBusMessage.toInt reply.replySerial, message) := by
  obtain ⟨call, hcall, hrecv, hmeth⟩ := hfind
  unfold TQT_DBusConnectionPrivate.qDBusResultReceived at h
  simp only [TQT_DBusConnectionPrivate.handleError, hcall] at h
  cases hm : TQT_DBusMessage.fromDBusMessage (some reply) with
  | error e =>
      rw [hm] at h
      simp at h
  | ok message =>
      rw [hm] at h
      simp only [TQT_DBusConnectionPrivate.newMethodInResultEmissionQueue, Except.ok.injEq] at h
      refine ⟨message, ?_, ?_⟩
      · subst h
        simp [TQT_DBusConnectionPrivate.transmitResultEmissionQueue, resultEmissionLoop_eq,
          hrecv, hmeth]
      · have hmsg : message.d.msg = some reply := by
          unfold TQT_DBusMessage.fromDBusMessage at hm
          simp only at hm
          cases hl : messageToList [] reply.arguments with
          | error e =>
              rw [hl] at hm
              simp at hm
          | ok list =>
              rw [hl] at hm
              simp only [Except.ok.injEq] at hm
              rw [← hm]
        simp [TQT_DBusProxy.handleAsyncReply, TQT_DBusMessage.replySerialNumber, hmsg]
